import Mathlib

/-!
Verification of the FSM hex-record codec (`fsm_converter.py`).

This file shallowly embeds the codec: the record text parser/formatter
(`parse_record` / `format_record`), the encoder `fsm_to_hex` and the decoder
`hex_to_fsm`, together with the Python container semantics they rely on
(insertion-ordered dicts, sets, and `int(s, 16)` parsing), and proves the
specification's testable properties about them.
-/

namespace FsmToolkit

/-! ## Python container primitives

Python `dict` is modelled as an insertion-ordered association list whose keys
are unique: `pyInsert` updates an existing key in place, otherwise appends.
Python `set` (of the small ints used here) is modelled as an insertion-ordered
duplicate-free list. -/

/-- Insertion-ordered association list standing in for a Python `dict`. -/
abbrev PyDict (α β : Type) := List (α × β)

/-- `d[k] = v` on a Python dict: update in place if the key exists, else append. -/
def pyInsert {α β : Type} [DecidableEq α] (d : PyDict α β) (k : α) (v : β) :
    PyDict α β :=
  if d.any (fun p => p.1 = k) then
    d.map (fun p => if p.1 = k then (k, v) else p)
  else
    d ++ [(k, v)]

/-- `d.get(k)` on a Python dict. -/
def pyGet? {α β : Type} [DecidableEq α] (d : PyDict α β) (k : α) : Option β :=
  (d.find? (fun p => p.1 = k)).map (·.2)

/-- `s.add(x)` on a Python set, keeping first-insertion order. -/
def pySetAdd {α : Type} [DecidableEq α] (s : List α) (x : α) : List α :=
  if x ∈ s then s else s ++ [x]

/-- `sorted(s)` on a set of numeric ids. -/
def sortedNat (l : List Nat) : List Nat := l.insertionSort (· ≤ ·)

/-! ## Hex characters and Python `int(s, 16)` -/

/-- The characters accepted as hexadecimal digits. -/
def isHexDigitChar (c : Char) : Bool :=
  ('0' ≤ c ∧ c ≤ '9') ∨ ('a' ≤ c ∧ c ≤ 'f') ∨ ('A' ≤ c ∧ c ≤ 'F')

/-- Numeric value of a hexadecimal digit character. -/
def hexVal (c : Char) : Nat :=
  if '0' ≤ c ∧ c ≤ '9' then c.toNat - '0'.toNat
  else if 'a' ≤ c ∧ c ≤ 'f' then c.toNat - 'a'.toNat + 10
  else c.toNat - 'A'.toNat + 10

/-- Characters stripped by Python's `str.strip()` (the ASCII whitespace set). -/
def isPyWS (c : Char) : Bool :=
  c = ' ' ∨ c = '\t' ∨ c = '\n' ∨ c = '\r' ∨ c = Char.ofNat 11 ∨ c = Char.ofNat 12

/-- `s.strip()`: drop leading and trailing whitespace. -/
def pyStrip (cs : List Char) : List Char :=
  ((cs.dropWhile isPyWS).reverse.dropWhile isPyWS).reverse

/-- Digit run of Python `int(·, 16)` after sign and prefix handling: a
nonempty run of hex digits in which single underscores may separate digits. -/
def pyHexRun : List Char → Nat → Option Nat
  | [], acc => some acc
  | c :: rest, acc =>
    if isHexDigitChar c then pyHexRun rest (acc * 16 + hexVal c)
    else if c = '_' then
      match rest with
      | [] => none
      | d :: _ => if isHexDigitChar d then pyHexRun rest acc else none
    else none

/-- Leading digit of the run must be a hex digit (no leading underscore). -/
def pyHexDigits (cs : List Char) : Option Nat :=
  match cs with
  | [] => none
  | c :: rest => if isHexDigitChar c then pyHexRun rest (hexVal c) else none

/-- Magnitude part of Python `int(·, 16)`: an optional `0x`/`0X` prefix
(possibly followed by one underscore), then the digit run. -/
def pyHexMagnitude (cs : List Char) : Option Nat :=
  match cs with
  | '0' :: x :: rest =>
    if x = 'x' ∨ x = 'X' then
      match rest with
      | '_' :: r => pyHexDigits r
      | _ => pyHexDigits rest
    else pyHexDigits cs
  | _ => pyHexDigits cs

/-- Python `int(s, 16)`: strip surrounding whitespace, optional sign, optional
`0x` prefix, digits with embedded single underscores.  `none` models the
`ValueError` raised on malformed input. -/
def pyIntHex (cs : List Char) : Option Int :=
  match pyStrip cs with
  | '+' :: rest => (pyHexMagnitude rest).map Int.ofNat
  | '-' :: rest => (pyHexMagnitude rest).map (fun n => -(Int.ofNat n))
  | rest => (pyHexMagnitude rest).map Int.ofNat

/-! ## The record codec (`parse_record` / `format_record`) -/

/-- `record.replace(" ", "").replace(":", "")`. -/
def cleanRecord (record : String) : List Char :=
  record.toList.filter (fun c => ¬ (c = ' ' ∨ c = ':'))

/-- `parse_record`: strip spaces and colons, require exactly 20 characters,
then parse the five 4-character fields with `int(·, 16)`.  `none` models the
`ValueError` raised on malformed input. -/
def parse_record (record : String) : Option (Int × Int × Int × Int × Int) :=
  let clean := cleanRecord record
  if clean.length = 20 then
    match pyIntHex (clean.take 4), pyIntHex ((clean.drop 4).take 4),
        pyIntHex ((clean.drop 8).take 4), pyIntHex ((clean.drop 12).take 4),
        pyIntHex ((clean.drop 16).take 4) with
    | some t, some a, some b, some c, some d => some (t, a, b, c, d)
    | _, _, _, _, _ => none
  else none

/-- Uppercase hexadecimal digit characters, in value order. -/
def hexDigitChar (d : Nat) : Char := "0123456789ABCDEF".toList.getD d '0'

/-- Uppercase hexadecimal digits of `n` (the `%X` conversion). -/
def hexChars (n : Nat) : List Char :=
  if h : n < 16 then [hexDigitChar n]
  else hexChars (n / 16) ++ [hexDigitChar (n % 16)]
decreasing_by exact Nat.div_lt_self (by omega) (by omega)

/-- The `%04X` conversion: hex digits of `n`, zero-padded to width 4. -/
def pad4Hex (n : Nat) : List Char :=
  let ds := hexChars n
  List.replicate (4 - ds.length) '0' ++ ds

/-- `format_record`: render a record as `TYPE SSSS:IIII TTTT:OOOO`. -/
def format_record (rec_type f1 f2 f3 f4 : Nat) : String :=
  ⟨pad4Hex rec_type ++ [' '] ++ pad4Hex f1 ++ [':'] ++ pad4Hex f2 ++ [' '] ++
    pad4Hex f3 ++ [':'] ++ pad4Hex f4⟩

/-! ## The FSM data model -/

/-- A transition's `to` field: a single state name or an ordered list. -/
inductive Tgt : Type
  | one (s : String)
  | many (ss : List String)
deriving DecidableEq, Repr

/-- One transition dict `{from, input, to, output}`.  `input = none` is the
absent/epsilon input; `output = none` means the `output` key is absent. -/
structure Trans : Type where
  src : String
  input : Option String := none
  to' : Tgt
  output : Option String := none
deriving DecidableEq, Repr

/-- The `FSM` dataclass. -/
structure FSM : Type where
  fsm_type : String
  name : String := ""
  description : String := ""
  states : List String := []
  alphabet : List String := []
  initial : Option String := none
  accepting : List String := []
  transitions : List Trans := []
  state_outputs : PyDict String String := []
  output_alphabet : List String := []
deriving DecidableEq, Repr

/-- Effectful map over a list in the `Option` monad: the first failing
element aborts the whole traversal, like an uncaught Python exception. -/
def mapMOpt {a b : Type} (f : a → Option b) : List a → Option (List b)
  | [] => some []
  | x :: xs =>
    match f x, mapMOpt f xs with
    | some y, some ys => some (y :: ys)
    | _, _ => none

/-- Record type markers and the epsilon sentinel. -/
def TYPE_DFA_TRANSITION : Nat := 0x0000

/-- Mealy transition record type. -/
def TYPE_MEALY_TRANSITION : Nat := 0x0001

/-- State declaration record type. -/
def TYPE_STATE_DECL : Nat := 0x0002

/-- NFA multi-target transition record type. -/
def TYPE_NFA_MULTI : Nat := 0x0003

/-- Special input value marking an epsilon transition. -/
def EPSILON_INPUT : Nat := 0xFFFF

/-- One wire record: five unsigned 16-bit fields `(type, f1, f2, f3, f4)`. -/
structure Record : Type where
  rtype : Nat
  f1 : Nat
  f2 : Nat
  f3 : Nat
  f4 : Nat
deriving DecidableEq, Repr

/-- The five fields of a record as the tuple `parse_record` would return. -/
def Record.toInts (r : Record) : Int × Int × Int × Int × Int :=
  (Int.ofNat r.rtype, Int.ofNat r.f1, Int.ofNat r.f2, Int.ofNat r.f3,
    Int.ofNat r.f4)

/-! ## `json_to_fsm` validation

Only the three capacity checks are performed when a model is constructed;
`none` models the `ValueError` raised when a table is too large. -/

/-- The validation performed by `json_to_fsm` after field extraction. -/
def json_to_fsm (fsm : FSM) : Option FSM :=
  if fsm.states.length > 65535 then none
  else if fsm.alphabet.length > 65534 then none
  else if fsm.output_alphabet.length > 65535 then none
  else some fsm

/-! ## The encoder (`fsm_to_hex`) -/

/-- `{s: i for i, s in enumerate(xs)}`. -/
def buildIdx (xs : List String) : PyDict String Nat :=
  xs.enum.foldl (fun d p => pyInsert d p.2 p.1) []

/-- `{i: s for s, i in d.items()}`. -/
def invertDict (d : PyDict String Nat) : PyDict Nat String :=
  d.foldl (fun m p => pyInsert m p.2 p.1) []

/-- Per-state flags: bit 0 = initial, bit 1 = accepting. -/
def stateFlags (fsm : FSM) (s : String) : Nat :=
  (if fsm.initial = some s then 1 else 0) |||
    (if s ∈ fsm.accepting then 2 else 0)

/-- The state-declaration record emitted for one state of a Moore machine.
The id lookup `state_idx[state]` cannot fail because `state` is drawn from
`fsm.states`; `.getD 0` is never reached. -/
def mooreDecl (fsm : FSM) (state_idx : PyDict String Nat)
    (output_idx : PyDict String Nat) (s : String) : Record :=
  let sid := (pyGet? state_idx s).getD 0
  let out := match pyGet? fsm.state_outputs s with
    | some state_out =>
      match pyGet? output_idx state_out with
      | some oi => oi + 1
      | none => 0
    | none => 0
  ⟨TYPE_STATE_DECL, sid, stateFlags fsm s, out, 0⟩

/-- State-declaration records: all states for Moore machines, only flagged
states otherwise. -/
def stateDecls (fsm : FSM) (state_idx : PyDict String Nat)
    (output_idx : PyDict String Nat) : List Record :=
  if fsm.fsm_type = "moore" then
    fsm.states.map (mooreDecl fsm state_idx output_idx)
  else
    fsm.states.filterMap (fun s =>
      if stateFlags fsm s ≠ 0 then
        some ⟨TYPE_STATE_DECL, (pyGet? state_idx s).getD 0, stateFlags fsm s, 0, 0⟩
      else none)

/-- The records emitted for a single transition.  `none` models the uncaught
`KeyError`/`IndexError` a missing name raises during encoding. -/
def encodeTrans (fsm : FSM) (state_idx input_idx output_idx : PyDict String Nat)
    (t : Trans) : Option (List Record) :=
  match pyGet? state_idx t.src with
  | none => none
  | some src =>
    let inp? : Option Nat :=
      match t.input with
      | none => some EPSILON_INPUT
      | some s =>
        if s = "epsilon" ∨ s = "ε" then some EPSILON_INPUT else pyGet? input_idx s
    match inp? with
    | none => none
    | some inp =>
      let targets : List String := match t.to' with
        | .one s => [s]
        | .many ss => ss
      if fsm.fsm_type = "mealy" then
        match targets with
        | [] => none
        | t0 :: _ =>
          match pyGet? state_idx t0 with
          | none => none
          | some tgt =>
            let out := (pyGet? output_idx (t.output.getD "")).getD 0
            some [⟨TYPE_MEALY_TRANSITION, src, inp, tgt, out⟩]
      else if targets.length = 1 then
        match pyGet? state_idx (targets.getD 0 "") with
        | none => none
        | some tgt => some [⟨TYPE_DFA_TRANSITION, src, inp, tgt, 0⟩]
      else
        mapMOpt (fun p =>
          (pyGet? state_idx p.2).map (fun tgt =>
            Record.mk TYPE_NFA_MULTI src inp tgt
              (if p.1 < targets.length - 1 then 1 else 0))) targets.enum

/-- `fsm_to_hex` up to record formatting: the record tuples plus the three
reverse id→name maps.  `none` models an uncaught lookup error. -/
def fsm_to_hex_recs (fsm : FSM) :
    Option (List Record × PyDict Nat String × PyDict Nat String × PyDict Nat String) :=
  let state_idx := buildIdx fsm.states
  let input_idx := buildIdx fsm.alphabet
  let output_idx := buildIdx fsm.output_alphabet
  let state_names := invertDict state_idx
  let input_names := invertDict input_idx
  let output_names := invertDict output_idx
  match mapMOpt (encodeTrans fsm state_idx input_idx output_idx) fsm.transitions with
  | none => none
  | some blocks =>
    some (stateDecls fsm state_idx output_idx ++ blocks.flatten,
      state_names, input_names, output_names)

/-- `fsm_to_hex`: the formatted record strings plus the reverse maps. -/
def fsm_to_hex (fsm : FSM) :
    Option (List String × PyDict Nat String × PyDict Nat String × PyDict Nat String) :=
  (fsm_to_hex_recs fsm).map (fun r =>
    (r.1.map (fun x => format_record x.rtype x.f1 x.f2 x.f3 x.f4), r.2))

/-! ## The decoder (`hex_to_fsm`)

The decoder works on already-parsed records (the spec's wire unit: five
unsigned 16-bit fields); `parse_record` covers the textual layer.  Python sets
are modelled as insertion-ordered duplicate-free lists; the only operations
the decoder performs on them are `add`, `sorted(...)` and iteration for
renaming, none of which is affected by the iteration-order choice beyond the
order of the decoded `accepting` list, which the spec treats as a set. -/

/-- An id-level transition accumulated by the decode loop. -/
inductive TgtId : Type
  | one (t : Nat)
  | many (ts : List Nat)
deriving DecidableEq, Repr

/-- Decoded transition before name resolution. -/
structure TransId : Type where
  src : Nat
  input : Option Nat
  to' : TgtId
  output : Option Nat := none
deriving DecidableEq, Repr

/-- The label tables handed to `hex_to_fsm`, with numeric keys (the decoder
normalises textual `0xNNNN` keys to numbers before use). -/
structure Labels : Type where
  metaType : Option String := none
  metaName : Option String := none
  metaDescription : Option String := none
  states : PyDict Nat String := []
  inputs : PyDict Nat String := []
  outputs : PyDict Nat String := []
deriving DecidableEq, Repr

/-- The running state of the decode loop. -/
structure DecState : Type where
  state_ids : List Nat := []
  input_ids : List Nat := []
  output_ids : List Nat := []
  has_mealy : Bool := false
  has_nfa_multi : Bool := false
  has_moore_outputs : Bool := false
  initial_state : Option Nat := none
  accepting_states : List Nat := []
  state_outputs : PyDict Nat Nat := []
  transitions : List TransId := []
  nfa_pending : Option (Nat × Nat × List Nat) := none
deriving DecidableEq, Repr

/-- The transition built when a pending NFA group is flushed. -/
def pendingTrans (p : Nat × Nat × List Nat) : TransId :=
  ⟨p.1, if p.2.1 = EPSILON_INPUT then none else some p.2.1, .many p.2.2, none⟩

/-- One iteration of the decode loop.  Records with an unknown type fall
through every branch and leave the state unchanged. -/
def decodeStep (st : DecState) (r : Record) : DecState :=
  if r.rtype = TYPE_STATE_DECL then
    let st := { st with state_ids := pySetAdd st.state_ids r.f1 }
    let st := if r.f2 &&& 0x1 ≠ 0 then { st with initial_state := some r.f1 } else st
    let st := if r.f2 &&& 0x2 ≠ 0 then
      { st with accepting_states := pySetAdd st.accepting_states r.f1 } else st
    if r.f3 ≠ 0 then
      { st with
        has_moore_outputs := true
        state_outputs := pyInsert st.state_outputs r.f1 (r.f3 - 1)
        output_ids := pySetAdd st.output_ids (r.f3 - 1) }
    else st
  else if r.rtype = TYPE_DFA_TRANSITION then
    let st := { st with
      state_ids := pySetAdd (pySetAdd st.state_ids r.f1) r.f3
      input_ids := if r.f2 ≠ EPSILON_INPUT then pySetAdd st.input_ids r.f2
        else st.input_ids }
    { st with transitions := st.transitions ++
        [⟨r.f1, if r.f2 ≠ EPSILON_INPUT then some r.f2 else none, .one r.f3, none⟩] }
  else if r.rtype = TYPE_MEALY_TRANSITION then
    let st := { st with
      has_mealy := true
      state_ids := pySetAdd (pySetAdd st.state_ids r.f1) r.f3
      input_ids := if r.f2 ≠ EPSILON_INPUT then pySetAdd st.input_ids r.f2
        else st.input_ids
      output_ids := pySetAdd st.output_ids r.f4 }
    { st with transitions := st.transitions ++
        [⟨r.f1, if r.f2 ≠ EPSILON_INPUT then some r.f2 else none, .one r.f3,
          some r.f4⟩] }
  else if r.rtype = TYPE_NFA_MULTI then
    let st := { st with
      has_nfa_multi := true
      state_ids := pySetAdd (pySetAdd st.state_ids r.f1) r.f3
      input_ids := if r.f2 ≠ EPSILON_INPUT then pySetAdd st.input_ids r.f2
        else st.input_ids }
    let flushed : DecState × (Nat × Nat × List Nat) :=
      match st.nfa_pending with
      | none => (st, (r.f1, r.f2, [r.f3]))
      | some p =>
        if p.1 ≠ r.f1 ∨ p.2.1 ≠ r.f2 then
          ({ st with transitions := st.transitions ++ [pendingTrans p] },
            (r.f1, r.f2, [r.f3]))
        else (st, (p.1, p.2.1, p.2.2 ++ [r.f3]))
    if r.f4 = 0 then
      { flushed.1 with
        transitions := flushed.1.transitions ++ [pendingTrans flushed.2]
        nfa_pending := none }
    else { flushed.1 with nfa_pending := some flushed.2 }
  else st

/-- End-of-stream flush of a still-pending NFA group. -/
def eosFlush (st : DecState) : DecState :=
  match st.nfa_pending with
  | some p =>
    { st with
      transitions := st.transitions ++ [pendingTrans p]
      nfa_pending := none }
  | none => st

/-- The decode loop over all records, including the end-of-stream flush of a
still-pending NFA group. -/
def decodeAll (records : List Record) : DecState :=
  eosFlush (records.foldl decodeStep {})

/-- The type inferred from the features observed during the loop. -/
def inferType (st : DecState) : String :=
  if st.has_mealy then "mealy"
  else if st.has_moore_outputs then "moore"
  else if st.has_nfa_multi ∨ st.transitions.any (fun t => t.input.isNone) then "nfa"
  else "dfa"

/-- Name of a state id: label-table entry or synthesized `S{i}`. -/
def stateName (L : Labels) (i : Nat) : String :=
  (pyGet? L.states i).getD ("S" ++ toString i)

/-- Name of an input id: label-table entry or synthesized `i{i}`. -/
def inputName (L : Labels) (i : Nat) : String :=
  (pyGet? L.inputs i).getD ("i" ++ toString i)

/-- Name of an output id: label-table entry or synthesized `o{i}`. -/
def outputName (L : Labels) (i : Nat) : String :=
  (pyGet? L.outputs i).getD ("o" ++ toString i)

/-- One of the decoder's `{i: name(i) for i in ids}` comprehensions. -/
def nameMapOf (ids : List Nat) (f : Nat → String) : PyDict Nat String :=
  ids.foldl (fun d i => pyInsert d i (f i)) []

/-- Decoded machine type: inferred from observed features, overridden by a
truthy label-table type. -/
def decodedType (L : Labels) (st : DecState) : String :=
  match L.metaType with
  | some t => if t ≠ "" then t else inferType st
  | none => inferType st

/-- Name resolution of one id-level transition. -/
def nameTrans (state_map input_map output_map : PyDict Nat String)
    (t : TransId) : Trans :=
  { src := (pyGet? state_map t.src).getD ""
    input := t.input.bind (fun i => pyGet? input_map i)
    to' := match t.to' with
      | .one x => Tgt.one ((pyGet? state_map x).getD "")
      | .many xs => Tgt.many (xs.map (fun x => (pyGet? state_map x).getD ""))
    output := t.output.map (fun o => (pyGet? output_map o).getD "") }

/-- `hex_to_fsm` on parsed records.  Dict indexings such as
`state_map[t["from"]]` are modelled with `.getD ""`; they can never miss
because every id a transition mentions was registered in the corresponding id
set by the loop (proved below as the well-formedness invariant). -/
def hex_to_fsm (records : List Record) (labels : Option Labels) : FSM :=
  let L := labels.getD {}
  let st := decodeAll records
  let fsm_type := decodedType L st
  let state_map := nameMapOf st.state_ids (stateName L)
  let input_map := nameMapOf st.input_ids (inputName L)
  let output_map := nameMapOf st.output_ids (outputName L)
  { fsm_type := fsm_type
    name := L.metaName.getD ""
    description := L.metaDescription.getD ""
    states := (sortedNat st.state_ids).map (stateName L)
    alphabet := (sortedNat st.input_ids).map (inputName L)
    initial := st.initial_state.bind (fun i => pyGet? state_map i)
    accepting := st.accepting_states.map (fun s => (pyGet? state_map s).getD "")
    transitions := st.transitions.map (nameTrans state_map input_map output_map)
    state_outputs := if fsm_type = "moore" then
        st.state_outputs.map (fun p =>
          ((pyGet? state_map p.1).getD "", (pyGet? output_map p.2).getD ""))
      else []
    output_alphabet := (sortedNat st.output_ids).map (outputName L) }

/-- The label tables `generate_labels_toml` writes from an encoding's reverse
maps: machine metadata (always including the type) plus the three id→name
tables. -/
def labelsFrom (fsm : FSM) (state_names input_names output_names : PyDict Nat String) :
    Labels :=
  { metaType := some fsm.fsm_type
    metaName := if fsm.name ≠ "" then some fsm.name else none
    metaDescription := if fsm.description ≠ "" then some fsm.description else none
    states := state_names
    inputs := input_names
    outputs := output_names }

/-! ## Lemmas about the record text codec -/

/-- Accumulated value of a hex digit string. -/
def hexValList (cs : List Char) : Nat :=
  cs.foldl (fun a c => a * 16 + hexVal c) 0

theorem pyHexRun_all_hex (cs : List Char) (acc : Nat)
    (h : ∀ c ∈ cs, isHexDigitChar c) :
    pyHexRun cs acc = some (cs.foldl (fun a c => a * 16 + hexVal c) acc) := by
  induction cs generalizing acc with
  | nil => rfl
  | cons c rest ih =>
    have hc : isHexDigitChar c := h c (by simp)
    simp only [pyHexRun, hc, if_true, List.foldl_cons]
    exact ih _ (fun d hd => h d (by simp [hd]))

theorem pyHexDigits_all_hex (cs : List Char) (hne : cs ≠ [])
    (h : ∀ c ∈ cs, isHexDigitChar c) :
    pyHexDigits cs = some (hexValList cs) := by
  match cs with
  | [] => exact absurd rfl hne
  | c :: rest =>
    have hc : isHexDigitChar c := h c (by simp)
    simp only [pyHexDigits, hc, if_true, hexValList, List.foldl_cons]
    have := pyHexRun_all_hex rest (hexVal c) (fun d hd => h d (by simp [hd]))
    simpa using this

theorem not_hex_x : isHexDigitChar 'x' = false ∧ isHexDigitChar 'X' = false := by
  decide

theorem pyHexMagnitude_unprefixed (cs : List Char)
    (h : ∀ x rest, cs = '0' :: x :: rest → ¬ (x = 'x' ∨ x = 'X')) :
    pyHexMagnitude cs = pyHexDigits cs := by
  unfold pyHexMagnitude
  split
  · rename_i x rest
    rw [if_neg (h x rest rfl)]
  · rfl

theorem pyHexMagnitude_all_hex (cs : List Char) (hne : cs ≠ [])
    (h : ∀ c ∈ cs, isHexDigitChar c) :
    pyHexMagnitude cs = some (hexValList cs) := by
  rw [pyHexMagnitude_unprefixed]
  · exact pyHexDigits_all_hex cs hne h
  · rintro x rest rfl (rfl | rfl)
    · exact absurd (h 'x' (by simp)) (by simp [not_hex_x.1])
    · exact absurd (h 'X' (by simp)) (by simp [not_hex_x.2])

theorem hex_not_ws (c : Char) (h : isHexDigitChar c) : isPyWS c = false := by
  simp only [isHexDigitChar, decide_eq_true_eq] at h
  simp only [isPyWS, decide_eq_false_iff_not]
  rcases h with h | h | h <;>
    rintro (rfl | rfl | rfl | rfl | rfl | rfl) <;> simp_all <;> omega

theorem dropWhile_of_none {p : Char → Bool} (cs : List Char)
    (h : ∀ c ∈ cs, p c = false) : cs.dropWhile p = cs := by
  cases cs with
  | nil => rfl
  | cons c rest => simp [List.dropWhile_cons, h c (by simp)]

theorem pyStrip_all_hex (cs : List Char) (h : ∀ c ∈ cs, isHexDigitChar c) :
    pyStrip cs = cs := by
  unfold pyStrip
  rw [dropWhile_of_none cs (fun c hc => hex_not_ws c (h c hc)),
    dropWhile_of_none cs.reverse
      (fun c hc => hex_not_ws c (h c (List.mem_reverse.mp hc))),
    List.reverse_reverse]

theorem hex_not_sign (c : Char) (h : isHexDigitChar c) : c ≠ '+' ∧ c ≠ '-' := by
  simp only [isHexDigitChar, decide_eq_true_eq] at h
  constructor <;> rintro rfl <;> rcases h with h | h | h <;> simp_all

theorem pyIntHex_all_hex (cs : List Char) (hne : cs ≠ [])
    (h : ∀ c ∈ cs, isHexDigitChar c) :
    pyIntHex cs = some (Int.ofNat (hexValList cs)) := by
  unfold pyIntHex
  rw [pyStrip_all_hex cs h]
  match cs, hne with
  | c :: rest, _ =>
    have hc := h c (by simp)
    have h1 : c ≠ '+' := (hex_not_sign c hc).1
    have h2 : c ≠ '-' := (hex_not_sign c hc).2
    have := pyHexMagnitude_all_hex (c :: rest) (by simp) h
    cases c <;> simp_all

theorem take4_ne_nil {cs : List Char} (k : Nat) (hlen : cs.length = 20)
    (hk : k + 4 ≤ 20) : (cs.drop k).take 4 ≠ [] := by
  have h : ((cs.drop k).take 4).length = 4 := by
    rw [List.length_take, List.length_drop, hlen]
    omega
  intro hnil
  rw [hnil] at h
  simp at h

/-- Claim C5 (amended): `parse_record` strips spaces and colons and fails
whenever anything but 20 characters remain; when the 20 remaining characters
are all hex digits it returns the five 4-character fields in order, so
`"0000 0001:0002 0003:0004"` parses to `(0,1,2,3,4)`.  (The original claim's
converse — that any non-hex character among the 20 makes the parse fail — is
refuted by `parse_record_accepts_nonhex_char` below: the host integer parser
also tolerates signs, underscores, `0x` prefixes and tabs inside a field.) -/
theorem parse_record_strictness :
    parse_record "0000 0001:0002 0003:0004" = some (0, 1, 2, 3, 4) ∧
    (∀ s : String, (cleanRecord s).length ≠ 20 → parse_record s = none) ∧
    (∀ s : String, (cleanRecord s).length = 20 →
      (∀ c ∈ cleanRecord s, isHexDigitChar c) →
      parse_record s = some
        (Int.ofNat (hexValList ((cleanRecord s).take 4)),
         Int.ofNat (hexValList (((cleanRecord s).drop 4).take 4)),
         Int.ofNat (hexValList (((cleanRecord s).drop 8).take 4)),
         Int.ofNat (hexValList (((cleanRecord s).drop 12).take 4)),
         Int.ofNat (hexValList (((cleanRecord s).drop 16).take 4)))) := by
  refine ⟨by decide, ?_, ?_⟩
  · intro s hlen
    unfold parse_record
    simp only [hlen, if_false]
  · intro s hlen hhex
    have sub0 : (cleanRecord s).take 4 ⊆ cleanRecord s := List.take_subset _ _
    have subk : ∀ k, ((cleanRecord s).drop k).take 4 ⊆ cleanRecord s :=
      fun k => (List.take_subset _ _).trans (List.drop_subset _ _)
    have g0 := pyIntHex_all_hex ((cleanRecord s).take 4)
      (by have := take4_ne_nil 0 hlen (by omega); simpa using this)
      (fun c hc => hhex c (sub0 hc))
    have g4 := pyIntHex_all_hex (((cleanRecord s).drop 4).take 4)
      (take4_ne_nil 4 hlen (by omega)) (fun c hc => hhex c (subk 4 hc))
    have g8 := pyIntHex_all_hex (((cleanRecord s).drop 8).take 4)
      (take4_ne_nil 8 hlen (by omega)) (fun c hc => hhex c (subk 8 hc))
    have g12 := pyIntHex_all_hex (((cleanRecord s).drop 12).take 4)
      (take4_ne_nil 12 hlen (by omega)) (fun c hc => hhex c (subk 12 hc))
    have g16 := pyIntHex_all_hex (((cleanRecord s).drop 16).take 4)
      (take4_ne_nil 16 hlen (by omega)) (fun c hc => hhex c (subk 16 hc))
    unfold parse_record
    simp only [hlen, if_true, g0, g4, g8, g12, g16]

/-- Witness for claim C5: a 3-character record text fails, and the spec's
sample record parses to `(0,1,2,3,4)`. -/
theorem parse_record_strictness_witness :
    (cleanRecord "abc").length ≠ 20 ∧ parse_record "abc" = none ∧
    parse_record "0000 0001:0002 0003:0004" = some
      (Int.ofNat (hexValList ((cleanRecord "0000 0001:0002 0003:0004").take 4)),
       Int.ofNat (hexValList (((cleanRecord "0000 0001:0002 0003:0004").drop 4).take 4)),
       Int.ofNat (hexValList (((cleanRecord "0000 0001:0002 0003:0004").drop 8).take 4)),
       Int.ofNat (hexValList (((cleanRecord "0000 0001:0002 0003:0004").drop 12).take 4)),
       Int.ofNat (hexValList (((cleanRecord "0000 0001:0002 0003:0004").drop 16).take 4))) :=
  ⟨by decide, parse_record_strictness.2.1 "abc" (by decide),
    parse_record_strictness.2.2 "0000 0001:0002 0003:0004" (by decide) (by decide)⟩

/-- Counterexample to claim C5 as stated: the record text
`"+000 0001:0002 0003:0004"` strips to 20 characters one of which, `'+'`, is
not a hex digit, yet `parse_record` succeeds (Python's `int(s, 16)` accepts a
leading sign inside the first field) instead of failing with a format error. -/
theorem parse_record_accepts_nonhex_char :
    parse_record "+000 0001:0002 0003:0004" = some (0, 1, 2, 3, 4) ∧
    '+' ∈ cleanRecord "+000 0001:0002 0003:0004" ∧
    isHexDigitChar '+' = false := by
  refine ⟨by decide, by decide, by decide⟩

/-! ## Dictionary and set lemmas -/

theorem pyInsert_of_not_mem {α β : Type} [DecidableEq α] (d : PyDict α β)
    (k : α) (v : β) (h : ∀ q ∈ d, q.1 ≠ k) : pyInsert d k v = d ++ [(k, v)] := by
  unfold pyInsert
  rw [if_neg]
  simp only [List.any_eq_true, decide_eq_true_eq, not_exists, not_and]
  intro q hq
  exact h q hq

/-- Folding `pyInsert` over fresh, pairwise-distinct keys just appends. -/
theorem foldl_pyInsert_gen {γ α β : Type} [DecidableEq α] (key : γ → α)
    (val : γ → β) (l : List γ) (acc : PyDict α β) (hnd : (l.map key).Nodup)
    (hfresh : ∀ x ∈ l, ∀ q ∈ acc, q.1 ≠ key x) :
    l.foldl (fun d i => pyInsert d (key i) (val i)) acc =
      acc ++ l.map (fun i => (key i, val i)) := by
  induction l generalizing acc with
  | nil => simp
  | cons p rest ih =>
    simp only [List.foldl_cons, List.map_cons]
    rw [pyInsert_of_not_mem acc (key p) (val p) (fun q hq => hfresh p (by simp) q hq)]
    rw [ih (acc ++ [(key p, val p)]) (by simpa using hnd.of_cons)]
    · simp
    · intro r hr q hq
      rcases List.mem_append.mp hq with hq | hq
      · exact hfresh r (by simp [hr]) q hq
      · simp only [List.mem_singleton] at hq
        subst hq
        simp only [List.map_cons, List.nodup_cons] at hnd
        intro he
        simp only at he
        exact hnd.1 (by rw [he]; exact List.mem_map_of_mem key hr)

theorem buildIdx_eq (xs : List String) (h : xs.Nodup) :
    buildIdx xs = xs.enum.map (fun p => (p.2, p.1)) := by
  unfold buildIdx
  have := foldl_pyInsert_gen (fun p : Nat × String => p.2)
    (fun p : Nat × String => p.1) xs.enum []
    (by rw [show xs.enum.map (fun p : Nat × String => p.2) = xs from
          List.enum_map_snd xs]
        exact h)
    (by simp)
  simpa using this

theorem pyGet?_cons {α β : Type} [DecidableEq α] (p : α × β) (d : PyDict α β)
    (k : α) :
    pyGet? (p :: d) k = if p.1 = k then some p.2 else pyGet? d k := by
  unfold pyGet?
  rw [List.find?]
  by_cases hp : p.1 = k
  · simp [hp]
  · simp [hp]

theorem pyGet?_swapped_enumFrom_get (xs : List String) (hnd : xs.Nodup)
    (n i : Nat) (hi : i < xs.length) :
    pyGet? ((xs.enumFrom n).map (fun p => (p.2, p.1))) (xs.get ⟨i, hi⟩) =
      some (n + i) := by
  induction xs generalizing n i with
  | nil => simp at hi
  | cons x rest ih =>
    simp only [List.enumFrom, List.map_cons]
    rw [pyGet?_cons]
    cases i with
    | zero => simp
    | succ j =>
      rw [if_neg]
      · have := ih hnd.of_cons (n + 1) j (by simpa using hi)
        simp only [List.get_cons_succ] at this ⊢
        rw [this]
        congr 1
        omega
      · intro he
        simp only [List.get_cons_succ] at he
        exact (List.nodup_cons.mp hnd).1
          (by rw [he]; exact List.get_mem rest j (by simpa using hi))

theorem pyGet?_swapped_enumFrom_some (xs : List String) (n : Nat) (s : String)
    (k : Nat)
    (h : pyGet? ((xs.enumFrom n).map (fun p => (p.2, p.1))) s = some k) :
    ∃ i, ∃ hi : i < xs.length, xs.get ⟨i, hi⟩ = s ∧ k = n + i := by
  induction xs generalizing n with
  | nil => simp [pyGet?] at h
  | cons x rest ih =>
    simp only [List.enumFrom, List.map_cons] at h
    rw [pyGet?_cons] at h
    by_cases hx : x = s
    · refine ⟨0, by simp, by simpa using hx, ?_⟩
      simp [hx] at h
      omega
    · rw [if_neg hx] at h
      obtain ⟨i, hi, hget, hk⟩ := ih (n + 1) h
      exact ⟨i + 1, by simpa using hi, by simpa using hget, by omega⟩

theorem pyGet?_swapped_enumFrom_none (xs : List String) (n : Nat) (s : String)
    (h : s ∉ xs) :
    pyGet? ((xs.enumFrom n).map (fun p => (p.2, p.1))) s = none := by
  induction xs generalizing n with
  | nil => simp [pyGet?]
  | cons x rest ih =>
    simp only [List.enumFrom, List.map_cons]
    rw [pyGet?_cons, if_neg (fun he => h (by simp [← he]))]
    exact ih (n + 1) (fun hm => h (by simp [hm]))

theorem pyGet?_buildIdx_get (xs : List String) (hnd : xs.Nodup) (i : Nat)
    (hi : i < xs.length) : pyGet? (buildIdx xs) (xs.get ⟨i, hi⟩) = some i := by
  rw [buildIdx_eq xs hnd, show xs.enum = xs.enumFrom 0 from rfl]
  simpa using pyGet?_swapped_enumFrom_get xs hnd 0 i hi

theorem pyGet?_buildIdx_some (xs : List String) (s : String) (k : Nat)
    (h : pyGet? (buildIdx xs) s = some k) (hnd : xs.Nodup) :
    ∃ hk : k < xs.length, xs.get ⟨k, hk⟩ = s := by
  rw [buildIdx_eq xs hnd, show xs.enum = xs.enumFrom 0 from rfl] at h
  obtain ⟨i, hi, hget, hk⟩ := pyGet?_swapped_enumFrom_some xs 0 s k h
  have hki : k = i := by omega
  subst hki
  exact ⟨hi, hget⟩

theorem pyGet?_buildIdx_none (xs : List String) (s : String) (hnd : xs.Nodup)
    (h : s ∉ xs) : pyGet? (buildIdx xs) s = none := by
  rw [buildIdx_eq xs hnd, show xs.enum = xs.enumFrom 0 from rfl]
  exact pyGet?_swapped_enumFrom_none xs 0 s h

theorem mem_pySetAdd {α : Type} [DecidableEq α] (s : List α) (x y : α) :
    y ∈ pySetAdd s x ↔ y ∈ s ∨ y = x := by
  unfold pySetAdd
  split
  · rename_i hx
    constructor
    · exact Or.inl
    · rintro (h | rfl)
      · exact h
      · exact hx
  · simp

theorem nodup_pySetAdd {α : Type} [DecidableEq α] (s : List α) (x : α)
    (h : s.Nodup) : (pySetAdd s x).Nodup := by
  unfold pySetAdd
  split
  · exact h
  · rename_i hx
    rw [List.nodup_append]
    refine ⟨h, by simp, ?_⟩
    intro a ha hb
    simp only [List.mem_singleton] at hb
    subst hb
    exact hx ha

theorem pyGet?_map_update {α β : Type} [DecidableEq α] (d : PyDict α β)
    (k : α) (v : β) (j : α) :
    pyGet? (d.map (fun p => if p.1 = k then (k, v) else p)) j =
      if j = k then (if d.any (fun p => p.1 = k) then some v else none)
      else pyGet? d j := by
  induction d with
  | nil => simp [pyGet?]
  | cons p rest ih =>
    simp only [List.map_cons, List.any_cons]
    by_cases hpk : p.1 = k
    · rw [if_pos hpk, pyGet?_cons, pyGet?_cons]
      by_cases hjk : j = k
      · subst hjk
        simp [hpk]
      · have h1 : ¬ ((k, v) : α × β).1 = j := fun h => hjk h.symm
        have h2 : ¬ p.1 = j := fun h => hjk (h.symm.trans hpk)
        rw [if_neg h1, if_neg h2, ih, if_neg hjk, if_neg hjk]
    · rw [if_neg hpk, pyGet?_cons, pyGet?_cons]
      by_cases hpj : p.1 = j
      · have hjk : ¬ j = k := fun h => hpk (hpj.trans h)
        rw [if_pos hpj, if_pos hpj, if_neg hjk]
      · rw [if_neg hpj, if_neg hpj, ih]
        by_cases hjk : j = k
        · rw [if_pos hjk, if_pos hjk]
          congr 1
          simp [hpk]
        · rw [if_neg hjk, if_neg hjk]

theorem pyGet?_append {α β : Type} [DecidableEq α] (d1 d2 : PyDict α β)
    (k : α) :
    pyGet? (d1 ++ d2) k =
      match pyGet? d1 k with
      | some v => some v
      | none => pyGet? d2 k := by
  induction d1 with
  | nil => simp [pyGet?]
  | cons p rest ih =>
    rw [List.cons_append, pyGet?_cons, pyGet?_cons]
    by_cases hp : p.1 = k
    · simp [hp]
    · simp only [if_neg hp]
      exact ih

theorem pyGet?_pyInsert {α β : Type} [DecidableEq α] (d : PyDict α β)
    (k : α) (v : β) (j : α) :
    pyGet? (pyInsert d k v) j = if j = k then some v else pyGet? d j := by
  unfold pyInsert
  split
  · rename_i hany
    rw [pyGet?_map_update]
    by_cases hjk : j = k
    · simp [hjk, hany]
    · simp [hjk]
  · rename_i hany
    rw [pyGet?_append]
    have hnone : pyGet? d k = none := by
      unfold pyGet?
      rw [List.find?_eq_none.mpr]
      · rfl
      · intro p hp
        simp only [List.any_eq_true] at hany
        simpa using fun h => hany ⟨p, hp, by simp [h]⟩
    have hkv_hit : pyGet? [(k, v)] k = some v := by
      simp [pyGet?, List.find?]
    have hkv_miss : ∀ j', ¬ j' = k → pyGet? [(k, v)] j' = none := by
      intro j' hjk
      unfold pyGet?
      rw [List.find?_eq_none.mpr]
      · rfl
      · intro p hp
        simp only [List.mem_singleton] at hp
        subst hp
        simpa using fun h => hjk h.symm
    by_cases hjk : j = k
    · subst hjk
      rw [if_pos rfl, hnone, hkv_hit]
    · rw [if_neg hjk]
      cases hd : pyGet? d j with
      | some v' => rfl
      | none => exact hkv_miss j hjk

theorem pyGet?_nameMapOf (ids : List Nat) (f : Nat → String) (k : Nat) :
    pyGet? (nameMapOf ids f) k = if k ∈ ids then some (f k) else none := by
  suffices h : ∀ d : PyDict Nat String,
      pyGet? (ids.foldl (fun d i => pyInsert d i (f i)) d) k =
        if k ∈ ids then some (f k) else pyGet? d k by
    have := h []
    simpa [nameMapOf, pyGet?] using this
  induction ids with
  | nil => simp
  | cons i rest ih =>
    intro d
    simp only [List.foldl_cons, ih (pyInsert d i (f i)), pyGet?_pyInsert]
    by_cases hkr : k ∈ rest
    · simp [hkr]
    · by_cases hki : k = i
      · simp [hki, hkr]
      · simp [hkr, hki]

theorem sortedNat_eq_range (l : List Nat) (n : Nat) (hnd : l.Nodup)
    (hmem : ∀ x, x ∈ l ↔ x < n) : sortedNat l = List.range n := by
  have hperm : l.Perm (List.range n) := by
    apply List.perm_of_nodup_nodup_toFinset_eq hnd (List.nodup_range n)
    ext a
    simp [hmem a, List.mem_range]
  have h1 : (sortedNat l).Perm (List.range n) :=
    (List.perm_insertionSort _ l).trans hperm
  refine List.eq_of_perm_of_sorted h1 (List.sorted_insertionSort _ l) ?_
  exact (List.pairwise_lt_range n).imp le_of_lt

/-! ## Characterization of the decode loop steps -/

theorem decodeStep_decl (st : DecState) (f1 f2 f3 f4 : Nat) :
    decodeStep st ⟨TYPE_STATE_DECL, f1, f2, f3, f4⟩ =
      { st with
        state_ids := pySetAdd st.state_ids f1
        initial_state := if f2 &&& 0x1 ≠ 0 then some f1 else st.initial_state
        accepting_states := if f2 &&& 0x2 ≠ 0 then
            pySetAdd st.accepting_states f1
          else st.accepting_states
        has_moore_outputs := if f3 ≠ 0 then true else st.has_moore_outputs
        state_outputs := if f3 ≠ 0 then pyInsert st.state_outputs f1 (f3 - 1)
          else st.state_outputs
        output_ids := if f3 ≠ 0 then pySetAdd st.output_ids (f3 - 1)
          else st.output_ids } := by
  unfold decodeStep
  rw [if_pos rfl]
  split_ifs <;> rfl

theorem decodeStep_dfa (st : DecState) (f1 f2 f3 f4 : Nat) :
    decodeStep st ⟨TYPE_DFA_TRANSITION, f1, f2, f3, f4⟩ =
      { st with
        state_ids := pySetAdd (pySetAdd st.state_ids f1) f3
        input_ids := if f2 ≠ EPSILON_INPUT then pySetAdd st.input_ids f2
          else st.input_ids
        transitions := st.transitions ++
          [⟨f1, if f2 ≠ EPSILON_INPUT then some f2 else none, .one f3, none⟩] } := by
  unfold decodeStep
  rw [if_neg (by simp [TYPE_DFA_TRANSITION, TYPE_STATE_DECL]), if_pos rfl]

theorem decodeStep_mealy (st : DecState) (f1 f2 f3 f4 : Nat) :
    decodeStep st ⟨TYPE_MEALY_TRANSITION, f1, f2, f3, f4⟩ =
      { st with
        has_mealy := true
        state_ids := pySetAdd (pySetAdd st.state_ids f1) f3
        input_ids := if f2 ≠ EPSILON_INPUT then pySetAdd st.input_ids f2
          else st.input_ids
        output_ids := pySetAdd st.output_ids f4
        transitions := st.transitions ++
          [⟨f1, if f2 ≠ EPSILON_INPUT then some f2 else none, .one f3,
            some f4⟩] } := by
  unfold decodeStep
  rw [if_neg (by simp [TYPE_MEALY_TRANSITION, TYPE_STATE_DECL]),
    if_neg (by simp [TYPE_MEALY_TRANSITION, TYPE_DFA_TRANSITION]), if_pos rfl]

theorem decodeStep_other (st : DecState) (r : Record)
    (h0 : r.rtype ≠ TYPE_DFA_TRANSITION) (h1 : r.rtype ≠ TYPE_MEALY_TRANSITION)
    (h2 : r.rtype ≠ TYPE_STATE_DECL) (h3 : r.rtype ≠ TYPE_NFA_MULTI) :
    decodeStep st r = st := by
  unfold decodeStep
  rw [if_neg h2, if_neg h0, if_neg h1, if_neg h3]

theorem decodeStep_nfa_fresh (st : DecState) (f1 f2 f3 f4 : Nat)
    (hp : st.nfa_pending = none) :
    decodeStep st ⟨TYPE_NFA_MULTI, f1, f2, f3, f4⟩ =
      if f4 = 0 then
        { st with
          has_nfa_multi := true
          state_ids := pySetAdd (pySetAdd st.state_ids f1) f3
          input_ids := if f2 ≠ EPSILON_INPUT then pySetAdd st.input_ids f2
            else st.input_ids
          transitions := st.transitions ++ [pendingTrans (f1, f2, [f3])]
          nfa_pending := none }
      else
        { st with
          has_nfa_multi := true
          state_ids := pySetAdd (pySetAdd st.state_ids f1) f3
          input_ids := if f2 ≠ EPSILON_INPUT then pySetAdd st.input_ids f2
            else st.input_ids
          nfa_pending := some (f1, f2, [f3]) } := by
  unfold decodeStep
  rw [if_neg (by simp [TYPE_NFA_MULTI, TYPE_STATE_DECL]),
    if_neg (by simp [TYPE_NFA_MULTI, TYPE_DFA_TRANSITION]),
    if_neg (by simp [TYPE_NFA_MULTI, TYPE_MEALY_TRANSITION]), if_pos rfl]
  simp only [hp]

theorem decodeStep_nfa_match (st : DecState) (f1 f2 f3 f4 : Nat)
    (acc : List Nat) (hp : st.nfa_pending = some (f1, f2, acc)) :
    decodeStep st ⟨TYPE_NFA_MULTI, f1, f2, f3, f4⟩ =
      if f4 = 0 then
        { st with
          has_nfa_multi := true
          state_ids := pySetAdd (pySetAdd st.state_ids f1) f3
          input_ids := if f2 ≠ EPSILON_INPUT then pySetAdd st.input_ids f2
            else st.input_ids
          transitions := st.transitions ++ [pendingTrans (f1, f2, acc ++ [f3])]
          nfa_pending := none }
      else
        { st with
          has_nfa_multi := true
          state_ids := pySetAdd (pySetAdd st.state_ids f1) f3
          input_ids := if f2 ≠ EPSILON_INPUT then pySetAdd st.input_ids f2
            else st.input_ids
          nfa_pending := some (f1, f2, acc ++ [f3]) } := by
  unfold decodeStep
  rw [if_neg (by simp [TYPE_NFA_MULTI, TYPE_STATE_DECL]),
    if_neg (by simp [TYPE_NFA_MULTI, TYPE_DFA_TRANSITION]),
    if_neg (by simp [TYPE_NFA_MULTI, TYPE_MEALY_TRANSITION]), if_pos rfl]
  simp only [hp, if_neg (show ¬ (f1 ≠ f1 ∨ f2 ≠ f2) from by simp)]

theorem decodeStep_nfa_boundary (st : DecState) (f1 f2 f3 f4 s i : Nat)
    (acc : List Nat) (hp : st.nfa_pending = some (s, i, acc))
    (hne : s ≠ f1 ∨ i ≠ f2) :
    decodeStep st ⟨TYPE_NFA_MULTI, f1, f2, f3, f4⟩ =
      if f4 = 0 then
        { st with
          has_nfa_multi := true
          state_ids := pySetAdd (pySetAdd st.state_ids f1) f3
          input_ids := if f2 ≠ EPSILON_INPUT then pySetAdd st.input_ids f2
            else st.input_ids
          transitions := (st.transitions ++ [pendingTrans (s, i, acc)]) ++
            [pendingTrans (f1, f2, [f3])]
          nfa_pending := none }
      else
        { st with
          has_nfa_multi := true
          state_ids := pySetAdd (pySetAdd st.state_ids f1) f3
          input_ids := if f2 ≠ EPSILON_INPUT then pySetAdd st.input_ids f2
            else st.input_ids
          transitions := st.transitions ++ [pendingTrans (s, i, acc)]
          nfa_pending := some (f1, f2, [f3]) } := by
  unfold decodeStep
  rw [if_neg (by simp [TYPE_NFA_MULTI, TYPE_STATE_DECL]),
    if_neg (by simp [TYPE_NFA_MULTI, TYPE_DFA_TRANSITION]),
    if_neg (by simp [TYPE_NFA_MULTI, TYPE_MEALY_TRANSITION]), if_pos rfl]
  simp only [hp, if_pos hne]

theorem eosFlush_of_none (st : DecState) (h : st.nfa_pending = none) :
    eosFlush st = st := by
  unfold eosFlush
  rw [h]

theorem eosFlush_of_some (st : DecState) (p : Nat × Nat × List Nat)
    (h : st.nfa_pending = some p) :
    eosFlush st =
      { st with
        transitions := st.transitions ++ [pendingTrans p]
        nfa_pending := none } := by
  unfold eosFlush
  rw [h]

/-- Claim C8: the decoder never rejects an irregular NFA chain boundary.  A
second `NFA_MULTI` record whose `(src, input)` differs from the pending
group's — without any prior `continuation = 0` — makes the decoder silently
flush the pending group as a completed multi-target transition before
starting the new group (whatever the second record's continuation flag is),
and a chain still pending at end of stream (its last record had
`continuation = 1`) is likewise flushed as a completed transition instead of
raising an error. -/
theorem nfa_chain_boundary_tolerance :
    (∀ a x b a' x' c d : Nat, a ≠ a' ∨ x ≠ x' →
      (decodeAll [⟨TYPE_NFA_MULTI, a, x, b, 1⟩,
        ⟨TYPE_NFA_MULTI, a', x', c, d⟩]).transitions =
        [pendingTrans (a, x, [b]), pendingTrans (a', x', [c])]) ∧
    (∀ a x b : Nat,
      (decodeAll [⟨TYPE_NFA_MULTI, a, x, b, 1⟩]).transitions =
        [pendingTrans (a, x, [b])]) := by
  constructor
  · intro a x b a' x' c d hne
    unfold decodeAll
    rw [List.foldl_cons, List.foldl_cons, List.foldl_nil,
      decodeStep_nfa_fresh ({} : DecState) a x b 1 rfl, if_neg one_ne_zero,
      decodeStep_nfa_boundary _ a' x' c d a x [b] rfl hne]
    by_cases hd : d = 0
    · rw [if_pos hd, eosFlush_of_none _ rfl]
      simp
    · rw [if_neg hd, eosFlush_of_some _ _ rfl]
      simp
  · intro a x b
    unfold decodeAll
    rw [List.foldl_cons, List.foldl_nil,
      decodeStep_nfa_fresh ({} : DecState) a x b 1 rfl, if_neg one_ne_zero,
      eosFlush_of_some _ _ rfl]
    simp

/-- Witness for claim C8 at a concrete irregular chain boundary. -/
theorem nfa_chain_boundary_tolerance_witness :
    (decodeAll [⟨TYPE_NFA_MULTI, 0, 0, 1, 1⟩,
      ⟨TYPE_NFA_MULTI, 2, 0, 3, 1⟩]).transitions =
      [pendingTrans (0, 0, [1]), pendingTrans (2, 0, [3])] :=
  nfa_chain_boundary_tolerance.1 0 0 1 2 0 3 1 (Or.inl (by decide))

theorem stateFlags_zero (fsm : FSM) (s : String) (hi : fsm.initial = none)
    (ha : fsm.accepting = []) : stateFlags fsm s = 0 := by
  unfold stateFlags
  rw [hi, ha]
  simp

theorem stateDecls_nil (fsm : FSM) (state_idx output_idx : PyDict String Nat)
    (ht : fsm.fsm_type ≠ "moore") (hi : fsm.initial = none)
    (ha : fsm.accepting = []) : stateDecls fsm state_idx output_idx = [] := by
  unfold stateDecls
  rw [if_neg ht, List.filterMap_eq_nil_iff]
  intro s _
  rw [if_neg]
  simp [stateFlags_zero fsm s hi ha]

/-- Claim C2: encoding one transition from `A` on `x` with target list
`[B, C, D]` (distinct targets, NFA machine, no flagged states) produces
exactly three contiguous `NFA_MULTI` records sharing `(src, input)` with
continuation flags `[1, 1, 0]`; and decoding exactly that three-record
sequence reconstructs exactly one transition from `A` on `x` whose target
list is `[B, C, D]` in that order. -/
theorem nfa_chain_contiguity :
    (∀ (fsm : FSM) (A x B C D : String) (iA iX iB iC iD : Nat),
      fsm.fsm_type = "nfa" → fsm.initial = none → fsm.accepting = [] →
      fsm.transitions =
        [{ src := A, input := some x, to' := Tgt.many [B, C, D], output := none }] →
      x ≠ "epsilon" → x ≠ "ε" →
      B ≠ C → C ≠ D → B ≠ D →
      pyGet? (buildIdx fsm.states) A = some iA →
      pyGet? (buildIdx fsm.alphabet) x = some iX →
      pyGet? (buildIdx fsm.states) B = some iB →
      pyGet? (buildIdx fsm.states) C = some iC →
      pyGet? (buildIdx fsm.states) D = some iD →
      fsm_to_hex_recs fsm = some
        ([⟨TYPE_NFA_MULTI, iA, iX, iB, 1⟩, ⟨TYPE_NFA_MULTI, iA, iX, iC, 1⟩,
          ⟨TYPE_NFA_MULTI, iA, iX, iD, 0⟩],
         invertDict (buildIdx fsm.states), invertDict (buildIdx fsm.alphabet),
         invertDict (buildIdx fsm.output_alphabet))) ∧
    (∀ a xi b c d : Nat, xi ≠ EPSILON_INPUT → b ≠ c → c ≠ d → b ≠ d →
      (decodeAll [⟨TYPE_NFA_MULTI, a, xi, b, 1⟩, ⟨TYPE_NFA_MULTI, a, xi, c, 1⟩,
        ⟨TYPE_NFA_MULTI, a, xi, d, 0⟩]).transitions =
        [{ src := a, input := some xi, to' := TgtId.many [b, c, d], output := none }]) := by
  constructor
  · intro fsm A x B C D iA iX iB iC iD htyp hinit hacc htrans hx1 hx2 _ _ _
      hA hX hB hC hD
    have henc : encodeTrans fsm (buildIdx fsm.states) (buildIdx fsm.alphabet)
        (buildIdx fsm.output_alphabet)
        { src := A, input := some x, to' := Tgt.many [B, C, D], output := none } =
        some [⟨TYPE_NFA_MULTI, iA, iX, iB, 1⟩, ⟨TYPE_NFA_MULTI, iA, iX, iC, 1⟩,
          ⟨TYPE_NFA_MULTI, iA, iX, iD, 0⟩] := by
      unfold encodeTrans
      simp only [hA, htyp, hX]
      rw [if_neg (by rintro (rfl | rfl) <;> simp_all)]
      simp only [hX]
      rw [if_neg (by decide)]
      simp only [List.length_cons, List.length_nil]
      rw [if_neg (by decide)]
      simp [List.enum, List.enumFrom, mapMOpt, hB, hC, hD]
    unfold fsm_to_hex_recs
    rw [htrans]
    simp only [mapMOpt, henc]
    rw [stateDecls_nil fsm _ _ (by rw [htyp]; decide) hinit hacc]
    simp
  · intro a xi b c d hxi _ _ _
    unfold decodeAll
    rw [List.foldl_cons, List.foldl_cons, List.foldl_cons, List.foldl_nil,
      decodeStep_nfa_fresh ({} : DecState) a xi b 1 rfl, if_neg one_ne_zero,
      decodeStep_nfa_match _ a xi c 1 [b] rfl, if_neg one_ne_zero,
      decodeStep_nfa_match _ a xi d 0 ([b] ++ [c]) rfl, if_pos rfl,
      eosFlush_of_none _ rfl]
    simp [pendingTrans, hxi]

/-- Witness for claim C2: a concrete four-state NFA with the transition
`A --x--> [B, C, D]`. -/
theorem nfa_chain_contiguity_witness :
    fsm_to_hex_recs
      { fsm_type := "nfa"
        states := ["A", "B", "C", "D"]
        alphabet := ["x"]
        transitions :=
          [{ src := "A", input := some "x", to' := Tgt.many ["B", "C", "D"], output := none }] } = some
      ([⟨TYPE_NFA_MULTI, 0, 0, 1, 1⟩, ⟨TYPE_NFA_MULTI, 0, 0, 2, 1⟩,
        ⟨TYPE_NFA_MULTI, 0, 0, 3, 0⟩],
       invertDict (buildIdx ["A", "B", "C", "D"]),
       invertDict (buildIdx ["x"]), invertDict (buildIdx [])) ∧
    (decodeAll [⟨TYPE_NFA_MULTI, 0, 0, 1, 1⟩, ⟨TYPE_NFA_MULTI, 0, 0, 2, 1⟩,
      ⟨TYPE_NFA_MULTI, 0, 0, 3, 0⟩]).transitions =
      [{ src := 0, input := some 0, to' := TgtId.many [1, 2, 3], output := none }] :=
  ⟨nfa_chain_contiguity.1
      { fsm_type := "nfa"
        states := ["A", "B", "C", "D"]
        alphabet := ["x"]
        transitions :=
          [{ src := "A", input := some "x", to' := Tgt.many ["B", "C", "D"], output := none }] }
      "A" "x" "B" "C" "D" 0 0 1 2 3 rfl rfl rfl rfl (by decide) (by decide)
      (by decide) (by decide) (by decide) (by decide) (by decide) (by decide)
      (by decide) (by decide),
    nfa_chain_contiguity.2 0 0 1 2 3 (by decide) (by decide) (by decide)
      (by decide)⟩

/-- Claim C9: for a Mealy machine, encoding a transition whose target list
has two or more states emits exactly one `MEALY_TRANSITION` record whose
target field is the first element of the list; the remaining targets are
silently dropped — their state ids appear in none of the emitted record's
state fields. -/
theorem mealy_multi_target_truncation :
    ∀ (fsm : FSM) (A x b : String) (rest : List String) (o : Option String)
      (iA iX iB : Nat),
      fsm.fsm_type = "mealy" → fsm.initial = none → fsm.accepting = [] →
      fsm.transitions =
        [{ src := A, input := some x, to' := Tgt.many (b :: rest), output := o }] →
      rest ≠ [] →
      x ≠ "epsilon" → x ≠ "ε" →
      pyGet? (buildIdx fsm.states) A = some iA →
      pyGet? (buildIdx fsm.alphabet) x = some iX →
      pyGet? (buildIdx fsm.states) b = some iB →
      (fsm_to_hex_recs fsm = some
        ([⟨TYPE_MEALY_TRANSITION, iA, iX, iB,
           (pyGet? (buildIdx fsm.output_alphabet) (o.getD "")).getD 0⟩],
         invertDict (buildIdx fsm.states), invertDict (buildIdx fsm.alphabet),
         invertDict (buildIdx fsm.output_alphabet))) ∧
      (∀ (d : String) (iD : Nat), d ∈ rest → fsm.states.Nodup → d ≠ A → d ≠ b →
        pyGet? (buildIdx fsm.states) d = some iD → iD ≠ iA ∧ iD ≠ iB) := by
  intro fsm A x b rest o iA iX iB htyp hinit hacc htrans _ hx1 hx2 hA hX hB
  constructor
  · have henc : encodeTrans fsm (buildIdx fsm.states) (buildIdx fsm.alphabet)
        (buildIdx fsm.output_alphabet)
        { src := A, input := some x, to' := Tgt.many (b :: rest), output := o } =
        some [⟨TYPE_MEALY_TRANSITION, iA, iX, iB,
          (pyGet? (buildIdx fsm.output_alphabet) (o.getD "")).getD 0⟩] := by
      unfold encodeTrans
      simp only [hA, htyp]
      rw [if_neg (by rintro (rfl | rfl) <;> simp_all)]
      simp only [hX]
      rw [if_pos trivial]
      simp only [hB]
    unfold fsm_to_hex_recs
    rw [htrans]
    simp only [mapMOpt, henc]
    rw [stateDecls_nil fsm _ _ (by rw [htyp]; decide) hinit hacc]
    simp
  · intro d iD hd hnod hdA hdb hD
    obtain ⟨hkD, hgD⟩ := pyGet?_buildIdx_some _ _ _ hD hnod
    obtain ⟨hkA, hgA⟩ := pyGet?_buildIdx_some _ _ _ hA hnod
    obtain ⟨hkB, hgB⟩ := pyGet?_buildIdx_some _ _ _ hB hnod
    constructor
    · intro h
      subst h
      exact hdA (hgD.symm.trans hgA)
    · intro h
      subst h
      exact hdb (hgD.symm.trans hgB)

/-- Witness for claim C9: a Mealy machine with a two-target transition keeps
only the first target. -/
theorem mealy_multi_target_truncation_witness :
    fsm_to_hex_recs
      { fsm_type := "mealy"
        states := ["p", "q", "r"]
        alphabet := ["x"]
        output_alphabet := ["z"]
        transitions :=
          [{ src := "p", input := some "x", to' := Tgt.many ["q", "r"],
             output := some "z" }] } = some
      ([⟨TYPE_MEALY_TRANSITION, 0, 0, 1,
         (pyGet? (buildIdx ["z"]) ((some "z").getD "")).getD 0⟩],
       invertDict (buildIdx ["p", "q", "r"]), invertDict (buildIdx ["x"]),
       invertDict (buildIdx ["z"])) ∧
    (∀ (d : String) (iD : Nat), d ∈ ["r"] → (["p", "q", "r"] : List String).Nodup →
      d ≠ "p" → d ≠ "q" →
      pyGet? (buildIdx ["p", "q", "r"]) d = some iD → iD ≠ 0 ∧ iD ≠ 1) :=
  mealy_multi_target_truncation
    { fsm_type := "mealy"
      states := ["p", "q", "r"]
      alphabet := ["x"]
      output_alphabet := ["z"]
      transitions :=
        [{ src := "p", input := some "x", to' := Tgt.many ["q", "r"],
           output := some "z" }] }
    "p" "x" "q" ["r"] (some "z") 0 0 1 rfl rfl rfl rfl (by decide) (by decide)
    (by decide) (by decide) (by decide) (by decide)

/-- Whatever the pending group is, an `NFA_MULTI` step updates the feature
flag and the id sets uniformly and only ever appends flushed groups to the
transition list. -/
theorem decodeStep_nfa_shape (st : DecState) (f1 f2 f3 f4 : Nat) :
    ∃ (ts : List TransId) (pend : Option (Nat × Nat × List Nat)),
      decodeStep st ⟨TYPE_NFA_MULTI, f1, f2, f3, f4⟩ =
        { st with
          has_nfa_multi := true
          state_ids := pySetAdd (pySetAdd st.state_ids f1) f3
          input_ids := if f2 ≠ EPSILON_INPUT then pySetAdd st.input_ids f2
            else st.input_ids
          transitions := st.transitions ++ ts
          nfa_pending := pend } ∧
      (∀ t ∈ ts, ∃ p, t = pendingTrans p) := by
  cases hp : st.nfa_pending with
  | none =>
    rw [decodeStep_nfa_fresh st f1 f2 f3 f4 hp]
    by_cases h4 : f4 = 0
    · refine ⟨[pendingTrans (f1, f2, [f3])], none, by rw [if_pos h4], ?_⟩
      intro t ht
      rw [List.mem_singleton] at ht
      exact ⟨_, ht⟩
    · exact ⟨[], some (f1, f2, [f3]), by rw [if_neg h4]; simp,
        by intro t ht; simp at ht⟩
  | some p =>
    obtain ⟨s, i, acc⟩ := p
    by_cases hm : s = f1 ∧ i = f2
    · obtain ⟨rfl, rfl⟩ := hm
      rw [decodeStep_nfa_match st s i f3 f4 acc hp]
      by_cases h4 : f4 = 0
      · refine ⟨[pendingTrans (s, i, acc ++ [f3])], none, by rw [if_pos h4], ?_⟩
        intro t ht
        rw [List.mem_singleton] at ht
        exact ⟨_, ht⟩
      · exact ⟨[], some (s, i, acc ++ [f3]), by rw [if_neg h4]; simp,
          by intro t ht; simp at ht⟩
    · have hne : s ≠ f1 ∨ i ≠ f2 := by tauto
      rw [decodeStep_nfa_boundary st f1 f2 f3 f4 s i acc hp hne]
      by_cases h4 : f4 = 0
      · refine ⟨[pendingTrans (s, i, acc), pendingTrans (f1, f2, [f3])], none,
          ?_, ?_⟩
        · rw [if_pos h4]
          simp
        · intro t ht
          simp only [List.mem_cons, List.mem_singleton, List.not_mem_nil,
            or_false] at ht
          rcases ht with rfl | rfl
          · exact ⟨_, rfl⟩
          · exact ⟨_, rfl⟩
      · refine ⟨[pendingTrans (s, i, acc)], some (f1, f2, [f3]),
          by rw [if_neg h4], ?_⟩
        intro t ht
        rw [List.mem_singleton] at ht
        exact ⟨_, ht⟩

/-- How one decode step changes the feature flags and the input and output
id sets, for an arbitrary record. -/
theorem decodeStep_fields (st : DecState) (r : Record) :
    (decodeStep st r).input_ids =
      (if (r.rtype = TYPE_DFA_TRANSITION ∨ r.rtype = TYPE_MEALY_TRANSITION ∨
          r.rtype = TYPE_NFA_MULTI) ∧ r.f2 ≠ EPSILON_INPUT then
        pySetAdd st.input_ids r.f2
      else st.input_ids) ∧
    (decodeStep st r).has_mealy =
      (st.has_mealy || decide (r.rtype = TYPE_MEALY_TRANSITION)) ∧
    (decodeStep st r).has_nfa_multi =
      (st.has_nfa_multi || decide (r.rtype = TYPE_NFA_MULTI)) ∧
    (decodeStep st r).has_moore_outputs =
      (st.has_moore_outputs ||
        decide (r.rtype = TYPE_STATE_DECL ∧ r.f3 ≠ 0)) ∧
    (decodeStep st r).output_ids =
      (if r.rtype = TYPE_STATE_DECL ∧ r.f3 ≠ 0 then
        pySetAdd st.output_ids (r.f3 - 1)
      else if r.rtype = TYPE_MEALY_TRANSITION then pySetAdd st.output_ids r.f4
      else st.output_ids) := by
  obtain ⟨t, f1, f2, f3, f4⟩ := r
  by_cases h2 : t = TYPE_STATE_DECL
  · subst h2
    rw [decodeStep_decl]
    refine ⟨?_, ?_, ?_, ?_, ?_⟩ <;>
      simp [TYPE_STATE_DECL, TYPE_DFA_TRANSITION, TYPE_MEALY_TRANSITION,
        TYPE_NFA_MULTI, Bool.or_comm] <;> try (split_ifs <;> simp_all)
  · by_cases h0 : t = TYPE_DFA_TRANSITION
    · subst h0
      rw [decodeStep_dfa]
      refine ⟨?_, ?_, ?_, ?_, ?_⟩ <;>
        simp [TYPE_STATE_DECL, TYPE_DFA_TRANSITION, TYPE_MEALY_TRANSITION,
          TYPE_NFA_MULTI]
    · by_cases h1 : t = TYPE_MEALY_TRANSITION
      · subst h1
        rw [decodeStep_mealy]
        refine ⟨?_, ?_, ?_, ?_, ?_⟩ <;>
          simp [TYPE_STATE_DECL, TYPE_DFA_TRANSITION, TYPE_MEALY_TRANSITION,
            TYPE_NFA_MULTI]
      · by_cases h3 : t = TYPE_NFA_MULTI
        · subst h3
          obtain ⟨ts, pend, heq, _⟩ := decodeStep_nfa_shape st f1 f2 f3 f4
          rw [heq]
          refine ⟨?_, ?_, ?_, ?_, ?_⟩ <;>
            simp [TYPE_STATE_DECL, TYPE_DFA_TRANSITION, TYPE_MEALY_TRANSITION,
              TYPE_NFA_MULTI]
        · rw [decodeStep_other st _ h0 h1 h2 h3]
          refine ⟨?_, ?_, ?_, ?_, ?_⟩ <;>
            simp [h0, h1, h2, h3]

/-- The input-id set is accumulated record-locally, independent of the
pending-group state. -/
def inputIdsUpd (acc : List Nat) (r : Record) : List Nat :=
  if (r.rtype = TYPE_DFA_TRANSITION ∨ r.rtype = TYPE_MEALY_TRANSITION ∨
      r.rtype = TYPE_NFA_MULTI) ∧ r.f2 ≠ EPSILON_INPUT then
    pySetAdd acc r.f2
  else acc

theorem eosFlush_proj (st : DecState) :
    (eosFlush st).state_ids = st.state_ids ∧
    (eosFlush st).input_ids = st.input_ids ∧
    (eosFlush st).output_ids = st.output_ids ∧
    (eosFlush st).has_mealy = st.has_mealy ∧
    (eosFlush st).has_nfa_multi = st.has_nfa_multi ∧
    (eosFlush st).has_moore_outputs = st.has_moore_outputs ∧
    (eosFlush st).initial_state = st.initial_state ∧
    (eosFlush st).accepting_states = st.accepting_states ∧
    (eosFlush st).state_outputs = st.state_outputs := by
  unfold eosFlush
  cases st.nfa_pending <;> simp

theorem foldl_input_ids (rs : List Record) (st : DecState) :
    (rs.foldl decodeStep st).input_ids = rs.foldl inputIdsUpd st.input_ids := by
  induction rs generalizing st with
  | nil => rfl
  | cons r rest ih =>
    rw [List.foldl_cons, List.foldl_cons, ih]
    congr 1
    exact (decodeStep_fields st r).1

theorem decodeAll_input_ids (rs : List Record) :
    (decodeAll rs).input_ids = rs.foldl inputIdsUpd [] := by
  unfold decodeAll
  rw [(eosFlush_proj _).2.1, foldl_input_ids]

theorem decodeAll_has_mealy (rs : List Record) :
    (decodeAll rs).has_mealy =
      rs.any (fun r => decide (r.rtype = TYPE_MEALY_TRANSITION)) := by
  unfold decodeAll
  rw [(eosFlush_proj _).2.2.2.1]
  suffices h : ∀ st : DecState, (rs.foldl decodeStep st).has_mealy =
      (st.has_mealy || rs.any (fun r => decide (r.rtype = TYPE_MEALY_TRANSITION))) by
    rw [h {}]
    rfl
  induction rs with
  | nil => simp
  | cons r rest ih =>
    intro st
    rw [List.foldl_cons, ih, (decodeStep_fields st r).2.1]
    simp [Bool.or_assoc]

theorem decodeAll_has_nfa_multi (rs : List Record) :
    (decodeAll rs).has_nfa_multi =
      rs.any (fun r => decide (r.rtype = TYPE_NFA_MULTI)) := by
  unfold decodeAll
  rw [(eosFlush_proj _).2.2.2.2.1]
  suffices h : ∀ st : DecState, (rs.foldl decodeStep st).has_nfa_multi =
      (st.has_nfa_multi || rs.any (fun r => decide (r.rtype = TYPE_NFA_MULTI))) by
    rw [h {}]
    rfl
  induction rs with
  | nil => simp
  | cons r rest ih =>
    intro st
    rw [List.foldl_cons, ih, (decodeStep_fields st r).2.2.1]
    simp [Bool.or_assoc]

theorem decodeAll_has_moore_outputs (rs : List Record) :
    (decodeAll rs).has_moore_outputs =
      rs.any (fun r => decide (r.rtype = TYPE_STATE_DECL ∧ r.f3 ≠ 0)) := by
  unfold decodeAll
  rw [(eosFlush_proj _).2.2.2.2.2.1]
  suffices h : ∀ st : DecState, (rs.foldl decodeStep st).has_moore_outputs =
      (st.has_moore_outputs ||
        rs.any (fun r => decide (r.rtype = TYPE_STATE_DECL ∧ r.f3 ≠ 0))) by
    rw [h {}]
    rfl
  induction rs with
  | nil => simp
  | cons r rest ih =>
    intro st
    rw [List.foldl_cons, ih, (decodeStep_fields st r).2.2.2.1]
    simp [Bool.or_assoc]

theorem mapMOpt_mem {a b : Type} (f : a → Option b) (l : List a)
    (bs : List b) (h : mapMOpt f l = some bs) (y : b) (hy : y ∈ bs) :
    ∃ x ∈ l, f x = some y := by
  induction l generalizing bs with
  | nil =>
    unfold mapMOpt at h
    injection h with h
    subst h
    simp at hy
  | cons x xs ih =>
    unfold mapMOpt at h
    cases hfx : f x with
    | none => rw [hfx] at h; exact absurd h (by simp)
    | some y0 =>
      rw [hfx] at h
      cases hrec : mapMOpt f xs with
      | none => rw [hrec] at h; exact absurd h (by simp)
      | some ys =>
        rw [hrec] at h
        injection h with h
        subst h
        rcases List.mem_cons.mp hy with rfl | hy'
        · exact ⟨x, by simp, hfx⟩
        · obtain ⟨x', hx', hfx'⟩ := ih ys hrec hy'
          exact ⟨x', by simp [hx'], hfx'⟩

theorem pendingTrans_input_ne (p : Nat × Nat × List Nat) :
    (pendingTrans p).input ≠ some EPSILON_INPUT := by
  show (if p.2.1 = EPSILON_INPUT then none else some p.2.1) ≠ some EPSILON_INPUT
  split_ifs with h
  · simp
  · intro he
    exact h (Option.some.inj he)

theorem decodeStep_no_eps_input (st : DecState) (r : Record)
    (h : ∀ t ∈ st.transitions, t.input ≠ some EPSILON_INPUT) :
    ∀ t ∈ (decodeStep st r).transitions, t.input ≠ some EPSILON_INPUT := by
  obtain ⟨ty, f1, f2, f3, f4⟩ := r
  by_cases h2 : ty = TYPE_STATE_DECL
  · subst h2
    rw [decodeStep_decl]
    simpa using h
  · by_cases h0 : ty = TYPE_DFA_TRANSITION
    · subst h0
      rw [decodeStep_dfa]
      intro t ht
      simp only [List.mem_append, List.mem_singleton] at ht
      rcases ht with ht | rfl
      · exact h t ht
      · show (if f2 ≠ EPSILON_INPUT then some f2 else none) ≠ some EPSILON_INPUT
        split_ifs with hf
        · intro he
          exact hf (Option.some.inj he)
        · simp
    · by_cases h1 : ty = TYPE_MEALY_TRANSITION
      · subst h1
        rw [decodeStep_mealy]
        intro t ht
        simp only [List.mem_append, List.mem_singleton] at ht
        rcases ht with ht | rfl
        · exact h t ht
        · show (if f2 ≠ EPSILON_INPUT then some f2 else none) ≠ some EPSILON_INPUT
          split_ifs with hf
          · intro he
            exact hf (Option.some.inj he)
          · simp
      · by_cases h3 : ty = TYPE_NFA_MULTI
        · subst h3
          obtain ⟨ts, pend, heq, hts⟩ := decodeStep_nfa_shape st f1 f2 f3 f4
          rw [heq]
          intro t ht
          simp only [List.mem_append] at ht
          rcases ht with ht | ht
          · exact h t ht
          · obtain ⟨p, rfl⟩ := hts t ht
            exact pendingTrans_input_ne p
        · rw [decodeStep_other st _ h0 h1 h2 h3]
          exact h

/-- Claim C3: epsilon handling.  Encoding a transition whose input is absent
(or written as the epsilon marker) puts `0xFFFF` in every record it emits;
on the decoding side a record with input field `0xFFFF` never contributes an
entry to the alphabet (removing it from any stream leaves the collected
input-id set unchanged, and `0xFFFF` is never in that set), and every
reconstructed transition sourced from such a record reports an absent input
(no decoded transition ever carries the epsilon sentinel as its input, and
the three single-record decodes show the input is `none`). -/
theorem epsilon_handling :
    (∀ (fsm : FSM) (state_idx input_idx output_idx : PyDict String Nat)
       (t : Trans) (recs : List Record),
      (t.input = none ∨ t.input = some "epsilon" ∨ t.input = some "ε") →
      encodeTrans fsm state_idx input_idx output_idx t = some recs →
      ∀ r ∈ recs, r.f2 = EPSILON_INPUT) ∧
    (∀ (rs1 rs2 : List Record) (r : Record), r.f2 = EPSILON_INPUT →
      (decodeAll (rs1 ++ r :: rs2)).input_ids =
        (decodeAll (rs1 ++ rs2)).input_ids) ∧
    (∀ rs : List Record, EPSILON_INPUT ∉ (decodeAll rs).input_ids) ∧
    (∀ rs : List Record, ∀ t ∈ (decodeAll rs).transitions,
      t.input ≠ some EPSILON_INPUT) ∧
    (∀ f1 f3 f4 : Nat,
      (decodeAll [⟨TYPE_DFA_TRANSITION, f1, EPSILON_INPUT, f3, f4⟩]).transitions =
        [⟨f1, none, .one f3, none⟩] ∧
      (decodeAll [⟨TYPE_MEALY_TRANSITION, f1, EPSILON_INPUT, f3, f4⟩]).transitions =
        [⟨f1, none, .one f3, some f4⟩] ∧
      (decodeAll [⟨TYPE_NFA_MULTI, f1, EPSILON_INPUT, f3, f4⟩]).transitions =
        [⟨f1, none, .many [f3], none⟩]) := by
  refine ⟨?_, ?_, ?_, ?_, ?_⟩
  · intro fsm state_idx input_idx output_idx t recs hin henc r hr
    unfold encodeTrans at henc
    cases hsrc : pyGet? state_idx t.src with
    | none => rw [hsrc] at henc; exact absurd henc (by simp)
    | some src =>
      rw [hsrc] at henc
      have hinp : (match t.input with
          | none => some EPSILON_INPUT
          | some s => if s = "epsilon" ∨ s = "ε" then some EPSILON_INPUT
              else pyGet? input_idx s) = some EPSILON_INPUT := by
        rcases hin with h | h | h <;> rw [h] <;> simp
      rw [hinp] at henc
      dsimp only at henc
      split_ifs at henc with hm hl
      · rcases hT : (match t.to' with
          | Tgt.one s => [s]
          | Tgt.many ss => ss) with _ | ⟨t0, ts⟩ <;> rw [hT] at henc <;>
          dsimp only at henc
        · exact absurd henc (by simp)
        · cases htgt : pyGet? state_idx t0 with
          | none => rw [htgt] at henc; exact absurd henc (by simp)
          | some tgt =>
            rw [htgt] at henc
            injection henc with henc
            subst henc
            rw [List.mem_singleton] at hr
            subst hr
            rfl
      · cases htgt : pyGet? state_idx ((match t.to' with
            | Tgt.one s => [s]
            | Tgt.many ss => ss).getD 0 "") with
        | none => rw [htgt] at henc; exact absurd henc (by simp)
        | some tgt =>
          rw [htgt] at henc
          injection henc with henc
          subst henc
          rw [List.mem_singleton] at hr
          subst hr
          rfl
      · obtain ⟨x, _, hx⟩ := mapMOpt_mem _ _ _ henc r hr
        cases htgt : pyGet? state_idx x.2 with
        | none => rw [htgt] at hx; exact absurd hx (by simp)
        | some tgt =>
          rw [htgt] at hx
          injection hx with hx
          subst hx
          rfl
  · intro rs1 rs2 r hr
    rw [decodeAll_input_ids, decodeAll_input_ids, List.foldl_append,
      List.foldl_append, List.foldl_cons]
    congr 1
    unfold inputIdsUpd
    rw [if_neg]
    rintro ⟨-, hne⟩
    exact hne hr
  · intro rs
    rw [decodeAll_input_ids]
    suffices h : ∀ acc : List Nat, EPSILON_INPUT ∉ acc →
        EPSILON_INPUT ∉ rs.foldl inputIdsUpd acc by
      exact h [] (by simp)
    induction rs with
    | nil => intro acc hacc; simpa using hacc
    | cons r rest ih =>
      intro acc hacc
      rw [List.foldl_cons]
      apply ih
      unfold inputIdsUpd
      split_ifs with hc
      · rw [mem_pySetAdd]
        rintro (hmem | heq)
        · exact hacc hmem
        · exact hc.2 heq.symm
      · exact hacc
  · intro rs
    unfold decodeAll
    have base : ∀ t ∈ (rs.foldl decodeStep ({} : DecState)).transitions,
        t.input ≠ some EPSILON_INPUT := by
      suffices h : ∀ st : DecState,
          (∀ t ∈ st.transitions, t.input ≠ some EPSILON_INPUT) →
          ∀ t ∈ (rs.foldl decodeStep st).transitions,
            t.input ≠ some EPSILON_INPUT by
        exact h {} (by simp)
      induction rs with
      | nil => intro st hst; simpa using hst
      | cons r rest ih =>
        intro st hst
        rw [List.foldl_cons]
        exact ih _ (decodeStep_no_eps_input st r hst)
    unfold eosFlush
    cases hp : (rs.foldl decodeStep ({} : DecState)).nfa_pending with
    | none => exact base
    | some p =>
      intro t ht
      simp only [List.mem_append, List.mem_singleton] at ht
      rcases ht with ht | rfl
      · exact base t ht
      · exact pendingTrans_input_ne p
  · intro f1 f3 f4
    refine ⟨?_, ?_, ?_⟩
    · unfold decodeAll
      rw [List.foldl_cons, List.foldl_nil, decodeStep_dfa,
        eosFlush_of_none _ rfl]
      simp
    · unfold decodeAll
      rw [List.foldl_cons, List.foldl_nil, decodeStep_mealy,
        eosFlush_of_none _ rfl]
      simp
    · unfold decodeAll
      rw [List.foldl_cons, List.foldl_nil,
        decodeStep_nfa_fresh ({} : DecState) f1 EPSILON_INPUT f3 f4 rfl]
      by_cases h4 : f4 = 0
      · rw [if_pos h4, eosFlush_of_none _ rfl]
        simp [pendingTrans]
      · rw [if_neg h4, eosFlush_of_some _ _ rfl]
        simp [pendingTrans]

/-- Witness for claim C3 at concrete inputs. -/
theorem epsilon_handling_witness :
    (∀ r ∈ [(⟨TYPE_DFA_TRANSITION, 0, EPSILON_INPUT, 1, 0⟩ : Record)],
      r.f2 = EPSILON_INPUT) ∧
    (decodeAll [⟨TYPE_STATE_DECL, 0, 0, 0, 0⟩,
      ⟨TYPE_DFA_TRANSITION, 0, EPSILON_INPUT, 1, 0⟩]).input_ids =
      (decodeAll [⟨TYPE_STATE_DECL, 0, 0, 0, 0⟩]).input_ids ∧
    (decodeAll [⟨TYPE_DFA_TRANSITION, 0, EPSILON_INPUT, 1, 0⟩]).transitions =
      [⟨0, none, .one 1, none⟩] :=
  ⟨epsilon_handling.1 { fsm_type := "dfa", states := ["A", "B"] }
      (buildIdx ["A", "B"]) [] []
      { src := "A", input := none, to' := Tgt.one "B", output := none }
      [⟨TYPE_DFA_TRANSITION, 0, EPSILON_INPUT, 1, 0⟩] (Or.inl rfl) (by decide),
    epsilon_handling.2.1 [⟨TYPE_STATE_DECL, 0, 0, 0, 0⟩] []
      ⟨TYPE_DFA_TRANSITION, 0, EPSILON_INPUT, 1, 0⟩ rfl,
    (epsilon_handling.2.2.2.2 0 1 0).1⟩

/-- Claim C4: Moore output offset.  Encoding a Moore machine emits, for a
state whose output symbol has id `n`, a state-declaration record whose output
field is `n + 1`; decoding a state declaration with output field `0` records
no output for that state, while a non-zero output field `v` records state
output id `v - 1`. -/
theorem moore_output_offset :
    (∀ (fsm : FSM) (s o : String) (n : Nat) (recs : List Record)
       (maps : PyDict Nat String × PyDict Nat String × PyDict Nat String),
      fsm.fsm_type = "moore" → s ∈ fsm.states →
      pyGet? fsm.state_outputs s = some o →
      pyGet? (buildIdx fsm.output_alphabet) o = some n →
      fsm_to_hex_recs fsm = some (recs, maps) →
      (⟨TYPE_STATE_DECL, (pyGet? (buildIdx fsm.states) s).getD 0,
        stateFlags fsm s, n + 1, 0⟩ : Record) ∈ recs) ∧
    (∀ s s' fl fl' v : Nat, v ≠ 0 → s ≠ s' →
      (decodeAll [⟨TYPE_STATE_DECL, s, fl, 0, 0⟩,
        ⟨TYPE_STATE_DECL, s', fl', v, 0⟩]).state_outputs = [(s', v - 1)] ∧
      pyGet? (decodeAll [⟨TYPE_STATE_DECL, s, fl, 0, 0⟩,
        ⟨TYPE_STATE_DECL, s', fl', v, 0⟩]).state_outputs s = none ∧
      pyGet? (decodeAll [⟨TYPE_STATE_DECL, s, fl, 0, 0⟩,
        ⟨TYPE_STATE_DECL, s', fl', v, 0⟩]).state_outputs s' = some (v - 1)) := by
  constructor
  · intro fsm s o n recs maps htyp hs ho hn henc
    unfold fsm_to_hex_recs at henc
    dsimp only at henc
    rcases hmap : mapMOpt (encodeTrans fsm (buildIdx fsm.states)
        (buildIdx fsm.alphabet) (buildIdx fsm.output_alphabet))
        fsm.transitions with _ | blocks <;> rw [hmap] at henc
    · exact absurd henc (by simp)
    · injection henc with henc
      have hrecs : recs = stateDecls fsm (buildIdx fsm.states)
          (buildIdx fsm.output_alphabet) ++ blocks.flatten := by
        have := congrArg Prod.fst henc
        simpa using this.symm
      subst hrecs
      apply List.mem_append_left
      unfold stateDecls
      rw [if_pos htyp]
      have : mooreDecl fsm (buildIdx fsm.states) (buildIdx fsm.output_alphabet) s =
          ⟨TYPE_STATE_DECL, (pyGet? (buildIdx fsm.states) s).getD 0,
            stateFlags fsm s, n + 1, 0⟩ := by
        unfold mooreDecl
        rw [ho]
        dsimp only
        rw [hn]
      rw [← this]
      exact List.mem_map_of_mem _ hs
  · intro s s' fl fl' v hv hss
    have hdec : (decodeAll [⟨TYPE_STATE_DECL, s, fl, 0, 0⟩,
        ⟨TYPE_STATE_DECL, s', fl', v, 0⟩]).state_outputs = [(s', v - 1)] := by
      unfold decodeAll
      rw [List.foldl_cons, List.foldl_cons, List.foldl_nil, decodeStep_decl,
        decodeStep_decl]
      rw [(eosFlush_proj _).2.2.2.2.2.2.2.2]
      split_ifs <;> simp_all [pyInsert]
    refine ⟨hdec, ?_, ?_⟩
    · rw [hdec]
      show pyGet? [(s', v - 1)] s = none
      unfold pyGet?
      rw [List.find?_eq_none.mpr]
      · rfl
      · intro p hp
        rw [List.mem_singleton] at hp
        subst hp
        simpa using fun h => hss h.symm
    · rw [hdec]
      show pyGet? [(s', v - 1)] s' = some (v - 1)
      simp [pyGet?, List.find?]

/-- Witness for claim C4: a two-state Moore machine whose second state
carries output id 2 (field 3), and the matching two-record decode. -/
theorem moore_output_offset_witness :
    (⟨TYPE_STATE_DECL,
      (pyGet? (buildIdx ["s0", "s1"]) "s1").getD 0,
      stateFlags
        { fsm_type := "moore"
          states := ["s0", "s1"]
          state_outputs := [("s1", "hi")]
          output_alphabet := ["a", "b", "hi"] } "s1", 2 + 1, 0⟩ : Record) ∈
      [⟨TYPE_STATE_DECL, 0, 0, 0, 0⟩, ⟨TYPE_STATE_DECL, 1, 0, 3, 0⟩] ∧
    (decodeAll [⟨TYPE_STATE_DECL, 5, 0, 0, 0⟩,
      ⟨TYPE_STATE_DECL, 6, 0, 3, 0⟩]).state_outputs = [(6, 2)] := by
  constructor
  · have h := moore_output_offset.1
      { fsm_type := "moore", states := ["s0", "s1"],
        state_outputs := [("s1", "hi")], output_alphabet := ["a", "b", "hi"] }
      "s1" "hi" 2
      [⟨TYPE_STATE_DECL, 0, 0, 0, 0⟩, ⟨TYPE_STATE_DECL, 1, 0, 3, 0⟩]
      (invertDict (buildIdx ["s0", "s1"]), invertDict (buildIdx []),
        invertDict (buildIdx ["a", "b", "hi"]))
      rfl (by decide) (by decide) (by decide) rfl
    exact h
  · exact (moore_output_offset.2 5 6 0 0 3 (by decide) (by decide)).1

/-- Type inference as the specification words it, checked in priority order
on the record stream itself: Mealy if any `MEALY_TRANSITION` record was seen;
else Moore if any state declaration recorded a non-zero output; else NFA if
any `NFA_MULTI` record was seen or any decoded transition has an absent
input; else DFA. -/
def specInferredType (rs : List Record) : String :=
  if rs.any (fun r => decide (r.rtype = TYPE_MEALY_TRANSITION)) then "mealy"
  else if rs.any (fun r => decide (r.rtype = TYPE_STATE_DECL ∧ r.f3 ≠ 0)) then
    "moore"
  else if rs.any (fun r => decide (r.rtype = TYPE_NFA_MULTI)) ∨
      (decodeAll rs).transitions.any (fun t => t.input.isNone) then "nfa"
  else "dfa"

theorem inferType_decodeAll (rs : List Record) :
    inferType (decodeAll rs) = specInferredType rs := by
  unfold inferType specInferredType
  rw [decodeAll_has_mealy, decodeAll_has_moore_outputs, decodeAll_has_nfa_multi]

/-- Claim C6: the decoded kind equals the first match in the priority order
Mealy > Moore > NFA > DFA computed from the records (and decoded epsilon
transitions), overridden by the label table's type when one is specified
(non-empty); in particular a stream containing a `MEALY_TRANSITION` decodes
to `"mealy"` absent an override, even alongside state-output declarations. -/
theorem type_inference_priority :
    (∀ (rs : List Record) (labels : Option Labels),
      (hex_to_fsm rs labels).fsm_type =
        match (labels.getD {}).metaType with
        | some t => if t ≠ "" then t else specInferredType rs
        | none => specInferredType rs) ∧
    (∀ rs : List Record,
      rs.any (fun r => decide (r.rtype = TYPE_MEALY_TRANSITION)) = true →
      (hex_to_fsm rs none).fsm_type = "mealy") ∧
    (∀ (rs : List Record) (L : Labels) (ty : String),
      L.metaType = some ty → ty ≠ "" →
      (hex_to_fsm rs (some L)).fsm_type = ty) := by
  have main : ∀ (rs : List Record) (labels : Option Labels),
      (hex_to_fsm rs labels).fsm_type =
        match (labels.getD {}).metaType with
        | some t => if t ≠ "" then t else specInferredType rs
        | none => specInferredType rs := by
    intro rs labels
    show decodedType (labels.getD {}) (decodeAll rs) = _
    unfold decodedType
    rw [inferType_decodeAll]
  refine ⟨main, ?_, ?_⟩
  · intro rs hmealy
    rw [main rs none]
    show specInferredType rs = "mealy"
    unfold specInferredType
    rw [if_pos hmealy]
  · intro rs L ty hty htne
    rw [main rs (some L)]
    show (match L.metaType with
      | some t => if t ≠ "" then t else specInferredType rs
      | none => specInferredType rs) = ty
    rw [hty]
    exact if_pos htne

/-- Witness for claim C6: a stream with both a Mealy transition and a Moore
state-output declaration decodes to `"mealy"`, and a label-table type
overrides inference. -/
theorem type_inference_priority_witness :
    (hex_to_fsm [⟨TYPE_MEALY_TRANSITION, 0, 0, 1, 0⟩,
      ⟨TYPE_STATE_DECL, 0, 0, 3, 0⟩] none).fsm_type = "mealy" ∧
    (hex_to_fsm [⟨TYPE_MEALY_TRANSITION, 0, 0, 1, 0⟩]
      (some { metaType := some "moore" })).fsm_type = "moore" :=
  ⟨type_inference_priority.2.1
      [⟨TYPE_MEALY_TRANSITION, 0, 0, 1, 0⟩, ⟨TYPE_STATE_DECL, 0, 0, 3, 0⟩]
      (by decide),
    type_inference_priority.2.2 [⟨TYPE_MEALY_TRANSITION, 0, 0, 1, 0⟩]
      { metaType := some "moore" } "moore" rfl (by decide)⟩

/-- Counterexample to claim C7 as stated: the model `{states := ["A"],
initial := some "X"}` references the undefined state `"X"` from `initial`,
yet model construction accepts it (only capacity is checked) and encoding
completes without any error — no `UndefinedSymbolError` is raised anywhere;
the undefined reference is silently dropped (no flag record is emitted). -/
theorem undefined_initial_silently_ignored :
    json_to_fsm { fsm_type := "dfa", states := ["A"], initial := some "X" } =
      some { fsm_type := "dfa", states := ["A"], initial := some "X" } ∧
    fsm_to_hex_recs { fsm_type := "dfa", states := ["A"], initial := some "X" } =
      some ([], invertDict (buildIdx ["A"]), invertDict (buildIdx []),
        invertDict (buildIdx [])) :=
  ⟨rfl, rfl⟩

/-- Claim C7 (amended): no undefined-symbol validation exists.  Model
construction checks only the three capacity bounds; an undefined `initial`
reference is silently ignored, an undefined Moore state-output symbol is
encoded as "no output" (field 0), an undefined Mealy output symbol is
encoded as output id 0, and an undefined transition source name aborts
encoding with a bare lookup failure that names no symbol category. -/
theorem undefined_symbol_behavior :
    (∀ fsm : FSM, fsm.states.length ≤ 65535 → fsm.alphabet.length ≤ 65534 →
      fsm.output_alphabet.length ≤ 65535 → json_to_fsm fsm = some fsm) ∧
    fsm_to_hex_recs
      { fsm_type := "moore"
        states := ["A"]
        state_outputs := [("A", "zzz")]
        output_alphabet := ["w"] } =
      some ([⟨TYPE_STATE_DECL, 0, 0, 0, 0⟩], invertDict (buildIdx ["A"]),
        invertDict (buildIdx []), invertDict (buildIdx ["w"])) ∧
    fsm_to_hex_recs
      { fsm_type := "mealy"
        states := ["A", "B"]
        alphabet := ["x"]
        output_alphabet := ["w"]
        transitions :=
          [{ src := "A", input := some "x", to' := Tgt.one "B",
             output := some "zzz" }] } =
      some ([⟨TYPE_MEALY_TRANSITION, 0, 0, 1, 0⟩],
        invertDict (buildIdx ["A", "B"]), invertDict (buildIdx ["x"]),
        invertDict (buildIdx ["w"])) ∧
    fsm_to_hex_recs
      { fsm_type := "dfa"
        states := ["A"]
        alphabet := ["x"]
        transitions :=
          [{ src := "Z", input := some "x", to' := Tgt.one "A",
             output := none }] } = none := by
  refine ⟨?_, rfl, rfl, rfl⟩
  intro fsm h1 h2 h3
  unfold json_to_fsm
  rw [if_neg (by omega), if_neg (by omega), if_neg (by omega)]

/-- Witness for claim C7 (amended), applying the capacity-only construction
check to the model with the dangling `initial` reference. -/
theorem undefined_symbol_behavior_witness :
    json_to_fsm { fsm_type := "dfa", states := ["A"], initial := some "X" } =
      some { fsm_type := "dfa", states := ["A"], initial := some "X" } :=
  undefined_symbol_behavior.1
    { fsm_type := "dfa", states := ["A"], initial := some "X" }
    (by decide) (by decide) (by decide)

/-! ## The registration invariant of the decode loop (claim C10) -/

theorem mem_pyInsert {α β : Type} [DecidableEq α] (d : PyDict α β) (k : α)
    (v : β) (p : α × β) (hp : p ∈ pyInsert d k v) : p = (k, v) ∨ p ∈ d := by
  unfold pyInsert at hp
  split at hp
  · obtain ⟨q, hq, hpq⟩ := List.mem_map.mp hp
    by_cases hqk : q.1 = k
    · rw [if_pos hqk] at hpq
      exact Or.inl hpq.symm
    · rw [if_neg hqk] at hpq
      exact Or.inr (hpq ▸ hq)
  · rcases List.mem_append.mp hp with h | h
    · exact Or.inr h
    · exact Or.inl (List.mem_singleton.mp h)

/-- Every id an accumulated transition mentions is registered in the
corresponding id set. -/
def TransReg (st : DecState) (t : TransId) : Prop :=
  t.src ∈ st.state_ids ∧
  (∀ i, t.input = some i → i ∈ st.input_ids) ∧
  (∀ x, t.to' = TgtId.one x → x ∈ st.state_ids) ∧
  (∀ xs, t.to' = TgtId.many xs → ∀ x ∈ xs, x ∈ st.state_ids) ∧
  (∀ o, t.output = some o → o ∈ st.output_ids)

/-- The registration invariant maintained by the decode loop. -/
def RegInv (st : DecState) : Prop :=
  (∀ i, st.initial_state = some i → i ∈ st.state_ids) ∧
  (∀ i ∈ st.accepting_states, i ∈ st.state_ids) ∧
  (∀ p ∈ st.state_outputs, p.1 ∈ st.state_ids ∧ p.2 ∈ st.output_ids) ∧
  (∀ t ∈ st.transitions, TransReg st t) ∧
  (∀ p, st.nfa_pending = some p → p.1 ∈ st.state_ids ∧
    (∀ x ∈ p.2.2, x ∈ st.state_ids) ∧
    (p.2.1 ≠ EPSILON_INPUT → p.2.1 ∈ st.input_ids))

theorem mem_pySetAdd_of_mem {α : Type} [DecidableEq α] {s : List α} {x y : α}
    (h : y ∈ s) : y ∈ pySetAdd s x := (mem_pySetAdd s x y).mpr (Or.inl h)

theorem mem_pySetAdd_self {α : Type} [DecidableEq α] (s : List α) (x : α) :
    x ∈ pySetAdd s x := (mem_pySetAdd s x x).mpr (Or.inr rfl)

theorem TransReg.mono {st st' : DecState} {t : TransId}
    (h : TransReg st t) (hs : ∀ x ∈ st.state_ids, x ∈ st'.state_ids)
    (hi : ∀ x ∈ st.input_ids, x ∈ st'.input_ids)
    (ho : ∀ x ∈ st.output_ids, x ∈ st'.output_ids) : TransReg st' t := by
  obtain ⟨h1, h2, h3, h4, h5⟩ := h
  exact ⟨hs _ h1, fun i hi' => hi _ (h2 i hi'),
    fun x hx => hs _ (h3 x hx),
    fun xs hxs x hx => hs _ (h4 xs hxs x hx),
    fun o hoo => ho _ (h5 o hoo)⟩

theorem pendingTrans_reg (st : DecState) (p : Nat × Nat × List Nat)
    (h1 : p.1 ∈ st.state_ids) (h2 : ∀ x ∈ p.2.2, x ∈ st.state_ids)
    (h3 : p.2.1 ≠ EPSILON_INPUT → p.2.1 ∈ st.input_ids) :
    TransReg st (pendingTrans p) := by
  refine ⟨h1, ?_, ?_, ?_, ?_⟩
  · intro i hi
    show i ∈ st.input_ids
    have hthis : (if p.2.1 = EPSILON_INPUT then none else some p.2.1) =
      some i := hi
    by_cases he : p.2.1 = EPSILON_INPUT
    · rw [if_pos he] at hthis
      exact absurd hthis (by simp)
    · rw [if_neg he] at hthis
      injection hthis with hthis
      subst hthis
      exact h3 he
  · intro x hx
    exact absurd hx (by simp [pendingTrans])
  · intro xs hxs x hx
    have : TgtId.many p.2.2 = TgtId.many xs := hxs
    injection this with this
    subst this
    exact h2 x hx
  · intro o hoo
    exact absurd hoo (by simp [pendingTrans])

theorem regInv_step (st : DecState) (r : Record) (h : RegInv st) :
    RegInv (decodeStep st r) := by
  obtain ⟨hini, hacc, hout, htr, hpend⟩ := h
  obtain ⟨ty, f1, f2, f3, f4⟩ := r
  by_cases hty2 : ty = TYPE_STATE_DECL
  · subst hty2
    rw [decodeStep_decl]
    refine ⟨?_, ?_, ?_, ?_, ?_⟩
    · intro i hi
      show i ∈ pySetAdd st.state_ids f1
      have hi' : (if f2 &&& 0x1 ≠ 0 then some f1 else st.initial_state) =
        some i := hi
      by_cases hb : f2 &&& 0x1 ≠ 0
      · rw [if_pos hb] at hi'
        injection hi' with hi'
        subst hi'
        exact mem_pySetAdd_self _ _
      · rw [if_neg hb] at hi'
        exact mem_pySetAdd_of_mem (hini i hi')
    · intro i hi
      show i ∈ pySetAdd st.state_ids f1
      have hi' : i ∈ (if f2 &&& 0x2 ≠ 0 then pySetAdd st.accepting_states f1
        else st.accepting_states) := hi
      by_cases hb : f2 &&& 0x2 ≠ 0
      · rw [if_pos hb] at hi'
        rcases (mem_pySetAdd _ _ _).mp hi' with hi' | rfl
        · exact mem_pySetAdd_of_mem (hacc i hi')
        · exact mem_pySetAdd_self _ _
      · rw [if_neg hb] at hi'
        exact mem_pySetAdd_of_mem (hacc i hi')
    · intro p hp
      have hp' : p ∈ (if f3 ≠ 0 then pyInsert st.state_outputs f1 (f3 - 1)
        else st.state_outputs) := hp
      show p.1 ∈ pySetAdd st.state_ids f1 ∧
        p.2 ∈ (if f3 ≠ 0 then pySetAdd st.output_ids (f3 - 1) else st.output_ids)
      by_cases hb : f3 ≠ 0
      · rw [if_pos hb] at hp'
        rw [if_pos hb]
        rcases mem_pyInsert _ _ _ _ hp' with rfl | hp'
        · exact ⟨mem_pySetAdd_self _ _, mem_pySetAdd_self _ _⟩
        · exact ⟨mem_pySetAdd_of_mem (hout p hp').1,
            mem_pySetAdd_of_mem (hout p hp').2⟩
      · rw [if_neg hb] at hp'
        rw [if_neg hb]
        exact ⟨mem_pySetAdd_of_mem (hout p hp').1, (hout p hp').2⟩
    · intro t ht
      refine (htr t ht).mono (fun x hx => mem_pySetAdd_of_mem hx)
        (fun x hx => hx) (fun x hx => ?_)
      show x ∈ (if f3 ≠ 0 then pySetAdd st.output_ids (f3 - 1)
        else st.output_ids)
      by_cases hb : f3 ≠ 0
      · rw [if_pos hb]
        exact mem_pySetAdd_of_mem hx
      · rw [if_neg hb]
        exact hx
    · intro p hp
      obtain ⟨h1', h2', h3'⟩ := hpend p hp
      refine ⟨mem_pySetAdd_of_mem h1',
        fun x hx => mem_pySetAdd_of_mem (h2' x hx), h3'⟩
  · by_cases hty0 : ty = TYPE_DFA_TRANSITION
    · subst hty0
      rw [decodeStep_dfa]
      have hsmono : ∀ x ∈ st.state_ids,
          x ∈ pySetAdd (pySetAdd st.state_ids f1) f3 :=
        fun x hx => mem_pySetAdd_of_mem (mem_pySetAdd_of_mem hx)
      have himono : ∀ x ∈ st.input_ids,
          x ∈ (if f2 ≠ EPSILON_INPUT then pySetAdd st.input_ids f2
            else st.input_ids) := by
        intro x hx
        by_cases he : f2 ≠ EPSILON_INPUT
        · rw [if_pos he]
          exact mem_pySetAdd_of_mem hx
        · rw [if_neg he]
          exact hx
      refine ⟨fun i hi => hsmono _ (hini i hi), fun i hi => hsmono _ (hacc i hi),
        fun p hp => ⟨hsmono _ (hout p hp).1, (hout p hp).2⟩, ?_, ?_⟩
      · intro t ht
        have ht' : t ∈ st.transitions ++
          [⟨f1, if f2 ≠ EPSILON_INPUT then some f2 else none, .one f3, none⟩] := ht
        rcases List.mem_append.mp ht' with ht' | ht'
        · exact (htr t ht').mono hsmono himono (fun x hx => hx)
        · rw [List.mem_singleton] at ht'
          subst ht'
          refine ⟨mem_pySetAdd_of_mem (mem_pySetAdd_self _ _), ?_, ?_, ?_, ?_⟩
          · intro i hi
            have hi' : (if f2 ≠ EPSILON_INPUT then some f2 else none) =
              some i := hi
            show i ∈ (if f2 ≠ EPSILON_INPUT then pySetAdd st.input_ids f2
              else st.input_ids)
            by_cases he : f2 ≠ EPSILON_INPUT
            · rw [if_pos he] at hi'
              injection hi' with hi'
              subst hi'
              rw [if_pos he]
              exact mem_pySetAdd_self _ _
            · rw [if_neg he] at hi'
              exact absurd hi' (by simp)
          · intro x hx
            have hx' : TgtId.one f3 = TgtId.one x := hx
            injection hx' with hx'
            subst hx'
            exact mem_pySetAdd_self _ _
          · intro xs hxs
            exact absurd (show TgtId.one f3 = TgtId.many xs from hxs) (by simp)
          · intro o hoo
            exact absurd (show (none : Option Nat) = some o from hoo) (by simp)
      · intro p hp
        obtain ⟨h1', h2', h3'⟩ := hpend p hp
        exact ⟨hsmono _ h1', fun x hx => hsmono _ (h2' x hx),
          fun he => himono _ (h3' he)⟩
    · by_cases hty1 : ty = TYPE_MEALY_TRANSITION
      · subst hty1
        rw [decodeStep_mealy]
        have hsmono : ∀ x ∈ st.state_ids,
            x ∈ pySetAdd (pySetAdd st.state_ids f1) f3 :=
          fun x hx => mem_pySetAdd_of_mem (mem_pySetAdd_of_mem hx)
        have himono : ∀ x ∈ st.input_ids,
            x ∈ (if f2 ≠ EPSILON_INPUT then pySetAdd st.input_ids f2
              else st.input_ids) := by
          intro x hx
          by_cases he : f2 ≠ EPSILON_INPUT
          · rw [if_pos he]
            exact mem_pySetAdd_of_mem hx
          · rw [if_neg he]
            exact hx
        refine ⟨fun i hi => hsmono _ (hini i hi),
          fun i hi => hsmono _ (hacc i hi),
          fun p hp => ⟨hsmono _ (hout p hp).1,
            mem_pySetAdd_of_mem (hout p hp).2⟩, ?_, ?_⟩
        · intro t ht
          have ht' : t ∈ st.transitions ++
            [⟨f1, if f2 ≠ EPSILON_INPUT then some f2 else none, .one f3,
              some f4⟩] := ht
          rcases List.mem_append.mp ht' with ht' | ht'
          · exact (htr t ht').mono hsmono himono
              (fun x hx => mem_pySetAdd_of_mem hx)
          · rw [List.mem_singleton] at ht'
            subst ht'
            refine ⟨mem_pySetAdd_of_mem (mem_pySetAdd_self _ _), ?_, ?_, ?_, ?_⟩
            · intro i hi
              have hi' : (if f2 ≠ EPSILON_INPUT then some f2 else none) =
                some i := hi
              show i ∈ (if f2 ≠ EPSILON_INPUT then pySetAdd st.input_ids f2
                else st.input_ids)
              by_cases he : f2 ≠ EPSILON_INPUT
              · rw [if_pos he] at hi'
                injection hi' with hi'
                subst hi'
                rw [if_pos he]
                exact mem_pySetAdd_self _ _
              · rw [if_neg he] at hi'
                exact absurd hi' (by simp)
            · intro x hx
              have hx' : TgtId.one f3 = TgtId.one x := hx
              injection hx' with hx'
              subst hx'
              exact mem_pySetAdd_self _ _
            · intro xs hxs
              exact absurd (show TgtId.one f3 = TgtId.many xs from hxs) (by simp)
            · intro o hoo
              have hoo' : (some f4 : Option Nat) = some o := hoo
              injection hoo' with hoo'
              subst hoo'
              exact mem_pySetAdd_self _ _
        · intro p hp
          obtain ⟨h1', h2', h3'⟩ := hpend p hp
          exact ⟨hsmono _ h1', fun x hx => hsmono _ (h2' x hx),
            fun he => himono _ (h3' he)⟩
      · by_cases hty3 : ty = TYPE_NFA_MULTI
        · subst hty3
          have hsmono : ∀ x ∈ st.state_ids,
              x ∈ pySetAdd (pySetAdd st.state_ids f1) f3 :=
            fun x hx => mem_pySetAdd_of_mem (mem_pySetAdd_of_mem hx)
          have himono : ∀ x ∈ st.input_ids,
              x ∈ (if f2 ≠ EPSILON_INPUT then pySetAdd st.input_ids f2
                else st.input_ids) := by
            intro x hx
            by_cases he : f2 ≠ EPSILON_INPUT
            · rw [if_pos he]
              exact mem_pySetAdd_of_mem hx
            · rw [if_neg he]
              exact hx
          have hregnew : ∀ st' : DecState,
              (∀ x ∈ pySetAdd (pySetAdd st.state_ids f1) f3, x ∈ st'.state_ids) →
              (∀ x ∈ (if f2 ≠ EPSILON_INPUT then pySetAdd st.input_ids f2
                else st.input_ids), x ∈ st'.input_ids) →
              TransReg st' (pendingTrans (f1, f2, [f3])) := by
            intro st' hs hi
            apply pendingTrans_reg
            · exact hs _ (mem_pySetAdd_of_mem (mem_pySetAdd_self _ _))
            · intro x hx
              rw [List.mem_singleton] at hx
              subst hx
              exact hs _ (mem_pySetAdd_self _ _)
            · intro he
              apply hi
              rw [if_pos (show f2 ≠ EPSILON_INPUT from he)]
              exact mem_pySetAdd_self _ _
          cases hp : st.nfa_pending with
          | none =>
            by_cases h4 : f4 = 0
            · rw [decodeStep_nfa_fresh st f1 f2 f3 f4 hp, if_pos h4]
              refine ⟨fun i hi => hsmono _ (hini i hi),
                fun i hi => hsmono _ (hacc i hi),
                fun p hp' => ⟨hsmono _ (hout p hp').1, (hout p hp').2⟩, ?_,
                fun p hp' =>
                  absurd (show (none : Option (Nat × Nat × List Nat)) = some p
                    from hp') (by simp)⟩
              intro t ht
              have ht' : t ∈ st.transitions ++ [pendingTrans (f1, f2, [f3])] := ht
              rcases List.mem_append.mp ht' with ht' | ht'
              · exact (htr t ht').mono hsmono himono (fun x hx => hx)
              · rw [List.mem_singleton] at ht'
                subst ht'
                exact hregnew _ (fun x hx => hx) (fun x hx => hx)
            · rw [decodeStep_nfa_fresh st f1 f2 f3 f4 hp, if_neg h4]
              refine ⟨fun i hi => hsmono _ (hini i hi),
                fun i hi => hsmono _ (hacc i hi),
                fun p hp' => ⟨hsmono _ (hout p hp').1, (hout p hp').2⟩, ?_, ?_⟩
              · intro t ht
                exact (htr t ht).mono hsmono himono (fun x hx => hx)
              · intro p hp'
                have hp'' : (some (f1, f2, [f3]) :
                  Option (Nat × Nat × List Nat)) = some p := hp'
                injection hp'' with hp''
                subst hp''
                refine ⟨mem_pySetAdd_of_mem (mem_pySetAdd_self _ _), ?_, ?_⟩
                · intro x hx
                  rw [List.mem_singleton] at hx
                  subst hx
                  exact mem_pySetAdd_self _ _
                · intro he
                  show f2 ∈ (if f2 ≠ EPSILON_INPUT then
                    pySetAdd st.input_ids f2 else st.input_ids)
                  rw [if_pos (show f2 ≠ EPSILON_INPUT from he)]
                  exact mem_pySetAdd_self _ _
          | some q =>
            obtain ⟨s, i, acc⟩ := q
            obtain ⟨hq1, hq2, hq3⟩ := hpend (s, i, acc) hp
            have hregold : ∀ st' : DecState,
                (∀ x ∈ pySetAdd (pySetAdd st.state_ids f1) f3, x ∈ st'.state_ids) →
                (∀ x ∈ (if f2 ≠ EPSILON_INPUT then pySetAdd st.input_ids f2
                  else st.input_ids), x ∈ st'.input_ids) →
                TransReg st' (pendingTrans (s, i, acc)) := by
              intro st' hs hi'
              apply pendingTrans_reg
              · exact hs _ (hsmono _ hq1)
              · intro x hx
                exact hs _ (hsmono _ (hq2 x hx))
              · intro he
                exact hi' _ (himono _ (hq3 he))
            by_cases hm : s = f1 ∧ i = f2
            · obtain ⟨rfl, rfl⟩ := hm
              by_cases h4 : f4 = 0
              · rw [decodeStep_nfa_match st s i f3 f4 acc hp, if_pos h4]
                refine ⟨fun j hj => hsmono _ (hini j hj),
                  fun j hj => hsmono _ (hacc j hj),
                  fun p hp' => ⟨hsmono _ (hout p hp').1, (hout p hp').2⟩, ?_,
                  fun p hp' =>
                    absurd (show (none : Option (Nat × Nat × List Nat)) = some p
                      from hp') (by simp)⟩
                intro t ht
                have ht' : t ∈ st.transitions ++
                  [pendingTrans (s, i, acc ++ [f3])] := ht
                rcases List.mem_append.mp ht' with ht' | ht'
                · exact (htr t ht').mono hsmono himono (fun x hx => hx)
                · rw [List.mem_singleton] at ht'
                  subst ht'
                  apply pendingTrans_reg
                  · exact hsmono _ hq1
                  · intro x hx
                    rcases List.mem_append.mp hx with hx | hx
                    · exact hsmono _ (hq2 x hx)
                    · rw [List.mem_singleton] at hx
                      subst hx
                      exact mem_pySetAdd_self _ _
                  · intro he
                    exact himono _ (hq3 he)
              · rw [decodeStep_nfa_match st s i f3 f4 acc hp, if_neg h4]
                refine ⟨fun j hj => hsmono _ (hini j hj),
                  fun j hj => hsmono _ (hacc j hj),
                  fun p hp' => ⟨hsmono _ (hout p hp').1, (hout p hp').2⟩, ?_, ?_⟩
                · intro t ht
                  exact (htr t ht).mono hsmono himono (fun x hx => hx)
                · intro p hp'
                  have hp'' : (some (s, i, acc ++ [f3]) :
                    Option (Nat × Nat × List Nat)) = some p := hp'
                  injection hp'' with hp''
                  subst hp''
                  refine ⟨hsmono _ hq1, ?_, fun he => himono _ (hq3 he)⟩
                  intro x hx
                  rcases List.mem_append.mp hx with hx | hx
                  · exact hsmono _ (hq2 x hx)
                  · rw [List.mem_singleton] at hx
                    subst hx
                    exact mem_pySetAdd_self _ _
            · have hne : s ≠ f1 ∨ i ≠ f2 := by tauto
              by_cases h4 : f4 = 0
              · rw [decodeStep_nfa_boundary st f1 f2 f3 f4 s i acc hp hne,
                  if_pos h4]
                refine ⟨fun j hj => hsmono _ (hini j hj),
                  fun j hj => hsmono _ (hacc j hj),
                  fun p hp' => ⟨hsmono _ (hout p hp').1, (hout p hp').2⟩, ?_,
                  fun p hp' =>
                    absurd (show (none : Option (Nat × Nat × List Nat)) = some p
                      from hp') (by simp)⟩
                intro t ht
                have ht' : t ∈ (st.transitions ++ [pendingTrans (s, i, acc)]) ++
                  [pendingTrans (f1, f2, [f3])] := ht
                rcases List.mem_append.mp ht' with ht' | ht'
                · rcases List.mem_append.mp ht' with ht' | ht'
                  · exact (htr t ht').mono hsmono himono (fun x hx => hx)
                  · rw [List.mem_singleton] at ht'
                    subst ht'
                    exact hregold _ (fun x hx => hx) (fun x hx => hx)
                · rw [List.mem_singleton] at ht'
                  subst ht'
                  exact hregnew _ (fun x hx => hx) (fun x hx => hx)
              · rw [decodeStep_nfa_boundary st f1 f2 f3 f4 s i acc hp hne,
                  if_neg h4]
                refine ⟨fun j hj => hsmono _ (hini j hj),
                  fun j hj => hsmono _ (hacc j hj),
                  fun p hp' => ⟨hsmono _ (hout p hp').1, (hout p hp').2⟩, ?_, ?_⟩
                · intro t ht
                  have ht' : t ∈ st.transitions ++ [pendingTrans (s, i, acc)] := ht
                  rcases List.mem_append.mp ht' with ht' | ht'
                  · exact (htr t ht').mono hsmono himono (fun x hx => hx)
                  · rw [List.mem_singleton] at ht'
                    subst ht'
                    exact hregold _ (fun x hx => hx) (fun x hx => hx)
                · intro p hp'
                  have hp'' : (some (f1, f2, [f3]) :
                    Option (Nat × Nat × List Nat)) = some p := hp'
                  injection hp'' with hp''
                  subst hp''
                  refine ⟨mem_pySetAdd_of_mem (mem_pySetAdd_self _ _), ?_, ?_⟩
                  · intro x hx
                    rw [List.mem_singleton] at hx
                    subst hx
                    exact mem_pySetAdd_self _ _
                  · intro he
                    show f2 ∈ (if f2 ≠ EPSILON_INPUT then
                      pySetAdd st.input_ids f2 else st.input_ids)
                    rw [if_pos (show f2 ≠ EPSILON_INPUT from he)]
                    exact mem_pySetAdd_self _ _
        · rw [decodeStep_other st _ hty0 hty1 hty2 hty3]
          exact ⟨hini, hacc, hout, htr, hpend⟩

theorem regInv_decodeAll (rs : List Record) : RegInv (decodeAll rs) := by
  unfold decodeAll
  have base : RegInv (rs.foldl decodeStep {}) := by
    suffices h : ∀ st : DecState, RegInv st → RegInv (rs.foldl decodeStep st) by
      refine h {} ?_
      refine ⟨?_, ?_, ?_, ?_, ?_⟩ <;> simp [RegInv]
    induction rs with
    | nil => intro st hst; exact hst
    | cons r rest ih =>
      intro st hst
      rw [List.foldl_cons]
      exact ih _ (regInv_step st r hst)
  obtain ⟨hini, hacc, hout, htr, hpend⟩ := base
  cases hp : (rs.foldl decodeStep ({} : DecState)).nfa_pending with
  | none => rw [eosFlush_of_none _ hp]; exact ⟨hini, hacc, hout, htr, hpend⟩
  | some p =>
    rw [eosFlush_of_some _ p hp]
    obtain ⟨h1', h2', h3'⟩ := hpend p hp
    refine ⟨hini, hacc, hout, ?_, fun q hq => by simp at hq⟩
    intro t ht
    simp only at ht
    rcases List.mem_append.mp ht with ht | ht
    · exact htr t ht
    · rw [List.mem_singleton] at ht
      subst ht
      exact pendingTrans_reg _ _ h1' h2' h3'

theorem mem_sortedNat {l : List Nat} {x : Nat} (h : x ∈ l) : x ∈ sortedNat l :=
  (List.perm_insertionSort _ l).mem_iff.mpr h

/-- C10: the decoder only ever produces internally consistent models — every
name that `hex_to_fsm` places in `initial`, `accepting`, a transition's
source/targets/input/output, or `state_outputs` is a member of the decoded
`states`, `alphabet` or `output_alphabet` list, for every record sequence and
optional label table. -/
theorem decoded_model_well_formed (rs : List Record) (labels : Option Labels) :
    (∀ s, (hex_to_fsm rs labels).initial = some s →
      s ∈ (hex_to_fsm rs labels).states) ∧
    (∀ s ∈ (hex_to_fsm rs labels).accepting,
      s ∈ (hex_to_fsm rs labels).states) ∧
    (∀ t ∈ (hex_to_fsm rs labels).transitions,
      t.src ∈ (hex_to_fsm rs labels).states ∧
      (∀ x, t.to' = Tgt.one x → x ∈ (hex_to_fsm rs labels).states) ∧
      (∀ xs, t.to' = Tgt.many xs → ∀ x ∈ xs,
        x ∈ (hex_to_fsm rs labels).states) ∧
      (∀ i, t.input = some i → i ∈ (hex_to_fsm rs labels).alphabet) ∧
      (∀ o, t.output = some o →
        o ∈ (hex_to_fsm rs labels).output_alphabet)) ∧
    (∀ p ∈ (hex_to_fsm rs labels).state_outputs,
      p.1 ∈ (hex_to_fsm rs labels).states ∧
      p.2 ∈ (hex_to_fsm rs labels).output_alphabet) := by
  obtain ⟨hini, hacc, hout, htr, hpend⟩ := regInv_decodeAll rs
  have hS : ∀ i ∈ (decodeAll rs).state_ids,
      stateName (labels.getD {}) i ∈ (hex_to_fsm rs labels).states := by
    intro i hi
    show stateName (labels.getD {}) i ∈
      (sortedNat (decodeAll rs).state_ids).map (stateName (labels.getD {}))
    exact List.mem_map.mpr ⟨i, mem_sortedNat hi, rfl⟩
  have hI : ∀ i ∈ (decodeAll rs).input_ids,
      inputName (labels.getD {}) i ∈ (hex_to_fsm rs labels).alphabet := by
    intro i hi
    show inputName (labels.getD {}) i ∈
      (sortedNat (decodeAll rs).input_ids).map (inputName (labels.getD {}))
    exact List.mem_map.mpr ⟨i, mem_sortedNat hi, rfl⟩
  have hO : ∀ i ∈ (decodeAll rs).output_ids,
      outputName (labels.getD {}) i ∈
        (hex_to_fsm rs labels).output_alphabet := by
    intro i hi
    show outputName (labels.getD {}) i ∈
      (sortedNat (decodeAll rs).output_ids).map (outputName (labels.getD {}))
    exact List.mem_map.mpr ⟨i, mem_sortedNat hi, rfl⟩
  have hSm : ∀ i ∈ (decodeAll rs).state_ids,
      (pyGet? (nameMapOf (decodeAll rs).state_ids
          (stateName (labels.getD {}))) i).getD "" ∈
        (hex_to_fsm rs labels).states := by
    intro i hi
    rw [pyGet?_nameMapOf, if_pos hi]
    exact hS i hi
  have hOm : ∀ i ∈ (decodeAll rs).output_ids,
      (pyGet? (nameMapOf (decodeAll rs).output_ids
          (outputName (labels.getD {}))) i).getD "" ∈
        (hex_to_fsm rs labels).output_alphabet := by
    intro i hi
    rw [pyGet?_nameMapOf, if_pos hi]
    exact hO i hi
  refine ⟨?_, ?_, ?_, ?_⟩
  · intro s hs
    have hs' : (decodeAll rs).initial_state.bind
        (fun i => pyGet? (nameMapOf (decodeAll rs).state_ids
          (stateName (labels.getD {}))) i) = some s := hs
    cases hii : (decodeAll rs).initial_state with
    | none =>
      rw [hii] at hs'
      exact absurd hs' (by simp)
    | some i =>
      rw [hii] at hs'
      have hi : i ∈ (decodeAll rs).state_ids := hini i hii
      have hs'' : pyGet? (nameMapOf (decodeAll rs).state_ids
          (stateName (labels.getD {}))) i = some s := hs'
      rw [pyGet?_nameMapOf, if_pos hi] at hs''
      injection hs'' with hs''
      subst hs''
      exact hS i hi
  · intro s hs
    have hs' : s ∈ (decodeAll rs).accepting_states.map
        (fun j => (pyGet? (nameMapOf (decodeAll rs).state_ids
          (stateName (labels.getD {}))) j).getD "") := hs
    obtain ⟨i, hi, rfl⟩ := List.mem_map.mp hs'
    exact hSm i (hacc i hi)
  · intro t ht
    have ht' : t ∈ (decodeAll rs).transitions.map
        (nameTrans
          (nameMapOf (decodeAll rs).state_ids (stateName (labels.getD {})))
          (nameMapOf (decodeAll rs).input_ids (inputName (labels.getD {})))
          (nameMapOf (decodeAll rs).output_ids
            (outputName (labels.getD {})))) := ht
    obtain ⟨t0, ht0, rfl⟩ := List.mem_map.mp ht'
    obtain ⟨h1, h2, h3, h4, h5⟩ := htr t0 ht0
    obtain ⟨src0, in0, to0, out0⟩ := t0
    refine ⟨hSm _ h1, ?_, ?_, ?_, ?_⟩
    · intro x hx
      cases to0 with
      | one y =>
        have hx' : Tgt.one ((pyGet? (nameMapOf (decodeAll rs).state_ids
            (stateName (labels.getD {}))) y).getD "") = Tgt.one x := hx
        injection hx' with hx'
        subst hx'
        exact hSm y (h3 y rfl)
      | many ys =>
        exact absurd (show Tgt.many (ys.map (fun z =>
          (pyGet? (nameMapOf (decodeAll rs).state_ids
            (stateName (labels.getD {}))) z).getD "")) = Tgt.one x from hx)
          (by simp)
    · intro xs hxs
      cases to0 with
      | one y =>
        exact absurd (show Tgt.one ((pyGet? (nameMapOf
          (decodeAll rs).state_ids (stateName (labels.getD {}))) y).getD "") =
            Tgt.many xs from hxs) (by simp)
      | many ys =>
        have hxs' : Tgt.many (ys.map (fun z =>
          (pyGet? (nameMapOf (decodeAll rs).state_ids
            (stateName (labels.getD {}))) z).getD "")) = Tgt.many xs := hxs
        injection hxs' with hxs'
        subst hxs'
        intro x hx
        obtain ⟨y, hy, rfl⟩ := List.mem_map.mp hx
        exact hSm y (h4 ys rfl y hy)
    · intro i hi
      cases in0 with
      | none =>
        exact absurd (show (none : Option String) = some i from hi) (by simp)
      | some j =>
        have hj : j ∈ (decodeAll rs).input_ids := h2 j rfl
        have hi' : pyGet? (nameMapOf (decodeAll rs).input_ids
            (inputName (labels.getD {}))) j = some i := hi
        rw [pyGet?_nameMapOf, if_pos hj] at hi'
        injection hi' with hi'
        subst hi'
        exact hI j hj
    · intro o ho
      cases out0 with
      | none =>
        exact absurd (show (none : Option String) = some o from ho) (by simp)
      | some w =>
        have hw : w ∈ (decodeAll rs).output_ids := h5 w rfl
        have ho' : some ((pyGet? (nameMapOf (decodeAll rs).output_ids
            (outputName (labels.getD {}))) w).getD "") = some o := ho
        injection ho' with ho'
        subst ho'
        exact hOm w hw
  · intro p hp
    have hp' : p ∈ (if decodedType (labels.getD {}) (decodeAll rs) = "moore"
        then (decodeAll rs).state_outputs.map (fun q =>
          ((pyGet? (nameMapOf (decodeAll rs).state_ids
            (stateName (labels.getD {}))) q.1).getD "",
           (pyGet? (nameMapOf (decodeAll rs).output_ids
            (outputName (labels.getD {}))) q.2).getD ""))
        else []) := hp
    by_cases hm : decodedType (labels.getD {}) (decodeAll rs) = "moore"
    · rw [if_pos hm] at hp'
      obtain ⟨q, hq, rfl⟩ := List.mem_map.mp hp'
      exact ⟨hSm q.1 (hout q hq).1, hOm q.2 (hout q hq).2⟩
    · rw [if_neg hm] at hp'
      exact absurd hp' (by simp)

/-! ## Round trip (C1): encoder/decoder correspondence machinery -/

/-- The encoder's `targets` list: a scalar target is wrapped in a list. -/
def tgts : Tgt → List String
  | .one s => [s]
  | .many ss => ss

/-- `true` exactly on scalar targets. -/
def isOneTgt : Tgt → Bool
  | .one _ => true
  | .many _ => false

/-- The input normalization the codec applies: the epsilon names collapse to
an absent input. -/
def normInput : Option String → Option String
  | none => none
  | some s => if s = "epsilon" ∨ s = "ε" then none else some s

/-- The target normalization the codec applies: a singleton multi-target
collapses to a scalar target. -/
def normTgt : Tgt → Tgt
  | .one s => .one s
  | .many [s] => .one s
  | .many ss => .many ss

/-- A transition after the codec's normalizations. -/
def normTrans (t : Trans) : Trans :=
  { t with
    input := normInput t.input
    to' := normTgt t.to' }

/-- The numeric id the encoder assigns to a name. -/
def idxOf (xs : List String) (s : String) : Nat :=
  (pyGet? (buildIdx xs) s).getD 0

theorem pyGet?_buildIdx_of_mem (xs : List String) (hnd : xs.Nodup) (s : String)
    (hs : s ∈ xs) : pyGet? (buildIdx xs) s = some (idxOf xs s) := by
  obtain ⟨⟨i, hi⟩, hget⟩ := List.mem_iff_get.mp hs
  have h := pyGet?_buildIdx_get xs hnd i hi
  rw [hget] at h
  show pyGet? (buildIdx xs) s = some ((pyGet? (buildIdx xs) s).getD 0)
  rw [h]
  rfl

theorem idxOf_lt (xs : List String) (hnd : xs.Nodup) (s : String)
    (hs : s ∈ xs) : idxOf xs s < xs.length := by
  obtain ⟨hk, _⟩ :=
    pyGet?_buildIdx_some xs s _ (pyGet?_buildIdx_of_mem xs hnd s hs) hnd
  exact hk

theorem get_idxOf (xs : List String) (hnd : xs.Nodup) (s : String)
    (hs : s ∈ xs) (h : idxOf xs s < xs.length) : xs.get ⟨idxOf xs s, h⟩ = s := by
  obtain ⟨hk, hget⟩ :=
    pyGet?_buildIdx_some xs s _ (pyGet?_buildIdx_of_mem xs hnd s hs) hnd
  exact hget

theorem idxOf_get (xs : List String) (hnd : xs.Nodup) (i : Nat)
    (hi : i < xs.length) : idxOf xs (xs.get ⟨i, hi⟩) = i := by
  show (pyGet? (buildIdx xs) _).getD 0 = i
  rw [pyGet?_buildIdx_get xs hnd i hi]
  rfl

theorem idxOf_inj (xs : List String) (hnd : xs.Nodup) (s s' : String)
    (hs : s ∈ xs) (hs' : s' ∈ xs) (h : idxOf xs s = idxOf xs s') : s = s' := by
  have h1 := get_idxOf xs hnd s hs (idxOf_lt xs hnd s hs)
  have h2 := get_idxOf xs hnd s' hs' (idxOf_lt xs hnd s' hs')
  rw [← h1, ← h2]
  congr 1
  exact Fin.ext h

theorem invertDict_buildIdx (xs : List String) (h : xs.Nodup) :
    invertDict (buildIdx xs) = xs.enum := by
  unfold invertDict
  rw [buildIdx_eq xs h]
  have hh := foldl_pyInsert_gen (fun p : String × Nat => p.2)
    (fun p : String × Nat => p.1)
    (xs.enum.map (fun p => (p.2, p.1))) []
    (by
      rw [List.map_map]
      show (xs.enum.map (fun p : Nat × String => p.1)).Nodup
      rw [show xs.enum.map (fun p : Nat × String => p.1) =
          List.range xs.length from List.enum_map_fst xs]
      exact List.nodup_range xs.length)
    (by simp)
  rw [hh, List.map_map]
  have hid : ((fun p : String × Nat => (p.2, p.1)) ∘
      (fun p : Nat × String => (p.2, p.1))) = id := by
    funext p
    cases p
    rfl
  rw [hid, List.map_id]
  rfl

theorem pyGet?_enumFrom_get (xs : List String) (n i : Nat)
    (hi : i < xs.length) :
    pyGet? (xs.enumFrom n) (n + i) = some (xs.get ⟨i, hi⟩) := by
  induction xs generalizing n i with
  | nil => simp at hi
  | cons x rest ih =>
    simp only [List.enumFrom]
    rw [pyGet?_cons]
    cases i with
    | zero =>
      rw [if_pos (by show n = n + 0; omega)]
      rfl
    | succ j =>
      rw [if_neg (by show ¬(n = n + (j + 1)); omega)]
      have := ih (n + 1) j (by simpa using hi)
      simp only [List.get_cons_succ]
      rw [show n + (j + 1) = (n + 1) + j by omega, this]

theorem pyGet?_enum_get (xs : List String) (i : Nat) (hi : i < xs.length) :
    pyGet? xs.enum i = some (xs.get ⟨i, hi⟩) := by
  simpa using pyGet?_enumFrom_get xs 0 i hi

theorem map_range_get (xs : List String) (f : Nat → String)
    (hf : ∀ i (hi : i < xs.length), f i = xs.get ⟨i, hi⟩) :
    (List.range xs.length).map f = xs := by
  apply List.ext_get (by simp)
  intro i h1 h2
  rw [List.get_map, List.get_range]
  exact hf i h2

theorem stateFlags_and_one (fsm : FSM) (s : String) :
    (stateFlags fsm s &&& 1 ≠ 0) ↔ fsm.initial = some s := by
  by_cases h1 : fsm.initial = some s
  · by_cases h2 : s ∈ fsm.accepting
    · rw [stateFlags, if_pos h1, if_pos h2]
      exact ⟨fun _ => h1, fun _ => by decide⟩
    · rw [stateFlags, if_pos h1, if_neg h2]
      exact ⟨fun _ => h1, fun _ => by decide⟩
  · by_cases h2 : s ∈ fsm.accepting
    · rw [stateFlags, if_neg h1, if_pos h2]
      exact ⟨fun hc => absurd hc (by decide), fun hc => absurd hc h1⟩
    · rw [stateFlags, if_neg h1, if_neg h2]
      exact ⟨fun hc => absurd hc (by decide), fun hc => absurd hc h1⟩

theorem stateFlags_and_two (fsm : FSM) (s : String) :
    (stateFlags fsm s &&& 2 ≠ 0) ↔ s ∈ fsm.accepting := by
  by_cases h1 : fsm.initial = some s
  · by_cases h2 : s ∈ fsm.accepting
    · rw [stateFlags, if_pos h1, if_pos h2]
      exact ⟨fun _ => h2, fun _ => by decide⟩
    · rw [stateFlags, if_pos h1, if_neg h2]
      exact ⟨fun hc => absurd hc (by decide), fun hc => absurd hc h2⟩
  · by_cases h2 : s ∈ fsm.accepting
    · rw [stateFlags, if_neg h1, if_pos h2]
      exact ⟨fun _ => h2, fun _ => by decide⟩
    · rw [stateFlags, if_neg h1, if_neg h2]
      exact ⟨fun hc => absurd hc (by decide), fun hc => absurd hc h2⟩

theorem stateFlags_ne_zero_iff (fsm : FSM) (s : String) :
    stateFlags fsm s ≠ 0 ↔ (fsm.initial = some s ∨ s ∈ fsm.accepting) := by
  by_cases h1 : fsm.initial = some s
  · by_cases h2 : s ∈ fsm.accepting
    · rw [stateFlags, if_pos h1, if_pos h2]
      exact ⟨fun _ => Or.inl h1, fun _ => by decide⟩
    · rw [stateFlags, if_pos h1, if_neg h2]
      exact ⟨fun _ => Or.inl h1, fun _ => by decide⟩
  · by_cases h2 : s ∈ fsm.accepting
    · rw [stateFlags, if_neg h1, if_pos h2]
      exact ⟨fun _ => Or.inr h2, fun _ => by decide⟩
    · rw [stateFlags, if_neg h1, if_neg h2]
      refine ⟨fun hc => absurd hc (by decide), ?_⟩
      rintro (h | h)
      · exact absurd h h1
      · exact absurd h h2

/-- The record chain the encoder emits for a multi-target transition:
continuation flag `1` on every record but the last. -/
def nfaChain (src inp : Nat) : List Nat → List Record
  | [] => []
  | [t] => [⟨TYPE_NFA_MULTI, src, inp, t, 0⟩]
  | t :: t2 :: ts => ⟨TYPE_NFA_MULTI, src, inp, t, 1⟩ :: nfaChain src inp (t2 :: ts)

/-- The input id the encoder puts on a transition's records. -/
def encInp (fsm : FSM) (t : Trans) : Nat :=
  match t.input with
  | none => EPSILON_INPUT
  | some s =>
    if s = "epsilon" ∨ s = "ε" then EPSILON_INPUT else idxOf fsm.alphabet s

/-- The record block the encoder emits for one transition. -/
def encBlock (fsm : FSM) (t : Trans) : List Record :=
  let src := idxOf fsm.states t.src
  let inp := encInp fsm t
  if fsm.fsm_type = "mealy" then
    [⟨TYPE_MEALY_TRANSITION, src, inp,
      idxOf fsm.states ((tgts t.to').getD 0 ""),
      idxOf fsm.output_alphabet (t.output.getD "")⟩]
  else if (tgts t.to').length = 1 then
    [⟨TYPE_DFA_TRANSITION, src, inp,
      idxOf fsm.states ((tgts t.to').getD 0 ""), 0⟩]
  else
    nfaChain src inp ((tgts t.to').map (idxOf fsm.states))

/-- The id-level transition the decoder accumulates for one encoded block. -/
def encTid (fsm : FSM) (t : Trans) : TransId :=
  let src := idxOf fsm.states t.src
  let inp := encInp fsm t
  let inp? : Option Nat := if inp = EPSILON_INPUT then none else some inp
  if fsm.fsm_type = "mealy" then
    ⟨src, inp?, .one (idxOf fsm.states ((tgts t.to').getD 0 "")),
      some (idxOf fsm.output_alphabet (t.output.getD ""))⟩
  else if (tgts t.to').length = 1 then
    ⟨src, inp?, .one (idxOf fsm.states ((tgts t.to').getD 0 "")), none⟩
  else
    ⟨src, inp?, .many ((tgts t.to').map (idxOf fsm.states)), none⟩

theorem getD_zero_mem {α : Type} (l : List α) (d : α) (h : l ≠ []) :
    l.getD 0 d ∈ l := by
  cases l with
  | nil => exact absurd rfl h
  | cons x xs => simp

theorem mapMOpt_eq_map {a b : Type} (f : a → Option b) (g : a → b)
    (l : List a) (h : ∀ x ∈ l, f x = some (g x)) :
    mapMOpt f l = some (l.map g) := by
  induction l with
  | nil => rfl
  | cons x xs ih =>
    simp only [mapMOpt, h x (by simp), ih (fun y hy => h y (by simp [hy])),
      List.map_cons]

theorem mapMOpt_nfa_enumFrom (sidx : PyDict String Nat) (src inp L k : Nat)
    (ts : List String) (hlen : k + ts.length = L)
    (h : ∀ s ∈ ts, ∃ v, pyGet? sidx s = some v) :
    mapMOpt (fun p => (pyGet? sidx p.2).map (fun tgt =>
        Record.mk TYPE_NFA_MULTI src inp tgt
          (if p.1 < L - 1 then 1 else 0))) (ts.enumFrom k) =
      some (nfaChain src inp (ts.map (fun s => (pyGet? sidx s).getD 0))) := by
  induction ts generalizing k with
  | nil => rfl
  | cons s rest ih =>
    obtain ⟨v, hv⟩ := h s (List.mem_cons_self s rest)
    have hrest := ih (k + 1) (by simp only [List.length_cons] at hlen; omega)
      (fun x hx => h x (List.mem_cons_of_mem s hx))
    simp only [List.enumFrom, mapMOpt, hv, Option.map_some', hrest,
      List.map_cons]
    cases rest with
    | nil =>
      simp only [List.length_cons, List.length_nil] at hlen
      simp only [List.map_nil, nfaChain, hv]
      rw [if_neg (by omega)]
      rfl
    | cons s2 rest2 =>
      simp only [List.length_cons] at hlen
      simp only [List.map_cons, nfaChain, hv]
      rw [if_pos (by omega)]
      rfl

/-- Every record of an NFA chain carries the group's source and input ids and
one of its targets; every listed target appears on some record. -/
theorem nfaChain_mem (src inp : Nat) (vs : List Nat) :
    (∀ r ∈ nfaChain src inp vs, r.rtype = TYPE_NFA_MULTI ∧ r.f1 = src ∧
      r.f2 = inp ∧ r.f3 ∈ vs) ∧
    (∀ v ∈ vs, ∃ r ∈ nfaChain src inp vs, r.f3 = v) := by
  induction vs with
  | nil => exact ⟨by simp [nfaChain], by simp⟩
  | cons v rest ih =>
    cases rest with
    | nil =>
      constructor
      · intro r hr
        simp only [nfaChain, List.mem_singleton] at hr
        subst hr
        simp
      · intro w hw
        simp only [List.mem_singleton] at hw
        subst hw
        exact ⟨⟨TYPE_NFA_MULTI, src, inp, w, 0⟩, by simp [nfaChain]⟩
    | cons v2 rest2 =>
      constructor
      · intro r hr
        simp only [nfaChain, List.mem_cons] at hr
        rcases hr with rfl | hr
        · simp
        · obtain ⟨h1, h2, h3, h4⟩ := ih.1 r hr
          exact ⟨h1, h2, h3, by simp [h4]⟩
      · intro w hw
        rcases List.mem_cons.mp hw with rfl | hw
        · exact ⟨⟨TYPE_NFA_MULTI, src, inp, w, 1⟩, by simp [nfaChain]⟩
        · obtain ⟨r, hr, hf3⟩ := ih.2 w hw
          exact ⟨r, by simp [nfaChain, hr], hf3⟩

/-- Under the per-transition validity conditions, `encodeTrans` succeeds and
emits exactly the characterized block. -/
theorem encodeTrans_eq (fsm : FSM) (t : Trans)
    (hnd : fsm.states.Nodup) (hand : fsm.alphabet.Nodup)
    (hsrc : t.src ∈ fsm.states)
    (htne : tgts t.to' ≠ [])
    (htg : ∀ x ∈ tgts t.to', x ∈ fsm.states)
    (hinp : ∀ s, t.input = some s → ¬(s = "epsilon" ∨ s = "ε") →
      s ∈ fsm.alphabet) :
    encodeTrans fsm (buildIdx fsm.states) (buildIdx fsm.alphabet)
      (buildIdx fsm.output_alphabet) t = some (encBlock fsm t) := by
  have hsrcEq := pyGet?_buildIdx_of_mem fsm.states hnd t.src hsrc
  have htgts : (match t.to' with | .one s => [s] | .many ss => ss) =
      tgts t.to' := by
    cases t.to' <;> rfl
  have hinpEq : (match t.input with
      | none => some EPSILON_INPUT
      | some s => if s = "epsilon" ∨ s = "ε" then some EPSILON_INPUT
          else pyGet? (buildIdx fsm.alphabet) s) = some (encInp fsm t) := by
    cases hti : t.input with
    | none => simp [encInp, hti]
    | some s =>
      by_cases he : s = "epsilon" ∨ s = "ε"
      · simp [encInp, hti, he]
      · simp only [if_neg he]
        rw [pyGet?_buildIdx_of_mem _ hand s (hinp s hti he)]
        simp [encInp, hti, he]
  unfold encodeTrans
  simp only [hsrcEq, hinpEq, htgts]
  by_cases hm : fsm.fsm_type = "mealy"
  · rw [if_pos hm]
    cases hcase : tgts t.to' with
    | nil => exact absurd hcase htne
    | cons t0 rest =>
      have ht0 : t0 ∈ fsm.states := htg t0 (by rw [hcase]; simp)
      dsimp only
      rw [pyGet?_buildIdx_of_mem fsm.states hnd t0 ht0]
      simp only [encBlock, if_pos hm, hcase]
      rfl
  · rw [if_neg hm]
    by_cases hlen : (tgts t.to').length = 1
    · rw [if_pos hlen]
      have hmem : (tgts t.to').getD 0 "" ∈ fsm.states :=
        htg _ (getD_zero_mem _ _ htne)
      rw [pyGet?_buildIdx_of_mem fsm.states hnd _ hmem]
      simp only [encBlock, if_neg hm, if_pos hlen]
    · rw [if_neg hlen]
      have := mapMOpt_nfa_enumFrom (buildIdx fsm.states)
        (idxOf fsm.states t.src) (encInp fsm t) (tgts t.to').length 0
        (tgts t.to') (by omega)
        (fun s hs => ⟨idxOf fsm.states s,
          pyGet?_buildIdx_of_mem fsm.states hnd s (htg s hs)⟩)
      rw [show (tgts t.to').enum = (tgts t.to').enumFrom 0 from rfl, this]
      simp only [encBlock, if_neg hm, if_neg hlen]
      rfl

/-- Every record of an encoded transition block is a transition-type record. -/
theorem encBlock_types (fsm : FSM) (t : Trans) :
    ∀ r ∈ encBlock fsm t, r.rtype = TYPE_DFA_TRANSITION ∨
      r.rtype = TYPE_MEALY_TRANSITION ∨ r.rtype = TYPE_NFA_MULTI := by
  intro r hr
  unfold encBlock at hr
  by_cases hm : fsm.fsm_type = "mealy"
  · rw [if_pos hm] at hr
    simp only [List.mem_singleton] at hr
    subst hr
    exact Or.inr (Or.inl rfl)
  · rw [if_neg hm] at hr
    by_cases hlen : (tgts t.to').length = 1
    · rw [if_pos hlen] at hr
      simp only [List.mem_singleton] at hr
      subst hr
      exact Or.inl rfl
    · rw [if_neg hlen] at hr
      exact Or.inr (Or.inr ((nfaChain_mem _ _ _).1 r hr).1)

/-- Every emitted state declaration is a `STATE_DECL` record whose flags come
from `stateFlags`. -/
theorem stateDecls_types (fsm : FSM) (state_idx output_idx : PyDict String Nat) :
    ∀ r ∈ stateDecls fsm state_idx output_idx, r.rtype = TYPE_STATE_DECL := by
  intro r hr
  unfold stateDecls at hr
  by_cases hm : fsm.fsm_type = "moore"
  · rw [if_pos hm] at hr
    obtain ⟨s, _, rfl⟩ := List.mem_map.mp hr
    rfl
  · rw [if_neg hm] at hr
    obtain ⟨s, _, hs⟩ := List.mem_filterMap.mp hr
    by_cases hf : stateFlags fsm s ≠ 0
    · rw [if_pos hf] at hs
      injection hs with hs
      subst hs
      rfl
    · rw [if_neg hf] at hs
      exact absurd hs (by simp)

/-- The encoder's output under the validity conditions: state declarations
followed by the per-transition blocks, plus the enumeration label maps. -/
theorem fsm_to_hex_recs_eq (fsm : FSM)
    (hnd : fsm.states.Nodup) (hand : fsm.alphabet.Nodup)
    (hond : fsm.output_alphabet.Nodup)
    (hT : ∀ t ∈ fsm.transitions,
      t.src ∈ fsm.states ∧ tgts t.to' ≠ [] ∧
      (∀ x ∈ tgts t.to', x ∈ fsm.states) ∧
      (∀ s, t.input = some s → ¬(s = "epsilon" ∨ s = "ε") →
        s ∈ fsm.alphabet)) :
    fsm_to_hex_recs fsm = some
      (stateDecls fsm (buildIdx fsm.states) (buildIdx fsm.output_alphabet) ++
        (fsm.transitions.map (encBlock fsm)).flatten,
       fsm.states.enum, fsm.alphabet.enum, fsm.output_alphabet.enum) := by
  have hmap : mapMOpt (encodeTrans fsm (buildIdx fsm.states)
      (buildIdx fsm.alphabet) (buildIdx fsm.output_alphabet))
      fsm.transitions = some (fsm.transitions.map (encBlock fsm)) := by
    apply mapMOpt_eq_map
    intro t ht
    obtain ⟨h1, h2, h3, h4⟩ := hT t ht
    exact encodeTrans_eq fsm t hnd hand h1 h2 h3 h4
  unfold fsm_to_hex_recs
  simp only [hmap, invertDict_buildIdx fsm.states hnd,
    invertDict_buildIdx fsm.alphabet hand,
    invertDict_buildIdx fsm.output_alphabet hond]

/-! ### Per-field accumulation of the decode loop -/

/-- How one record updates the decoder's state-id set. -/
def stateIdsUpd (acc : List Nat) (r : Record) : List Nat :=
  if r.rtype = TYPE_STATE_DECL then pySetAdd acc r.f1
  else if r.rtype = TYPE_DFA_TRANSITION ∨ r.rtype = TYPE_MEALY_TRANSITION ∨
      r.rtype = TYPE_NFA_MULTI then
    pySetAdd (pySetAdd acc r.f1) r.f3
  else acc

/-- How one record updates the decoder's initial state. -/
def iniUpd (cur : Option Nat) (r : Record) : Option Nat :=
  if r.rtype = TYPE_STATE_DECL ∧ r.f2 &&& 1 ≠ 0 then some r.f1 else cur

/-- How one record updates the decoder's accepting-state set. -/
def accUpd (cur : List Nat) (r : Record) : List Nat :=
  if r.rtype = TYPE_STATE_DECL ∧ r.f2 &&& 2 ≠ 0 then pySetAdd cur r.f1 else cur

/-- How one record updates the decoder's Moore output table. -/
def soUpd (cur : PyDict Nat Nat) (r : Record) : PyDict Nat Nat :=
  if r.rtype = TYPE_STATE_DECL ∧ r.f3 ≠ 0 then pyInsert cur r.f1 (r.f3 - 1)
  else cur

/-- How one record updates the decoder's output-id set. -/
def outIdsUpd (acc : List Nat) (r : Record) : List Nat :=
  if r.rtype = TYPE_STATE_DECL ∧ r.f3 ≠ 0 then pySetAdd acc (r.f3 - 1)
  else if r.rtype = TYPE_MEALY_TRANSITION then pySetAdd acc r.f4
  else acc

theorem decodeStep_scalar_fields (st : DecState) (r : Record) :
    (decodeStep st r).state_ids = stateIdsUpd st.state_ids r ∧
    (decodeStep st r).initial_state = iniUpd st.initial_state r ∧
    (decodeStep st r).accepting_states = accUpd st.accepting_states r ∧
    (decodeStep st r).state_outputs = soUpd st.state_outputs r ∧
    (decodeStep st r).output_ids = outIdsUpd st.output_ids r := by
  obtain ⟨ty, f1, f2, f3, f4⟩ := r
  by_cases h2 : ty = TYPE_STATE_DECL
  · subst h2
    rw [decodeStep_decl]
    refine ⟨?_, ?_, ?_, ?_, ?_⟩ <;>
      simp [stateIdsUpd, iniUpd, accUpd, soUpd, outIdsUpd, TYPE_STATE_DECL,
        TYPE_DFA_TRANSITION, TYPE_MEALY_TRANSITION, TYPE_NFA_MULTI]
  · by_cases h0 : ty = TYPE_DFA_TRANSITION
    · subst h0
      rw [decodeStep_dfa]
      refine ⟨?_, ?_, ?_, ?_, ?_⟩ <;>
        simp [stateIdsUpd, iniUpd, accUpd, soUpd, outIdsUpd, TYPE_STATE_DECL,
          TYPE_DFA_TRANSITION, TYPE_MEALY_TRANSITION, TYPE_NFA_MULTI]
    · by_cases h1 : ty = TYPE_MEALY_TRANSITION
      · subst h1
        rw [decodeStep_mealy]
        refine ⟨?_, ?_, ?_, ?_, ?_⟩ <;>
          simp [stateIdsUpd, iniUpd, accUpd, soUpd, outIdsUpd, TYPE_STATE_DECL,
            TYPE_DFA_TRANSITION, TYPE_MEALY_TRANSITION, TYPE_NFA_MULTI]
      · by_cases h3 : ty = TYPE_NFA_MULTI
        · subst h3
          obtain ⟨ts, pend, heq, _⟩ := decodeStep_nfa_shape st f1 f2 f3 f4
          rw [heq]
          refine ⟨?_, ?_, ?_, ?_, ?_⟩ <;>
            simp [stateIdsUpd, iniUpd, accUpd, soUpd, outIdsUpd,
              TYPE_STATE_DECL, TYPE_DFA_TRANSITION, TYPE_MEALY_TRANSITION,
              TYPE_NFA_MULTI]
        · rw [decodeStep_other st _ h0 h1 h2 h3]
          refine ⟨?_, ?_, ?_, ?_, ?_⟩ <;>
            simp [stateIdsUpd, iniUpd, accUpd, soUpd, outIdsUpd, h0, h1, h2, h3]

theorem foldl_state_ids (rs : List Record) (st : DecState) :
    (rs.foldl decodeStep st).state_ids = rs.foldl stateIdsUpd st.state_ids := by
  induction rs generalizing st with
  | nil => rfl
  | cons r rest ih =>
    rw [List.foldl_cons, List.foldl_cons, ih]
    congr 1
    exact (decodeStep_scalar_fields st r).1

theorem foldl_initial_state (rs : List Record) (st : DecState) :
    (rs.foldl decodeStep st).initial_state =
      rs.foldl iniUpd st.initial_state := by
  induction rs generalizing st with
  | nil => rfl
  | cons r rest ih =>
    rw [List.foldl_cons, List.foldl_cons, ih]
    congr 1
    exact (decodeStep_scalar_fields st r).2.1

theorem foldl_accepting_states (rs : List Record) (st : DecState) :
    (rs.foldl decodeStep st).accepting_states =
      rs.foldl accUpd st.accepting_states := by
  induction rs generalizing st with
  | nil => rfl
  | cons r rest ih =>
    rw [List.foldl_cons, List.foldl_cons, ih]
    congr 1
    exact (decodeStep_scalar_fields st r).2.2.1

theorem foldl_state_outputs (rs : List Record) (st : DecState) :
    (rs.foldl decodeStep st).state_outputs =
      rs.foldl soUpd st.state_outputs := by
  induction rs generalizing st with
  | nil => rfl
  | cons r rest ih =>
    rw [List.foldl_cons, List.foldl_cons, ih]
    congr 1
    exact (decodeStep_scalar_fields st r).2.2.2.1

theorem foldl_output_ids (rs : List Record) (st : DecState) :
    (rs.foldl decodeStep st).output_ids =
      rs.foldl outIdsUpd st.output_ids := by
  induction rs generalizing st with
  | nil => rfl
  | cons r rest ih =>
    rw [List.foldl_cons, List.foldl_cons, ih]
    congr 1
    exact (decodeStep_scalar_fields st r).2.2.2.2

theorem decodeAll_scalar_fields (rs : List Record) :
    (decodeAll rs).state_ids = rs.foldl stateIdsUpd [] ∧
    (decodeAll rs).initial_state = rs.foldl iniUpd none ∧
    (decodeAll rs).accepting_states = rs.foldl accUpd [] ∧
    (decodeAll rs).state_outputs = rs.foldl soUpd [] ∧
    (decodeAll rs).output_ids = rs.foldl outIdsUpd [] := by
  unfold decodeAll
  obtain ⟨h1, h2, h3, _, _, _, h7, h8, h9⟩ := eosFlush_proj (rs.foldl decodeStep {})
  exact ⟨by rw [h1, foldl_state_ids],
    by rw [h7, foldl_initial_state],
    by rw [h8, foldl_accepting_states],
    by rw [h9, foldl_state_outputs],
    by rw [h3, foldl_output_ids]⟩

/-- How one record updates the decoder's transition list and pending NFA
group, jointly. -/
def tpUpd (tp : List TransId × Option (Nat × Nat × List Nat)) (r : Record) :
    List TransId × Option (Nat × Nat × List Nat) :=
  if r.rtype = TYPE_STATE_DECL then tp
  else if r.rtype = TYPE_DFA_TRANSITION then
    (tp.1 ++ [⟨r.f1, if r.f2 ≠ EPSILON_INPUT then some r.f2 else none,
      .one r.f3, none⟩], tp.2)
  else if r.rtype = TYPE_MEALY_TRANSITION then
    (tp.1 ++ [⟨r.f1, if r.f2 ≠ EPSILON_INPUT then some r.f2 else none,
      .one r.f3, some r.f4⟩], tp.2)
  else if r.rtype = TYPE_NFA_MULTI then
    let fl : List TransId × (Nat × Nat × List Nat) :=
      match tp.2 with
      | none => (tp.1, (r.f1, r.f2, [r.f3]))
      | some p =>
        if p.1 ≠ r.f1 ∨ p.2.1 ≠ r.f2 then
          (tp.1 ++ [pendingTrans p], (r.f1, r.f2, [r.f3]))
        else (tp.1, (p.1, p.2.1, p.2.2 ++ [r.f3]))
    if r.f4 = 0 then (fl.1 ++ [pendingTrans fl.2], none)
    else (fl.1, some fl.2)
  else tp

theorem decodeStep_tp (st : DecState) (r : Record) :
    ((decodeStep st r).transitions, (decodeStep st r).nfa_pending) =
      tpUpd (st.transitions, st.nfa_pending) r := by
  obtain ⟨ty, f1, f2, f3, f4⟩ := r
  by_cases h2 : ty = TYPE_STATE_DECL
  · subst h2
    rw [decodeStep_decl]
    simp [tpUpd, TYPE_STATE_DECL]
  · by_cases h0 : ty = TYPE_DFA_TRANSITION
    · subst h0
      rw [decodeStep_dfa]
      simp [tpUpd, TYPE_STATE_DECL, TYPE_DFA_TRANSITION]
    · by_cases h1 : ty = TYPE_MEALY_TRANSITION
      · subst h1
        rw [decodeStep_mealy]
        simp [tpUpd, TYPE_STATE_DECL, TYPE_DFA_TRANSITION,
          TYPE_MEALY_TRANSITION]
      · by_cases h3 : ty = TYPE_NFA_MULTI
        · subst h3
          cases hp : st.nfa_pending with
          | none =>
            rw [decodeStep_nfa_fresh st f1 f2 f3 f4 hp]
            by_cases h4 : f4 = 0
            · rw [if_pos h4]
              simp [tpUpd, TYPE_STATE_DECL, TYPE_DFA_TRANSITION,
                TYPE_MEALY_TRANSITION, TYPE_NFA_MULTI, hp, h4]
            · rw [if_neg h4]
              simp [tpUpd, TYPE_STATE_DECL, TYPE_DFA_TRANSITION,
                TYPE_MEALY_TRANSITION, TYPE_NFA_MULTI, hp, h4]
          | some p =>
            obtain ⟨s, i, acc⟩ := p
            by_cases hm : s = f1 ∧ i = f2
            · obtain ⟨rfl, rfl⟩ := hm
              rw [decodeStep_nfa_match st s i f3 f4 acc hp]
              by_cases h4 : f4 = 0
              · rw [if_pos h4]
                simp [tpUpd, TYPE_STATE_DECL, TYPE_DFA_TRANSITION,
                  TYPE_MEALY_TRANSITION, TYPE_NFA_MULTI, hp, h4]
              · rw [if_neg h4]
                simp [tpUpd, TYPE_STATE_DECL, TYPE_DFA_TRANSITION,
                  TYPE_MEALY_TRANSITION, TYPE_NFA_MULTI, hp, h4]
            · have hne : s ≠ f1 ∨ i ≠ f2 := by tauto
              rw [decodeStep_nfa_boundary st f1 f2 f3 f4 s i acc hp hne]
              by_cases h4 : f4 = 0
              · rw [if_pos h4]
                simp [tpUpd, TYPE_STATE_DECL, TYPE_DFA_TRANSITION,
                  TYPE_MEALY_TRANSITION, TYPE_NFA_MULTI, hp, h4, hne]
              · rw [if_neg h4]
                simp [tpUpd, TYPE_STATE_DECL, TYPE_DFA_TRANSITION,
                  TYPE_MEALY_TRANSITION, TYPE_NFA_MULTI, hp, h4, hne]
        · rw [decodeStep_other st _ h0 h1 h2 h3]
          simp [tpUpd, h0, h1, h2, h3]

theorem foldl_tp (rs : List Record) (st : DecState) :
    ((rs.foldl decodeStep st).transitions,
        (rs.foldl decodeStep st).nfa_pending) =
      rs.foldl tpUpd (st.transitions, st.nfa_pending) := by
  induction rs generalizing st with
  | nil => rfl
  | cons r rest ih =>
    rw [List.foldl_cons, List.foldl_cons, ih (decodeStep st r),
      decodeStep_tp st r]

theorem tpUpd_decl (tp : List TransId × Option (Nat × Nat × List Nat))
    (r : Record) (h : r.rtype = TYPE_STATE_DECL) : tpUpd tp r = tp := by
  unfold tpUpd
  rw [if_pos h]

theorem foldl_tpUpd_decls (rs : List Record)
    (tp : List TransId × Option (Nat × Nat × List Nat))
    (h : ∀ r ∈ rs, r.rtype = TYPE_STATE_DECL) : rs.foldl tpUpd tp = tp := by
  induction rs generalizing tp with
  | nil => rfl
  | cons r rest ih =>
    rw [List.foldl_cons, tpUpd_decl tp r (h r (by simp))]
    exact ih tp (fun r' hr' => h r' (by simp [hr']))

theorem tp_nfaChain_pending (acc : List TransId) (src inp : Nat)
    (pref : List Nat) (vs : List Nat) (hvs : vs ≠ []) :
    (nfaChain src inp vs).foldl tpUpd (acc, some (src, inp, pref)) =
      (acc ++ [pendingTrans (src, inp, pref ++ vs)], none) := by
  induction vs generalizing pref with
  | nil => exact absurd rfl hvs
  | cons v rest ih =>
    cases rest with
    | nil =>
      simp [nfaChain, tpUpd, TYPE_STATE_DECL, TYPE_DFA_TRANSITION,
        TYPE_MEALY_TRANSITION, TYPE_NFA_MULTI]
    | cons v2 rest2 =>
      have hstep : tpUpd (acc, some (src, inp, pref))
          ⟨TYPE_NFA_MULTI, src, inp, v, 1⟩ =
          (acc, some (src, inp, pref ++ [v])) := by
        simp [tpUpd, TYPE_STATE_DECL, TYPE_DFA_TRANSITION,
          TYPE_MEALY_TRANSITION, TYPE_NFA_MULTI]
      rw [show nfaChain src inp (v :: v2 :: rest2) =
          ⟨TYPE_NFA_MULTI, src, inp, v, 1⟩ :: nfaChain src inp (v2 :: rest2)
          from rfl,
        List.foldl_cons, hstep, ih (pref ++ [v]) (by simp)]
      simp

theorem tp_nfaChain (acc : List TransId) (src inp : Nat) (vs : List Nat)
    (hvs : vs ≠ []) :
    (nfaChain src inp vs).foldl tpUpd (acc, none) =
      (acc ++ [pendingTrans (src, inp, vs)], none) := by
  cases vs with
  | nil => exact absurd rfl hvs
  | cons v rest =>
    cases rest with
    | nil =>
      simp [nfaChain, tpUpd, TYPE_STATE_DECL, TYPE_DFA_TRANSITION,
        TYPE_MEALY_TRANSITION, TYPE_NFA_MULTI]
    | cons v2 rest2 =>
      have hstep : tpUpd (acc, none) ⟨TYPE_NFA_MULTI, src, inp, v, 1⟩ =
          (acc, some (src, inp, [v])) := by
        simp [tpUpd, TYPE_STATE_DECL, TYPE_DFA_TRANSITION,
          TYPE_MEALY_TRANSITION, TYPE_NFA_MULTI]
      rw [show nfaChain src inp (v :: v2 :: rest2) =
          ⟨TYPE_NFA_MULTI, src, inp, v, 1⟩ :: nfaChain src inp (v2 :: rest2)
          from rfl,
        List.foldl_cons, hstep,
        tp_nfaChain_pending acc src inp [v] (v2 :: rest2) (by simp)]
      rfl

theorem if_ne_eps_comm (a : Nat) :
    (if a ≠ EPSILON_INPUT then some a else none) =
      (if a = EPSILON_INPUT then none else some a) := by
  by_cases h : a = EPSILON_INPUT <;> simp [h]

theorem tp_encBlock (fsm : FSM) (t : Trans) (acc : List TransId)
    (hne : tgts t.to' ≠ []) :
    (encBlock fsm t).foldl tpUpd (acc, none) = (acc ++ [encTid fsm t], none) := by
  by_cases hm : fsm.fsm_type = "mealy"
  · simp only [encBlock, encTid, if_pos hm, List.foldl_cons, List.foldl_nil]
    rw [show tpUpd (acc, none)
        ⟨TYPE_MEALY_TRANSITION, idxOf fsm.states t.src, encInp fsm t,
          idxOf fsm.states ((tgts t.to').getD 0 ""),
          idxOf fsm.output_alphabet (t.output.getD "")⟩ =
        (acc ++ [⟨idxOf fsm.states t.src,
          if encInp fsm t ≠ EPSILON_INPUT then some (encInp fsm t) else none,
          .one (idxOf fsm.states ((tgts t.to').getD 0 "")),
          some (idxOf fsm.output_alphabet (t.output.getD ""))⟩], none)
        from by
          simp [tpUpd, TYPE_STATE_DECL, TYPE_DFA_TRANSITION,
            TYPE_MEALY_TRANSITION]]
    rw [if_ne_eps_comm]
  · by_cases hlen : (tgts t.to').length = 1
    · simp only [encBlock, encTid, if_neg hm, if_pos hlen, List.foldl_cons,
        List.foldl_nil]
      rw [show tpUpd (acc, none)
          ⟨TYPE_DFA_TRANSITION, idxOf fsm.states t.src, encInp fsm t,
            idxOf fsm.states ((tgts t.to').getD 0 ""), 0⟩ =
          (acc ++ [⟨idxOf fsm.states t.src,
            if encInp fsm t ≠ EPSILON_INPUT then some (encInp fsm t) else none,
            .one (idxOf fsm.states ((tgts t.to').getD 0 "")), none⟩], none)
          from by
            simp [tpUpd, TYPE_STATE_DECL, TYPE_DFA_TRANSITION]]
      rw [if_ne_eps_comm]
    · simp only [encBlock, encTid, if_neg hm, if_neg hlen]
      rw [tp_nfaChain acc _ _ _ (by simpa using hne)]
      rfl

theorem tp_blocks (fsm : FSM) (ts : List Trans) (acc : List TransId)
    (hne : ∀ t ∈ ts, tgts t.to' ≠ []) :
    ((ts.map (encBlock fsm)).flatten).foldl tpUpd (acc, none) =
      (acc ++ ts.map (encTid fsm), none) := by
  induction ts generalizing acc with
  | nil => simp
  | cons t rest ih =>
    rw [List.map_cons, List.flatten_cons, List.foldl_append,
      tp_encBlock fsm t acc (hne t (by simp)),
      ih (acc ++ [encTid fsm t]) (fun t' ht' => hne t' (by simp [ht']))]
    simp

theorem mem_foldl_of_mem_iff {β : Type} (g : List Nat → β → List Nat)
    (P : β → Nat → Prop)
    (hg : ∀ acc r x, x ∈ g acc r ↔ x ∈ acc ∨ P r x) :
    ∀ (rs : List β) (acc : List Nat) (x : Nat),
      x ∈ rs.foldl g acc ↔ x ∈ acc ∨ ∃ r ∈ rs, P r x := by
  intro rs
  induction rs with
  | nil => simp
  | cons r rest ih =>
    intro acc x
    rw [List.foldl_cons, ih, hg]
    constructor
    · rintro ((h | h) | ⟨r', hr', hp⟩)
      · exact Or.inl h
      · exact Or.inr ⟨r, by simp, h⟩
      · exact Or.inr ⟨r', by simp [hr'], hp⟩
    · rintro (h | ⟨r', hr', hp⟩)
      · exact Or.inl (Or.inl h)
      · rcases List.mem_cons.mp hr' with rfl | hr'
        · exact Or.inl (Or.inr hp)
        · exact Or.inr ⟨r', hr', hp⟩

theorem nodup_foldl_of_preserve {β : Type} (g : List Nat → β → List Nat)
    (hg : ∀ acc r, acc.Nodup → (g acc r).Nodup) :
    ∀ (rs : List β) (acc : List Nat), acc.Nodup → (rs.foldl g acc).Nodup := by
  intro rs
  induction rs with
  | nil => exact fun acc h => h
  | cons r rest ih =>
    intro acc h
    rw [List.foldl_cons]
    exact ih _ (hg acc r h)

theorem mem_stateIdsUpd (acc : List Nat) (r : Record) (x : Nat) :
    x ∈ stateIdsUpd acc r ↔ x ∈ acc ∨
      (((r.rtype = TYPE_STATE_DECL ∨ r.rtype = TYPE_DFA_TRANSITION ∨
        r.rtype = TYPE_MEALY_TRANSITION ∨ r.rtype = TYPE_NFA_MULTI) ∧
          x = r.f1) ∨
      ((r.rtype = TYPE_DFA_TRANSITION ∨ r.rtype = TYPE_MEALY_TRANSITION ∨
        r.rtype = TYPE_NFA_MULTI) ∧ x = r.f3)) := by
  unfold stateIdsUpd
  by_cases h2 : r.rtype = TYPE_STATE_DECL
  · rw [if_pos h2, mem_pySetAdd]
    constructor
    · rintro (h | rfl)
      · exact Or.inl h
      · exact Or.inr (Or.inl ⟨Or.inl h2, rfl⟩)
    · rintro (h | ⟨_, rfl⟩ | ⟨htr, rfl⟩)
      · exact Or.inl h
      · exact Or.inr rfl
      · rcases htr with h | h | h <;> rw [h2] at h <;> exact absurd h (by decide)
  · rw [if_neg h2]
    by_cases htr : r.rtype = TYPE_DFA_TRANSITION ∨
        r.rtype = TYPE_MEALY_TRANSITION ∨ r.rtype = TYPE_NFA_MULTI
    · rw [if_pos htr, mem_pySetAdd, mem_pySetAdd]
      constructor
      · rintro ((h | rfl) | rfl)
        · exact Or.inl h
        · exact Or.inr (Or.inl ⟨Or.inr htr, rfl⟩)
        · exact Or.inr (Or.inr ⟨htr, rfl⟩)
      · rintro (h | ⟨_, rfl⟩ | ⟨_, rfl⟩)
        · exact Or.inl (Or.inl h)
        · exact Or.inl (Or.inr rfl)
        · exact Or.inr rfl
    · rw [if_neg htr]
      constructor
      · exact fun h => Or.inl h
      · rintro (h | ⟨hd, rfl⟩ | ⟨hd, rfl⟩)
        · exact h
        · rcases hd with h | h
          · exact absurd h h2
          · exact absurd h htr
        · exact absurd hd htr

theorem mem_accUpd (cur : List Nat) (r : Record) (x : Nat) :
    x ∈ accUpd cur r ↔ x ∈ cur ∨
      (r.rtype = TYPE_STATE_DECL ∧ r.f2 &&& 2 ≠ 0 ∧ x = r.f1) := by
  unfold accUpd
  by_cases h : r.rtype = TYPE_STATE_DECL ∧ r.f2 &&& 2 ≠ 0
  · rw [if_pos h, mem_pySetAdd]
    constructor
    · rintro (hm | rfl)
      · exact Or.inl hm
      · exact Or.inr ⟨h.1, h.2, rfl⟩
    · rintro (hm | ⟨_, _, rfl⟩)
      · exact Or.inl hm
      · exact Or.inr rfl
  · rw [if_neg h]
    constructor
    · exact fun hm => Or.inl hm
    · rintro (hm | ⟨h1, h2, rfl⟩)
      · exact hm
      · exact absurd ⟨h1, h2⟩ h

theorem mem_outIdsUpd (acc : List Nat) (r : Record) (x : Nat) :
    x ∈ outIdsUpd acc r ↔ x ∈ acc ∨
      ((r.rtype = TYPE_STATE_DECL ∧ r.f3 ≠ 0 ∧ x = r.f3 - 1) ∨
       (r.rtype = TYPE_MEALY_TRANSITION ∧ x = r.f4)) := by
  unfold outIdsUpd
  by_cases h : r.rtype = TYPE_STATE_DECL ∧ r.f3 ≠ 0
  · rw [if_pos h, mem_pySetAdd]
    constructor
    · rintro (hm | rfl)
      · exact Or.inl hm
      · exact Or.inr (Or.inl ⟨h.1, h.2, rfl⟩)
    · rintro (hm | ⟨_, _, rfl⟩ | ⟨hme, rfl⟩)
      · exact Or.inl hm
      · exact Or.inr rfl
      · rw [h.1] at hme
        exact absurd hme (by decide)
  · rw [if_neg h]
    by_cases hme : r.rtype = TYPE_MEALY_TRANSITION
    · rw [if_pos hme, mem_pySetAdd]
      constructor
      · rintro (hm | rfl)
        · exact Or.inl hm
        · exact Or.inr (Or.inr ⟨hme, rfl⟩)
      · rintro (hm | ⟨h1, h2, rfl⟩ | ⟨_, rfl⟩)
        · exact Or.inl hm
        · exact absurd ⟨h1, h2⟩ h
        · exact Or.inr rfl
    · rw [if_neg hme]
      constructor
      · exact fun hm => Or.inl hm
      · rintro (hm | ⟨h1, h2, rfl⟩ | ⟨h1, rfl⟩)
        · exact hm
        · exact absurd ⟨h1, h2⟩ h
        · exact absurd h1 hme

theorem mem_inputIdsUpd (acc : List Nat) (r : Record) (x : Nat) :
    x ∈ inputIdsUpd acc r ↔ x ∈ acc ∨
      ((r.rtype = TYPE_DFA_TRANSITION ∨ r.rtype = TYPE_MEALY_TRANSITION ∨
        r.rtype = TYPE_NFA_MULTI) ∧ r.f2 ≠ EPSILON_INPUT ∧ x = r.f2) := by
  unfold inputIdsUpd
  by_cases h : (r.rtype = TYPE_DFA_TRANSITION ∨
      r.rtype = TYPE_MEALY_TRANSITION ∨ r.rtype = TYPE_NFA_MULTI) ∧
      r.f2 ≠ EPSILON_INPUT
  · rw [if_pos h, mem_pySetAdd]
    constructor
    · rintro (hm | rfl)
      · exact Or.inl hm
      · exact Or.inr ⟨h.1, h.2, rfl⟩
    · rintro (hm | ⟨_, _, rfl⟩)
      · exact Or.inl hm
      · exact Or.inr rfl
  · rw [if_neg h]
    constructor
    · exact fun hm => Or.inl hm
    · rintro (hm | ⟨h1, h2, rfl⟩)
      · exact hm
      · exact absurd ⟨h1, h2⟩ h

theorem nodup_stateIdsUpd (acc : List Nat) (r : Record) (h : acc.Nodup) :
    (stateIdsUpd acc r).Nodup := by
  unfold stateIdsUpd
  split_ifs
  · exact nodup_pySetAdd _ _ h
  · exact nodup_pySetAdd _ _ (nodup_pySetAdd _ _ h)
  · exact h

theorem nodup_accUpd (acc : List Nat) (r : Record) (h : acc.Nodup) :
    (accUpd acc r).Nodup := by
  unfold accUpd
  split_ifs
  · exact nodup_pySetAdd _ _ h
  · exact h

theorem nodup_outIdsUpd (acc : List Nat) (r : Record) (h : acc.Nodup) :
    (outIdsUpd acc r).Nodup := by
  unfold outIdsUpd
  split_ifs
  · exact nodup_pySetAdd _ _ h
  · exact nodup_pySetAdd _ _ h
  · exact h

theorem nodup_inputIdsUpd (acc : List Nat) (r : Record) (h : acc.Nodup) :
    (inputIdsUpd acc r).Nodup := by
  unfold inputIdsUpd
  split_ifs
  · exact nodup_pySetAdd _ _ h
  · exact h

theorem foldl_iniUpd_no_set (rs : List Record) (cur : Option Nat)
    (h : ∀ r ∈ rs, ¬(r.rtype = TYPE_STATE_DECL ∧ r.f2 &&& 1 ≠ 0)) :
    rs.foldl iniUpd cur = cur := by
  induction rs generalizing cur with
  | nil => rfl
  | cons r rest ih =>
    rw [List.foldl_cons,
      show iniUpd cur r = cur from by
        unfold iniUpd
        rw [if_neg (h r (by simp))]]
    exact ih cur (fun r' hr' => h r' (by simp [hr']))

theorem foldl_iniUpd_set (rs : List Record) (cur : Option Nat) (v : Nat)
    (hex : ∃ r ∈ rs, r.rtype = TYPE_STATE_DECL ∧ r.f2 &&& 1 ≠ 0)
    (hall : ∀ r ∈ rs, r.rtype = TYPE_STATE_DECL → r.f2 &&& 1 ≠ 0 →
      r.f1 = v) :
    rs.foldl iniUpd cur = some v := by
  induction rs generalizing cur with
  | nil => simp at hex
  | cons r rest ih =>
    by_cases hrest : ∃ r' ∈ rest, r'.rtype = TYPE_STATE_DECL ∧
        r'.f2 &&& 1 ≠ 0
    · rw [List.foldl_cons]
      exact ih _ hrest
        (fun r' hr' => hall r' (List.mem_cons_of_mem r hr'))
    · have hr : r.rtype = TYPE_STATE_DECL ∧ r.f2 &&& 1 ≠ 0 := by
        rcases hex with ⟨r', hr', hset⟩
        rcases List.mem_cons.mp hr' with rfl | hmem
        · exact hset
        · exact absurd ⟨r', hmem, hset⟩ hrest
      rw [List.foldl_cons,
        show iniUpd cur r = some v from by
          unfold iniUpd
          rw [if_pos hr, hall r (by simp) hr.1 hr.2]]
      exact foldl_iniUpd_no_set rest (some v)
        (fun r' hr' hset => hrest ⟨r', hr', hset⟩)

theorem foldl_soUpd_filterMap (rs : List Record) (cur : PyDict Nat Nat) :
    rs.foldl soUpd cur = (rs.filterMap (fun r =>
      if r.rtype = TYPE_STATE_DECL ∧ r.f3 ≠ 0 then some (r.f1, r.f3 - 1)
      else none)).foldl (fun d p => pyInsert d p.1 p.2) cur := by
  induction rs generalizing cur with
  | nil => rfl
  | cons r rest ih =>
    rw [List.foldl_cons, List.filterMap_cons]
    by_cases h : r.rtype = TYPE_STATE_DECL ∧ r.f3 ≠ 0
    · rw [if_pos h, List.foldl_cons,
        show soUpd cur r = pyInsert cur r.f1 (r.f3 - 1) from by
          unfold soUpd
          rw [if_pos h]]
      exact ih _
    · rw [if_neg h,
        show soUpd cur r = cur from by
          unfold soUpd
          rw [if_neg h]]
      exact ih cur

/-- The record stream the encoder produces (declarations, then blocks). -/
def recsOf (fsm : FSM) : List Record :=
  stateDecls fsm (buildIdx fsm.states) (buildIdx fsm.output_alphabet) ++
    (fsm.transitions.map (encBlock fsm)).flatten

/-- A Moore declaration's output field: output id plus one, `0` when the
state has no (encodable) output. -/
def mooreOut (fsm : FSM) (s : String) : Nat :=
  match pyGet? fsm.state_outputs s with
  | some so =>
    match pyGet? (buildIdx fsm.output_alphabet) so with
    | some oi => oi + 1
    | none => 0
  | none => 0

/-- The output field of the declaration emitted for a state. -/
def declOut (fsm : FSM) (s : String) : Nat :=
  if fsm.fsm_type = "moore" then mooreOut fsm s else 0

theorem mooreDecl_eq (fsm : FSM) (s : String) :
    mooreDecl fsm (buildIdx fsm.states) (buildIdx fsm.output_alphabet) s =
      ⟨TYPE_STATE_DECL, idxOf fsm.states s, stateFlags fsm s,
        mooreOut fsm s, 0⟩ := rfl

theorem mem_stateDecls_iff (fsm : FSM) (r : Record) :
    r ∈ stateDecls fsm (buildIdx fsm.states)
        (buildIdx fsm.output_alphabet) ↔
      ∃ s ∈ fsm.states,
        (fsm.fsm_type = "moore" ∨ stateFlags fsm s ≠ 0) ∧
        r = ⟨TYPE_STATE_DECL, idxOf fsm.states s, stateFlags fsm s,
          declOut fsm s, 0⟩ := by
  unfold stateDecls
  by_cases hm : fsm.fsm_type = "moore"
  · rw [if_pos hm]
    simp only [List.mem_map]
    constructor
    · rintro ⟨s, hs, rfl⟩
      refine ⟨s, hs, Or.inl hm, ?_⟩
      rw [mooreDecl_eq]
      unfold declOut
      rw [if_pos hm]
    · rintro ⟨s, hs, _, rfl⟩
      refine ⟨s, hs, ?_⟩
      rw [mooreDecl_eq]
      unfold declOut
      rw [if_pos hm]
  · rw [if_neg hm]
    simp only [List.mem_filterMap]
    constructor
    · rintro ⟨s, hs, hopt⟩
      by_cases hf : stateFlags fsm s ≠ 0
      · rw [if_pos hf] at hopt
        injection hopt with hopt
        refine ⟨s, hs, Or.inr hf, ?_⟩
        rw [← hopt]
        unfold declOut
        rw [if_neg hm]
        rfl
      · rw [if_neg hf] at hopt
        exact absurd hopt (by simp)
    · rintro ⟨s, hs, hor, rfl⟩
      have hf : stateFlags fsm s ≠ 0 := by
        rcases hor with h | h
        · exact absurd h hm
        · exact h
      refine ⟨s, hs, ?_⟩
      rw [if_pos hf]
      unfold declOut
      rw [if_neg hm]
      rfl

theorem mem_recsOf (fsm : FSM) (r : Record) :
    r ∈ recsOf fsm ↔
      r ∈ stateDecls fsm (buildIdx fsm.states)
        (buildIdx fsm.output_alphabet) ∨
      ∃ t ∈ fsm.transitions, r ∈ encBlock fsm t := by
  unfold recsOf
  rw [List.mem_append]
  constructor
  · rintro (h | h)
    · exact Or.inl h
    · obtain ⟨l, hl, hr⟩ := List.mem_flatten.mp h
      obtain ⟨t, ht, rfl⟩ := List.mem_map.mp hl
      exact Or.inr ⟨t, ht, hr⟩
  · rintro (h | ⟨t, ht, hr⟩)
    · exact Or.inl h
    · exact Or.inr (List.mem_flatten.mpr
        ⟨encBlock fsm t, List.mem_map_of_mem _ ht, hr⟩)

theorem nfaChain_ne_nil (src inp : Nat) (vs : List Nat) (h : vs ≠ []) :
    nfaChain src inp vs ≠ [] := by
  cases vs with
  | nil => exact absurd rfl h
  | cons v rest =>
    cases rest with
    | nil => simp [nfaChain]
    | cons v2 rest2 => simp [nfaChain]

theorem encBlock_ne_nil (fsm : FSM) (t : Trans) (hne : tgts t.to' ≠ []) :
    encBlock fsm t ≠ [] := by
  unfold encBlock
  by_cases hm : fsm.fsm_type = "mealy"
  · rw [if_pos hm]
    simp
  · rw [if_neg hm]
    by_cases hlen : (tgts t.to').length = 1
    · rw [if_pos hlen]
      simp
    · rw [if_neg hlen]
      exact nfaChain_ne_nil _ _ _ (by simpa using hne)

theorem encBlock_rec_shape (fsm : FSM) (t : Trans) (r : Record)
    (hne : tgts t.to' ≠ []) (hr : r ∈ encBlock fsm t) :
    r.f1 = idxOf fsm.states t.src ∧ r.f2 = encInp fsm t ∧
    (∃ x ∈ tgts t.to', r.f3 = idxOf fsm.states x) ∧
    (r.rtype = TYPE_MEALY_TRANSITION →
      r.f4 = idxOf fsm.output_alphabet (t.output.getD "")) ∧
    (r.rtype = TYPE_MEALY_TRANSITION ↔ fsm.fsm_type = "mealy") ∧
    r.rtype ≠ TYPE_STATE_DECL := by
  unfold encBlock at hr
  by_cases hm : fsm.fsm_type = "mealy"
  · rw [if_pos hm] at hr
    rw [List.mem_singleton] at hr
    subst hr
    exact ⟨rfl, rfl, ⟨(tgts t.to').getD 0 "", getD_zero_mem _ _ hne, rfl⟩,
      fun _ => rfl, ⟨fun _ => hm, fun _ => rfl⟩,
      by show TYPE_MEALY_TRANSITION ≠ TYPE_STATE_DECL; decide⟩
  · rw [if_neg hm] at hr
    by_cases hlen : (tgts t.to').length = 1
    · rw [if_pos hlen] at hr
      rw [List.mem_singleton] at hr
      subst hr
      exact ⟨rfl, rfl, ⟨(tgts t.to').getD 0 "", getD_zero_mem _ _ hne, rfl⟩,
        fun h => absurd (show TYPE_DFA_TRANSITION = TYPE_MEALY_TRANSITION
          from h) (by decide),
        ⟨fun h => absurd (show TYPE_DFA_TRANSITION = TYPE_MEALY_TRANSITION
          from h) (by decide), fun h => absurd h hm⟩,
        by show TYPE_DFA_TRANSITION ≠ TYPE_STATE_DECL; decide⟩
    · rw [if_neg hlen] at hr
      obtain ⟨h1, h2, h3, h4⟩ := (nfaChain_mem _ _ _).1 r hr
      obtain ⟨x, hx, hxe⟩ := List.mem_map.mp h4
      exact ⟨h2, h3, ⟨x, hx, hxe.symm⟩,
        fun h => by rw [h1] at h; exact absurd h (by decide),
        ⟨fun h => by rw [h1] at h; exact absurd h (by decide),
          fun h => absurd h hm⟩,
        by rw [h1]; decide⟩

theorem encBlock_has_src (fsm : FSM) (t : Trans) (hne : tgts t.to' ≠ []) :
    ∃ r ∈ encBlock fsm t, r.f1 = idxOf fsm.states t.src ∧
      r.f2 = encInp fsm t := by
  obtain ⟨r, hr⟩ := List.exists_mem_of_ne_nil _ (encBlock_ne_nil fsm t hne)
  obtain ⟨h1, h2, _, _, _, _⟩ := encBlock_rec_shape fsm t r hne hr
  exact ⟨r, hr, h1, h2⟩

theorem encBlock_has_tgt (fsm : FSM) (t : Trans) (x : String)
    (hx : x ∈ tgts t.to')
    (hone : fsm.fsm_type = "mealy" → isOneTgt t.to' = true) :
    ∃ r ∈ encBlock fsm t, r.f3 = idxOf fsm.states x := by
  unfold encBlock
  by_cases hm : fsm.fsm_type = "mealy"
  · rw [if_pos hm]
    cases hto : t.to' with
    | one s =>
      rw [hto] at hx
      have hxs : x = s := by simpa [tgts] using hx
      subst hxs
      exact ⟨_, List.mem_singleton_self _, rfl⟩
    | many ss =>
      have := hone hm
      rw [hto] at this
      exact absurd this (by simp [isOneTgt])
  · rw [if_neg hm]
    by_cases hlen : (tgts t.to').length = 1
    · rw [if_pos hlen]
      obtain ⟨y, hy⟩ := List.length_eq_one.mp hlen
      rw [hy] at hx ⊢
      have hxy : x = y := by simpa using hx
      subst hxy
      exact ⟨_, List.mem_singleton_self _, rfl⟩
    · rw [if_neg hlen]
      obtain ⟨r, hr, hf3⟩ := (nfaChain_mem (idxOf fsm.states t.src)
        (encInp fsm t) ((tgts t.to').map (idxOf fsm.states))).2
        (idxOf fsm.states x) (List.mem_map_of_mem _ hx)
      exact ⟨r, hr, hf3⟩

/-- Structural sanity of a model: the capacity checks of `json_to_fsm` pass,
the symbol tables are duplicate-free, every referenced name is declared, no
alphabet symbol uses an epsilon name, state outputs exist only on Moore
machines, and every transition is encodable (non-empty target list; a Mealy
transition has a scalar target and a declared output; a non-Mealy transition
has no output). -/
def ValidModel (fsm : FSM) : Prop :=
  fsm.fsm_type ≠ "" ∧
  json_to_fsm fsm = some fsm ∧
  fsm.states.Nodup ∧
  fsm.alphabet.Nodup ∧
  fsm.output_alphabet.Nodup ∧
  fsm.accepting.Nodup ∧
  (∀ s, fsm.initial = some s → s ∈ fsm.states) ∧
  (∀ s ∈ fsm.accepting, s ∈ fsm.states) ∧
  (∀ a ∈ fsm.alphabet, ¬(a = "epsilon" ∨ a = "ε")) ∧
  (fsm.state_outputs.map Prod.fst).Nodup ∧
  (∀ p ∈ fsm.state_outputs, p.1 ∈ fsm.states ∧ p.2 ∈ fsm.output_alphabet) ∧
  (fsm.fsm_type ≠ "moore" → fsm.state_outputs = []) ∧
  (∀ t ∈ fsm.transitions,
    t.src ∈ fsm.states ∧
    tgts t.to' ≠ [] ∧
    (∀ x ∈ tgts t.to', x ∈ fsm.states) ∧
    (t.input = none ∨ t.input = some "epsilon" ∨ t.input = some "ε" ∨
      ∃ a ∈ fsm.alphabet, t.input = some a) ∧
    (if fsm.fsm_type = "mealy" then
      isOneTgt t.to' = true ∧ ∃ o ∈ fsm.output_alphabet, t.output = some o
    else t.output = none))

/-- Every declared symbol is actually used by the model: a state is flagged
or mentioned by a transition (Moore machines declare all states), an alphabet
symbol is some transition's input, and an output symbol is produced by a
transition (Mealy) or a state (Moore). -/
def FullyReferenced (fsm : FSM) : Prop :=
  (∀ s ∈ fsm.states, fsm.fsm_type = "moore" ∨ stateFlags fsm s ≠ 0 ∨
    ∃ t ∈ fsm.transitions, s = t.src ∨ s ∈ tgts t.to') ∧
  (∀ a ∈ fsm.alphabet, ∃ t ∈ fsm.transitions, t.input = some a) ∧
  (∀ o ∈ fsm.output_alphabet,
    (fsm.fsm_type = "mealy" ∧ ∃ t ∈ fsm.transitions, t.output = some o) ∨
    (fsm.fsm_type = "moore" ∧ ∃ p ∈ fsm.state_outputs, p.2 = o))

theorem capacity_of_json (fsm : FSM) (h : json_to_fsm fsm = some fsm) :
    fsm.states.length ≤ 65535 ∧ fsm.alphabet.length ≤ 65534 ∧
      fsm.output_alphabet.length ≤ 65535 := by
  unfold json_to_fsm at h
  by_cases h1 : fsm.states.length > 65535
  · rw [if_pos h1] at h
    exact absurd h (by simp)
  · rw [if_neg h1] at h
    by_cases h2 : fsm.alphabet.length > 65534
    · rw [if_pos h2] at h
      exact absurd h (by simp)
    · rw [if_neg h2] at h
      by_cases h3 : fsm.output_alphabet.length > 65535
      · rw [if_pos h3] at h
        exact absurd h (by simp)
      · exact ⟨by omega, by omega, by omega⟩

theorem mem_of_pyGet? {α β : Type} [DecidableEq α] (d : PyDict α β) (k : α)
    (v : β) (h : pyGet? d k = some v) : (k, v) ∈ d := by
  induction d with
  | nil => simp [pyGet?] at h
  | cons p rest ih =>
    rw [pyGet?_cons] at h
    by_cases hp : p.1 = k
    · rw [if_pos hp] at h
      injection h with h
      refine List.mem_cons.mpr (Or.inl ?_)
      rw [← hp, ← h]
    · rw [if_neg hp] at h
      exact List.mem_cons_of_mem p (ih h)

theorem pyGet?_none_iff {α β : Type} [DecidableEq α] (d : PyDict α β)
    (k : α) : pyGet? d k = none ↔ ∀ p ∈ d, p.1 ≠ k := by
  unfold pyGet?
  rw [Option.map_eq_none', List.find?_eq_none]
  constructor
  · intro h p hp
    have := h p hp
    simpa using this
  · intro h p hp
    simpa using h p hp

theorem pyGet?_mem_nodupKeys {α β : Type} [DecidableEq α] (d : PyDict α β)
    (p : α × β) (hp : p ∈ d) (hnd : (d.map Prod.fst).Nodup) :
    pyGet? d p.1 = some p.2 := by
  induction d with
  | nil => simp at hp
  | cons q rest ih =>
    rw [pyGet?_cons]
    rcases List.mem_cons.mp hp with rfl | hmem
    · rw [if_pos rfl]
    · have hq : q.1 ≠ p.1 := by
        intro he
        simp only [List.map_cons, List.nodup_cons] at hnd
        exact hnd.1 (by rw [he]; exact List.mem_map_of_mem Prod.fst hmem)
      rw [if_neg hq]
      exact ih hmem (by
        simp only [List.map_cons, List.nodup_cons] at hnd
        exact hnd.2)

theorem encInp_cases (fsm : FSM) (t : Trans)
    (hinp : t.input = none ∨ t.input = some "epsilon" ∨ t.input = some "ε" ∨
      ∃ a ∈ fsm.alphabet, t.input = some a)
    (heps : ∀ a ∈ fsm.alphabet, ¬(a = "epsilon" ∨ a = "ε")) :
    (encInp fsm t = EPSILON_INPUT ∧ normInput t.input = none) ∨
    (∃ a ∈ fsm.alphabet, t.input = some a ∧
      encInp fsm t = idxOf fsm.alphabet a ∧ normInput t.input = some a) := by
  rcases hinp with h | h | h | ⟨a, ha, h⟩
  · exact Or.inl ⟨by simp [encInp, h], by simp [normInput, h]⟩
  · exact Or.inl ⟨by simp [encInp, h], by simp [normInput, h]⟩
  · exact Or.inl ⟨by simp [encInp, h], by simp [normInput, h]⟩
  · refine Or.inr ⟨a, ha, h, ?_, ?_⟩
    · simp [encInp, h, heps a ha]
    · simp [normInput, h, heps a ha]

theorem normTgt_eq (g : Tgt) :
    normTgt g = if (tgts g).length = 1 then Tgt.one ((tgts g).getD 0 "")
      else g := by
  cases g with
  | one s => simp [normTgt, tgts]
  | many ss =>
    cases ss with
    | nil => simp [normTgt, tgts]
    | cons x rest =>
      cases rest with
      | nil => simp [normTgt, tgts]
      | cons y rest2 => simp [normTgt, tgts]

theorem nodup_filterMap_idxOf (xs : List String) (hnd : xs.Nodup)
    (F : String → Option Nat)
    (hF : ∀ s v, F s = some v → v = idxOf xs s) :
    ∀ (ys : List String), (∀ y ∈ ys, y ∈ xs) → ys.Nodup →
      (ys.filterMap F).Nodup := by
  intro ys
  induction ys with
  | nil => simp
  | cons y rest ih =>
    intro hsub hynd
    rw [List.filterMap_cons]
    cases hFy : F y with
    | none => exact ih (fun z hz => hsub z (by simp [hz])) hynd.of_cons
    | some v =>
      rw [List.nodup_cons]
      refine ⟨?_, ih (fun z hz => hsub z (by simp [hz])) hynd.of_cons⟩
      intro hv
      obtain ⟨s, hsr, hFs⟩ := List.mem_filterMap.mp hv
      have h1 := hF y v hFy
      have h2 := hF s v hFs
      have hys : y = s := idxOf_inj xs hnd y s (hsub y (by simp))
        (hsub s (by simp [hsr])) (by rw [← h1, ← h2])
      subst hys
      exact (List.nodup_cons.mp hynd).1 hsr

theorem pyGet?_filterMap_restrict (xs : List String)
    (D : PyDict String String) (hkeys : ∀ p ∈ D, p.1 ∈ xs) (k : String) :
    pyGet? (xs.filterMap (fun s => (pyGet? D s).map (fun v => (s, v)))) k =
      pyGet? D k := by
  cases hk : pyGet? D k with
  | some v =>
    have hmem : k ∈ xs := hkeys (k, v) (mem_of_pyGet? D k v hk)
    clear hkeys
    induction xs with
    | nil => simp at hmem
    | cons x rest ih =>
      rw [List.filterMap_cons]
      cases hx : pyGet? D x with
      | none =>
        have hxk : x ≠ k := by
          intro he
          rw [he, hk] at hx
          exact absurd hx (by simp)
        exact ih (by rcases List.mem_cons.mp hmem with rfl | hm
                     · exact absurd rfl hxk
                     · exact hm)
      | some w =>
        rw [Option.map_some', pyGet?_cons]
        by_cases hxk : x = k
        · rw [if_pos hxk]
          subst hxk
          rw [hx] at hk
          exact hk
        · rw [if_neg hxk]
          exact ih (by rcases List.mem_cons.mp hmem with rfl | hm
                       · exact absurd rfl hxk
                       · exact hm)
  | none =>
    clear hkeys
    induction xs with
    | nil => rfl
    | cons x rest ih =>
      rw [List.filterMap_cons]
      cases hx : pyGet? D x with
      | none => exact ih
      | some w =>
        rw [Option.map_some', pyGet?_cons]
        have hxk : x ≠ k := by
          intro he
          rw [he, hk] at hx
          exact absurd hx (by simp)
        rw [if_neg hxk]
        exact ih

theorem enc_state_ids_iff (fsm : FSM) (hnd : fsm.states.Nodup)
    (hT : ∀ t ∈ fsm.transitions, t.src ∈ fsm.states ∧ tgts t.to' ≠ [] ∧
      (∀ x ∈ tgts t.to', x ∈ fsm.states) ∧
      (fsm.fsm_type = "mealy" → isOneTgt t.to' = true))
    (hrS : ∀ s ∈ fsm.states, fsm.fsm_type = "moore" ∨ stateFlags fsm s ≠ 0 ∨
      ∃ t ∈ fsm.transitions, s = t.src ∨ s ∈ tgts t.to')
    (x : Nat) :
    x ∈ (decodeAll (recsOf fsm)).state_ids ↔ x < fsm.states.length := by
  rw [(decodeAll_scalar_fields (recsOf fsm)).1,
    mem_foldl_of_mem_iff stateIdsUpd _ mem_stateIdsUpd (recsOf fsm) [] x]
  constructor
  · rintro (h | ⟨r, hrin, hp⟩)
    · simp at h
    · rcases (mem_recsOf fsm r).mp hrin with hd | ⟨t, ht, hb⟩
      · obtain ⟨s, hs, -, rfl⟩ := (mem_stateDecls_iff fsm r).mp hd
        rcases hp with ⟨-, rfl⟩ | ⟨htr, -⟩
        · exact idxOf_lt _ hnd s hs
        · rcases htr with h | h | h
          · exact absurd (show TYPE_STATE_DECL = TYPE_DFA_TRANSITION from h)
              (by decide)
          · exact absurd (show TYPE_STATE_DECL = TYPE_MEALY_TRANSITION from h)
              (by decide)
          · exact absurd (show TYPE_STATE_DECL = TYPE_NFA_MULTI from h)
              (by decide)
      · obtain ⟨ht1, ht2, ht3, -⟩ := hT t ht
        obtain ⟨hf1, -, ⟨y, hy, hf3⟩, -, -, -⟩ :=
          encBlock_rec_shape fsm t r ht2 hb
        rcases hp with ⟨-, rfl⟩ | ⟨-, rfl⟩
        · rw [hf1]
          exact idxOf_lt _ hnd t.src ht1
        · rw [hf3]
          exact idxOf_lt _ hnd y (ht3 y hy)
  · intro hx
    right
    have hsmem : fsm.states.get ⟨x, hx⟩ ∈ fsm.states := List.get_mem _ _ _
    have hxid : idxOf fsm.states (fsm.states.get ⟨x, hx⟩) = x :=
      idxOf_get fsm.states hnd x hx
    rcases hrS _ hsmem with hmo | hfl | ⟨t, ht, hst⟩
    · exact ⟨⟨TYPE_STATE_DECL, idxOf fsm.states (fsm.states.get ⟨x, hx⟩),
        stateFlags fsm (fsm.states.get ⟨x, hx⟩),
        declOut fsm (fsm.states.get ⟨x, hx⟩), 0⟩,
        (mem_recsOf fsm _).mpr (Or.inl ((mem_stateDecls_iff fsm _).mpr
          ⟨_, hsmem, Or.inl hmo, rfl⟩)),
        Or.inl ⟨Or.inl rfl, hxid.symm⟩⟩
    · exact ⟨⟨TYPE_STATE_DECL, idxOf fsm.states (fsm.states.get ⟨x, hx⟩),
        stateFlags fsm (fsm.states.get ⟨x, hx⟩),
        declOut fsm (fsm.states.get ⟨x, hx⟩), 0⟩,
        (mem_recsOf fsm _).mpr (Or.inl ((mem_stateDecls_iff fsm _).mpr
          ⟨_, hsmem, Or.inr hfl, rfl⟩)),
        Or.inl ⟨Or.inl rfl, hxid.symm⟩⟩
    · obtain ⟨ht1, ht2, ht3, hone⟩ := hT t ht
      rcases hst with heq | htgt
      · obtain ⟨r, hrb, hrf1, -⟩ := encBlock_has_src fsm t ht2
        refine ⟨r, (mem_recsOf fsm r).mpr (Or.inr ⟨t, ht, hrb⟩),
          Or.inl ⟨Or.inr (encBlock_types fsm t r hrb), ?_⟩⟩
        rw [hrf1, ← heq, hxid]
      · obtain ⟨r, hrb, hrf3⟩ := encBlock_has_tgt fsm t _ htgt hone
        refine ⟨r, (mem_recsOf fsm r).mpr (Or.inr ⟨t, ht, hrb⟩),
          Or.inr ⟨encBlock_types fsm t r hrb, ?_⟩⟩
        rw [hrf3, hxid]

theorem enc_input_ids_iff (fsm : FSM) (hand : fsm.alphabet.Nodup)
    (hcapA : fsm.alphabet.length ≤ 65534)
    (heps : ∀ a ∈ fsm.alphabet, ¬(a = "epsilon" ∨ a = "ε"))
    (hT : ∀ t ∈ fsm.transitions, tgts t.to' ≠ [] ∧
      (t.input = none ∨ t.input = some "epsilon" ∨ t.input = some "ε" ∨
        ∃ a ∈ fsm.alphabet, t.input = some a))
    (hrA : ∀ a ∈ fsm.alphabet, ∃ t ∈ fsm.transitions, t.input = some a)
    (x : Nat) :
    x ∈ (decodeAll (recsOf fsm)).input_ids ↔ x < fsm.alphabet.length := by
  rw [decodeAll_input_ids,
    mem_foldl_of_mem_iff inputIdsUpd _ mem_inputIdsUpd (recsOf fsm) [] x]
  constructor
  · rintro (h | ⟨r, hrin, htys, hne, rfl⟩)
    · simp at h
    · rcases (mem_recsOf fsm r).mp hrin with hd | ⟨t, ht, hb⟩
      · obtain ⟨s, hs, -, rfl⟩ := (mem_stateDecls_iff fsm r).mp hd
        rcases htys with h | h | h
        · exact absurd (show TYPE_STATE_DECL = TYPE_DFA_TRANSITION from h)
            (by decide)
        · exact absurd (show TYPE_STATE_DECL = TYPE_MEALY_TRANSITION from h)
            (by decide)
        · exact absurd (show TYPE_STATE_DECL = TYPE_NFA_MULTI from h)
            (by decide)
      · obtain ⟨ht2, hti⟩ := hT t ht
        obtain ⟨-, hf2, -, -, -, -⟩ := encBlock_rec_shape fsm t r ht2 hb
        rcases encInp_cases fsm t hti heps with ⟨he, -⟩ | ⟨a, ha, -, he, -⟩
        · exact absurd (hf2.trans he) hne
        · rw [hf2, he]
          exact idxOf_lt _ hand a ha
  · intro hx
    right
    have hamem := List.get_mem fsm.alphabet x hx
    obtain ⟨t, ht, hti⟩ := hrA _ hamem
    obtain ⟨ht2, -⟩ := hT t ht
    obtain ⟨r, hrb, -, hrf2⟩ := encBlock_has_src fsm t ht2
    have henc : encInp fsm t =
        idxOf fsm.alphabet (fsm.alphabet.get ⟨x, hx⟩) := by
      simp only [encInp, hti]
      rw [if_neg (heps _ hamem)]
    refine ⟨r, (mem_recsOf fsm r).mpr (Or.inr ⟨t, ht, hrb⟩),
      encBlock_types fsm t r hrb, ?_, ?_⟩
    · rw [hrf2, henc, idxOf_get fsm.alphabet hand x hx]
      show x ≠ 65535
      omega
    · rw [hrf2, henc, idxOf_get fsm.alphabet hand x hx]

theorem enc_output_ids_iff (fsm : FSM)
    (hond : fsm.output_alphabet.Nodup)
    (hSOnd : (fsm.state_outputs.map Prod.fst).Nodup)
    (hSO : ∀ p ∈ fsm.state_outputs, p.1 ∈ fsm.states ∧
      p.2 ∈ fsm.output_alphabet)
    (hT : ∀ t ∈ fsm.transitions, tgts t.to' ≠ [] ∧
      (fsm.fsm_type = "mealy" → ∃ o ∈ fsm.output_alphabet,
        t.output = some o))
    (hrO : ∀ o ∈ fsm.output_alphabet,
      (fsm.fsm_type = "mealy" ∧ ∃ t ∈ fsm.transitions, t.output = some o) ∨
      (fsm.fsm_type = "moore" ∧ ∃ p ∈ fsm.state_outputs, p.2 = o))
    (x : Nat) :
    x ∈ (decodeAll (recsOf fsm)).output_ids ↔
      x < fsm.output_alphabet.length := by
  rw [(decodeAll_scalar_fields (recsOf fsm)).2.2.2.2,
    mem_foldl_of_mem_iff outIdsUpd _ mem_outIdsUpd (recsOf fsm) [] x]
  constructor
  · rintro (h | ⟨r, hrin, hp⟩)
    · simp at h
    · rcases (mem_recsOf fsm r).mp hrin with hd | ⟨t, ht, hb⟩
      · obtain ⟨s, hs, -, rfl⟩ := (mem_stateDecls_iff fsm r).mp hd
        rcases hp with ⟨-, hne, rfl⟩ | ⟨hme, -⟩
        · by_cases hmo : fsm.fsm_type = "moore"
          · unfold declOut at hne ⊢
            rw [if_pos hmo] at hne ⊢
            unfold mooreOut at hne ⊢
            cases hso : pyGet? fsm.state_outputs s with
            | none => simp [hso] at hne
            | some so =>
              cases hoi : pyGet? (buildIdx fsm.output_alphabet) so with
              | none => simp [hso, hoi] at hne
              | some oi =>
                simp only [hso, hoi]
                obtain ⟨hk, -⟩ :=
                  pyGet?_buildIdx_some fsm.output_alphabet so oi hoi hond
                simpa using hk
          · unfold declOut at hne
            rw [if_neg hmo] at hne
            exact absurd rfl hne
        · exact absurd (show TYPE_STATE_DECL = TYPE_MEALY_TRANSITION from hme)
            (by decide)
      · obtain ⟨ht2, hmout⟩ := hT t ht
        obtain ⟨-, -, -, hf4, hiff, hnd2⟩ := encBlock_rec_shape fsm t r ht2 hb
        rcases hp with ⟨hdecl, -, -⟩ | ⟨hme, rfl⟩
        · exact absurd hdecl hnd2
        · have hm : fsm.fsm_type = "mealy" := hiff.mp hme
          obtain ⟨o, ho, hto⟩ := hmout hm
          rw [hf4 hme, hto]
          exact idxOf_lt _ hond o ho
  · intro hx
    right
    have homem := List.get_mem fsm.output_alphabet x hx
    rcases hrO _ homem with ⟨hm, t, ht, hto⟩ | ⟨hmo, p, hp, hpo⟩
    · obtain ⟨ht2, -⟩ := hT t ht
      obtain ⟨r, hrb⟩ :=
        List.exists_mem_of_ne_nil _ (encBlock_ne_nil fsm t ht2)
      obtain ⟨-, -, -, hf4, hiff, -⟩ := encBlock_rec_shape fsm t r ht2 hrb
      have hme : r.rtype = TYPE_MEALY_TRANSITION := hiff.mpr hm
      refine ⟨r, (mem_recsOf fsm r).mpr (Or.inr ⟨t, ht, hrb⟩),
        Or.inr ⟨hme, ?_⟩⟩
      rw [hf4 hme, hto]
      show x = idxOf fsm.output_alphabet (fsm.output_alphabet.get ⟨x, hx⟩)
      rw [idxOf_get fsm.output_alphabet hond x hx]
    · have hsmem := (hSO p hp).1
      have hpomem := (hSO p hp).2
      have hso : pyGet? fsm.state_outputs p.1 = some p.2 :=
        pyGet?_mem_nodupKeys _ p hp hSOnd
      have hoi : pyGet? (buildIdx fsm.output_alphabet) p.2 =
          some (idxOf fsm.output_alphabet p.2) :=
        pyGet?_buildIdx_of_mem _ hond _ hpomem
      refine ⟨⟨TYPE_STATE_DECL, idxOf fsm.states p.1, stateFlags fsm p.1,
        declOut fsm p.1, 0⟩,
        (mem_recsOf fsm _).mpr (Or.inl ((mem_stateDecls_iff fsm _).mpr
          ⟨p.1, hsmem, Or.inl hmo, rfl⟩)),
        Or.inl ⟨rfl, ?_, ?_⟩⟩
      · show declOut fsm p.1 ≠ 0
        unfold declOut
        rw [if_pos hmo]
        unfold mooreOut
        simp [hso, hoi]
      · show x = declOut fsm p.1 - 1
        unfold declOut
        rw [if_pos hmo]
        unfold mooreOut
        simp only [hso, hoi]
        rw [hpo, idxOf_get fsm.output_alphabet hond x hx]
        omega

theorem enc_initial (fsm : FSM) (hnd : fsm.states.Nodup)
    (hini : ∀ s, fsm.initial = some s → s ∈ fsm.states) :
    (decodeAll (recsOf fsm)).initial_state =
      fsm.initial.map (idxOf fsm.states) := by
  rw [(decodeAll_scalar_fields (recsOf fsm)).2.1]
  cases hi : fsm.initial with
  | none =>
    rw [Option.map_none']
    apply foldl_iniUpd_no_set
    intro r hr h
    obtain ⟨hd, hbit⟩ := h
    rcases (mem_recsOf fsm r).mp hr with hdm | ⟨t, ht, hb⟩
    · obtain ⟨s, hs, -, rfl⟩ := (mem_stateDecls_iff fsm r).mp hdm
      have hthis := (stateFlags_and_one fsm s).mp hbit
      rw [hi] at hthis
      exact absurd hthis (by simp)
    · rcases encBlock_types fsm t r hb with h | h | h <;> rw [hd] at h <;>
        exact absurd h (by decide)
  | some s0 =>
    rw [Option.map_some']
    apply foldl_iniUpd_set
    · have hs0 : s0 ∈ fsm.states := hini s0 hi
      exact ⟨⟨TYPE_STATE_DECL, idxOf fsm.states s0, stateFlags fsm s0,
        declOut fsm s0, 0⟩,
        (mem_recsOf fsm _).mpr (Or.inl ((mem_stateDecls_iff fsm _).mpr
          ⟨s0, hs0, Or.inr ((stateFlags_ne_zero_iff fsm s0).mpr (Or.inl hi)),
            rfl⟩)),
        rfl, (stateFlags_and_one fsm s0).mpr hi⟩
    · intro r hr hd hbit
      rcases (mem_recsOf fsm r).mp hr with hdm | ⟨t, ht, hb⟩
      · obtain ⟨s, hs, -, rfl⟩ := (mem_stateDecls_iff fsm r).mp hdm
        have hsi := (stateFlags_and_one fsm s).mp hbit
        rw [hi] at hsi
        injection hsi with hsi
        show idxOf fsm.states s = idxOf fsm.states s0
        rw [hsi]
      · rcases encBlock_types fsm t r hb with h | h | h <;> rw [hd] at h <;>
          exact absurd h (by decide)

theorem enc_accepting_iff (fsm : FSM) (x : Nat) :
    x ∈ (decodeAll (recsOf fsm)).accepting_states ↔
      ∃ s ∈ fsm.states, s ∈ fsm.accepting ∧ x = idxOf fsm.states s := by
  rw [(decodeAll_scalar_fields (recsOf fsm)).2.2.1,
    mem_foldl_of_mem_iff accUpd _ mem_accUpd (recsOf fsm) [] x]
  constructor
  · rintro (h | ⟨r, hr, hd, hbit, rfl⟩)
    · simp at h
    · rcases (mem_recsOf fsm r).mp hr with hdm | ⟨t, ht, hb⟩
      · obtain ⟨s, hs, -, rfl⟩ := (mem_stateDecls_iff fsm r).mp hdm
        exact ⟨s, hs, (stateFlags_and_two fsm s).mp hbit, rfl⟩
      · rcases encBlock_types fsm t r hb with h | h | h <;> rw [hd] at h <;>
          exact absurd h (by decide)
  · rintro ⟨s, hs, hacc, rfl⟩
    exact Or.inr ⟨⟨TYPE_STATE_DECL, idxOf fsm.states s, stateFlags fsm s,
      declOut fsm s, 0⟩,
      (mem_recsOf fsm _).mpr (Or.inl ((mem_stateDecls_iff fsm _).mpr
        ⟨s, hs, Or.inr ((stateFlags_ne_zero_iff fsm s).mpr (Or.inr hacc)),
          rfl⟩)),
      rfl, (stateFlags_and_two fsm s).mpr hacc, rfl⟩

theorem enc_nodups (fsm : FSM) :
    (decodeAll (recsOf fsm)).state_ids.Nodup ∧
    (decodeAll (recsOf fsm)).input_ids.Nodup ∧
    (decodeAll (recsOf fsm)).output_ids.Nodup ∧
    (decodeAll (recsOf fsm)).accepting_states.Nodup := by
  refine ⟨?_, ?_, ?_, ?_⟩
  · rw [(decodeAll_scalar_fields (recsOf fsm)).1]
    exact nodup_foldl_of_preserve stateIdsUpd nodup_stateIdsUpd _ [] (by simp)
  · rw [decodeAll_input_ids]
    exact nodup_foldl_of_preserve inputIdsUpd nodup_inputIdsUpd _ [] (by simp)
  · rw [(decodeAll_scalar_fields (recsOf fsm)).2.2.2.2]
    exact nodup_foldl_of_preserve outIdsUpd nodup_outIdsUpd _ [] (by simp)
  · rw [(decodeAll_scalar_fields (recsOf fsm)).2.2.1]
    exact nodup_foldl_of_preserve accUpd nodup_accUpd _ [] (by simp)

theorem filterMap_congr_mem {α β : Type} (l : List α) (f g : α → Option β)
    (h : ∀ a ∈ l, f a = g a) : l.filterMap f = l.filterMap g := by
  induction l with
  | nil => rfl
  | cons x rest ih =>
    rw [List.filterMap_cons, List.filterMap_cons, h x (by simp),
      ih (fun a ha => h a (by simp [ha]))]

/-- The id-level Moore output table the decoder reconstructs. -/
def soPairs (fsm : FSM) : List (Nat × Nat) :=
  fsm.states.filterMap (fun s =>
    match pyGet? fsm.state_outputs s with
    | some so =>
      match pyGet? (buildIdx fsm.output_alphabet) so with
      | some oi => some (idxOf fsm.states s, oi)
      | none => none
    | none => none)

theorem enc_state_outputs_eq (fsm : FSM) (hnd : fsm.states.Nodup)
    (hcase : fsm.fsm_type = "moore" ∨ fsm.state_outputs = []) :
    (decodeAll (recsOf fsm)).state_outputs = soPairs fsm := by
  rw [(decodeAll_scalar_fields (recsOf fsm)).2.2.2.1, foldl_soUpd_filterMap]
  have hsplit : (recsOf fsm).filterMap (fun r =>
      if r.rtype = TYPE_STATE_DECL ∧ r.f3 ≠ 0 then some (r.f1, r.f3 - 1)
      else none) =
      (stateDecls fsm (buildIdx fsm.states)
        (buildIdx fsm.output_alphabet)).filterMap (fun r =>
        if r.rtype = TYPE_STATE_DECL ∧ r.f3 ≠ 0 then some (r.f1, r.f3 - 1)
        else none) := by
    unfold recsOf
    rw [List.filterMap_append]
    have hblocks : ((fsm.transitions.map (encBlock fsm)).flatten).filterMap
        (fun r => if r.rtype = TYPE_STATE_DECL ∧ r.f3 ≠ 0 then
          some (r.f1, r.f3 - 1) else none) = [] := by
      rw [List.filterMap_eq_nil_iff]
      intro r hr
      obtain ⟨l, hl, hrl⟩ := List.mem_flatten.mp hr
      obtain ⟨t, ht, rfl⟩ := List.mem_map.mp hl
      rw [if_neg]
      rintro ⟨hd, -⟩
      rcases encBlock_types fsm t r hrl with h | h | h <;> rw [hd] at h <;>
        exact absurd h (by decide)
    rw [hblocks, List.append_nil]
  rw [hsplit]
  have hdecls : (stateDecls fsm (buildIdx fsm.states)
      (buildIdx fsm.output_alphabet)).filterMap (fun r =>
      if r.rtype = TYPE_STATE_DECL ∧ r.f3 ≠ 0 then some (r.f1, r.f3 - 1)
      else none) = soPairs fsm := by
    rcases hcase with hmo | hso
    · unfold stateDecls
      rw [if_pos hmo, List.filterMap_map]
      apply filterMap_congr_mem
      intro s hs
      show (if TYPE_STATE_DECL = TYPE_STATE_DECL ∧ mooreOut fsm s ≠ 0 then
        some (idxOf fsm.states s, mooreOut fsm s - 1) else none) = _
      unfold mooreOut
      cases hso : pyGet? fsm.state_outputs s with
      | none => simp [hso]
      | some so =>
        cases hoi : pyGet? (buildIdx fsm.output_alphabet) so with
        | none => simp [hso, hoi]
        | some oi => simp [hso, hoi]
    · unfold stateDecls
      by_cases hmo : fsm.fsm_type = "moore"
      · rw [if_pos hmo, List.filterMap_map]
        have hall : ∀ s ∈ fsm.states,
            ((fun r => if r.rtype = TYPE_STATE_DECL ∧ r.f3 ≠ 0 then
              some (r.f1, r.f3 - 1) else none) ∘
              mooreDecl fsm (buildIdx fsm.states)
                (buildIdx fsm.output_alphabet)) s = (none : Option (Nat × Nat)) := by
          intro s hs
          show (if TYPE_STATE_DECL = TYPE_STATE_DECL ∧ mooreOut fsm s ≠ 0 then
            some (idxOf fsm.states s, mooreOut fsm s - 1) else none) = none
          unfold mooreOut
          rw [hso]
          simp [pyGet?]
        have h1 : List.filterMap ((fun r =>
            if r.rtype = TYPE_STATE_DECL ∧ r.f3 ≠ 0 then
              some (r.f1, r.f3 - 1) else none) ∘
            mooreDecl fsm (buildIdx fsm.states)
              (buildIdx fsm.output_alphabet)) fsm.states = [] :=
          List.filterMap_eq_nil_iff.mpr hall
        have h2 : soPairs fsm = [] := by
          unfold soPairs
          apply List.filterMap_eq_nil_iff.mpr
          intro s hs
          rw [hso]
          rfl
        rw [h1, h2]
      · rw [if_neg hmo]
        rw [List.filterMap_filterMap]
        unfold soPairs
        apply filterMap_congr_mem
        intro s hs
        by_cases hf : stateFlags fsm s ≠ 0
        · rw [if_pos hf]
          show (if TYPE_STATE_DECL = TYPE_STATE_DECL ∧ (0 : Nat) ≠ 0 then
            some ((pyGet? (buildIdx fsm.states) s).getD 0, 0 - 1)
            else none) = _
          rw [if_neg (by simp), hso]
          simp [pyGet?]
        · rw [if_neg hf, hso]
          rfl
  rw [hdecls]
  have hkeys : ((soPairs fsm).map Prod.fst).Nodup := by
    unfold soPairs
    rw [List.map_filterMap]
    apply nodup_filterMap_idxOf fsm.states hnd _ ?_ fsm.states (fun y hy => hy)
      hnd
    intro s v hv
    cases hso : pyGet? fsm.state_outputs s with
    | none =>
      rw [hso] at hv
      simp at hv
    | some so =>
      rw [hso] at hv
      dsimp only at hv
      cases hoi : pyGet? (buildIdx fsm.output_alphabet) so with
      | none =>
        rw [hoi] at hv
        simp at hv
      | some oi =>
        rw [hoi] at hv
        dsimp only at hv
        simp only [Option.map_some'] at hv
        injection hv with hv
        exact hv.symm
  have := foldl_pyInsert_gen (Prod.fst : Nat × Nat → Nat) Prod.snd
    (soPairs fsm) [] hkeys (by simp)
  rw [this]
  simp

theorem enc_transitions_eq (fsm : FSM)
    (hTne : ∀ t ∈ fsm.transitions, tgts t.to' ≠ []) :
    (decodeAll (recsOf fsm)).transitions =
      fsm.transitions.map (encTid fsm) := by
  unfold decodeAll recsOf
  have hrhs : List.foldl tpUpd
      (([] : List TransId), (none : Option (Nat × Nat × List Nat)))
      (stateDecls fsm (buildIdx fsm.states) (buildIdx fsm.output_alphabet) ++
        (fsm.transitions.map (encBlock fsm)).flatten) =
      (fsm.transitions.map (encTid fsm), none) := by
    rw [List.foldl_append, foldl_tpUpd_decls _ _ (stateDecls_types fsm _ _),
      tp_blocks fsm fsm.transitions [] hTne]
    simp
  have hpair := foldl_tp (stateDecls fsm (buildIdx fsm.states)
    (buildIdx fsm.output_alphabet) ++
    (fsm.transitions.map (encBlock fsm)).flatten) {}
  rw [show ((({} : DecState)).transitions, (({} : DecState)).nfa_pending) =
      (([] : List TransId), (none : Option (Nat × Nat × List Nat))) from rfl,
    hrhs] at hpair
  have h2 : (List.foldl decodeStep {} (stateDecls fsm (buildIdx fsm.states)
      (buildIdx fsm.output_alphabet) ++
      (fsm.transitions.map (encBlock fsm)).flatten)).nfa_pending = none := by
    have := congrArg Prod.snd hpair
    simpa using this
  rw [eosFlush_of_none _ h2]
  have h1 := congrArg Prod.fst hpair
  simpa using h1

/-- Claim C1 (amended): for a valid, fully referenced model, decoding the
records produced by encoding (with the label tables built from the encoder's
reverse maps) reproduces the machine type, the states, alphabet and
output-alphabet lists exactly, the initial state, the accepting set up to
permutation, the Moore output table up to lookup, and the transitions up to
the codec's normalizations (epsilon-named inputs become absent inputs and a
singleton multi-target collapses to a scalar target). -/
theorem fsm_roundtrip (fsm : FSM) (hv : ValidModel fsm)
    (hr : FullyReferenced fsm) :
    ∃ recs sn inm onm,
      fsm_to_hex_recs fsm = some (recs, sn, inm, onm) ∧
      (hex_to_fsm recs (some (labelsFrom fsm sn inm onm))).fsm_type =
        fsm.fsm_type ∧
      (hex_to_fsm recs (some (labelsFrom fsm sn inm onm))).states =
        fsm.states ∧
      (hex_to_fsm recs (some (labelsFrom fsm sn inm onm))).alphabet =
        fsm.alphabet ∧
      (hex_to_fsm recs (some (labelsFrom fsm sn inm onm))).output_alphabet =
        fsm.output_alphabet ∧
      (hex_to_fsm recs (some (labelsFrom fsm sn inm onm))).initial =
        fsm.initial ∧
      (hex_to_fsm recs (some (labelsFrom fsm sn inm onm))).accepting.Perm
        fsm.accepting ∧
      (∀ s, pyGet?
        (hex_to_fsm recs (some (labelsFrom fsm sn inm onm))).state_outputs
          s = pyGet? fsm.state_outputs s) ∧
      (hex_to_fsm recs (some (labelsFrom fsm sn inm onm))).transitions =
        fsm.transitions.map normTrans := by
  obtain ⟨hty, hjson, hnd, hand, hond, haccnd, hini, haccS, heps, hSOnd,
    hSO, hSOmo, hT⟩ := hv
  obtain ⟨hrS, hrA, hrO⟩ := hr
  obtain ⟨-, hcapA, -⟩ := capacity_of_json fsm hjson
  have hT1 : ∀ t ∈ fsm.transitions, t.src ∈ fsm.states ∧ tgts t.to' ≠ [] ∧
      (∀ x ∈ tgts t.to', x ∈ fsm.states) ∧
      (fsm.fsm_type = "mealy" → isOneTgt t.to' = true) := by
    intro t ht
    obtain ⟨h1, h2, h3, -, h5⟩ := hT t ht
    refine ⟨h1, h2, h3, fun hm => ?_⟩
    rw [if_pos hm] at h5
    exact h5.1
  have hT2 : ∀ t ∈ fsm.transitions, tgts t.to' ≠ [] ∧
      (t.input = none ∨ t.input = some "epsilon" ∨ t.input = some "ε" ∨
        ∃ a ∈ fsm.alphabet, t.input = some a) :=
    fun t ht => ⟨(hT t ht).2.1, (hT t ht).2.2.2.1⟩
  have hT3 : ∀ t ∈ fsm.transitions, tgts t.to' ≠ [] ∧
      (fsm.fsm_type = "mealy" → ∃ o ∈ fsm.output_alphabet,
        t.output = some o) := by
    intro t ht
    refine ⟨(hT t ht).2.1, fun hm => ?_⟩
    have h5 := (hT t ht).2.2.2.2
    rw [if_pos hm] at h5
    exact h5.2
  have hTne : ∀ t ∈ fsm.transitions, tgts t.to' ≠ [] :=
    fun t ht => (hT t ht).2.1
  have hTenc : ∀ t ∈ fsm.transitions,
      t.src ∈ fsm.states ∧ tgts t.to' ≠ [] ∧
      (∀ x ∈ tgts t.to', x ∈ fsm.states) ∧
      (∀ s, t.input = some s → ¬(s = "epsilon" ∨ s = "ε") →
        s ∈ fsm.alphabet) := by
    intro t ht
    obtain ⟨h1, h2, h3, h4, -⟩ := hT t ht
    refine ⟨h1, h2, h3, fun s hsome hne => ?_⟩
    rcases h4 with h | h | h | ⟨a, ha, h⟩
    · rw [h] at hsome
      exact absurd hsome (by simp)
    · rw [h] at hsome
      injection hsome with hsome
      exact absurd (Or.inl hsome.symm) hne
    · rw [h] at hsome
      injection hsome with hsome
      exact absurd (Or.inr hsome.symm) hne
    · rw [h] at hsome
      injection hsome with hsome
      rw [← hsome]
      exact ha
  have hencEq' : fsm_to_hex_recs fsm = some (recsOf fsm, fsm.states.enum,
      fsm.alphabet.enum, fsm.output_alphabet.enum) :=
    fsm_to_hex_recs_eq fsm hnd hand hond hTenc
  have hSids := fun x => enc_state_ids_iff fsm hnd hT1 hrS x
  have hIids := fun x => enc_input_ids_iff fsm hand hcapA heps hT2 hrA x
  have hOids := fun x => enc_output_ids_iff fsm hond hSOnd hSO hT3 hrO x
  obtain ⟨hndS, hndI, hndO, hndA⟩ := enc_nodups fsm
  have hsortS : sortedNat (decodeAll (recsOf fsm)).state_ids =
      List.range fsm.states.length := sortedNat_eq_range _ _ hndS hSids
  have hsortI : sortedNat (decodeAll (recsOf fsm)).input_ids =
      List.range fsm.alphabet.length := sortedNat_eq_range _ _ hndI hIids
  have hsortO : sortedNat (decodeAll (recsOf fsm)).output_ids =
      List.range fsm.output_alphabet.length :=
    sortedNat_eq_range _ _ hndO hOids
  have hstateName : ∀ i (hi : i < fsm.states.length),
      stateName (labelsFrom fsm fsm.states.enum fsm.alphabet.enum
        fsm.output_alphabet.enum) i = fsm.states.get ⟨i, hi⟩ := by
    intro i hi
    show (pyGet? fsm.states.enum i).getD ("S" ++ toString i) = _
    rw [pyGet?_enum_get fsm.states i hi]
    rfl
  have hinputName : ∀ i (hi : i < fsm.alphabet.length),
      inputName (labelsFrom fsm fsm.states.enum fsm.alphabet.enum
        fsm.output_alphabet.enum) i = fsm.alphabet.get ⟨i, hi⟩ := by
    intro i hi
    show (pyGet? fsm.alphabet.enum i).getD ("i" ++ toString i) = _
    rw [pyGet?_enum_get fsm.alphabet i hi]
    rfl
  have houtputName : ∀ i (hi : i < fsm.output_alphabet.length),
      outputName (labelsFrom fsm fsm.states.enum fsm.alphabet.enum
        fsm.output_alphabet.enum) i = fsm.output_alphabet.get ⟨i, hi⟩ := by
    intro i hi
    show (pyGet? fsm.output_alphabet.enum i).getD ("o" ++ toString i) = _
    rw [pyGet?_enum_get fsm.output_alphabet i hi]
    rfl
  have hname : ∀ s ∈ fsm.states,
      (pyGet? (nameMapOf (decodeAll (recsOf fsm)).state_ids
        (stateName (labelsFrom fsm fsm.states.enum fsm.alphabet.enum
          fsm.output_alphabet.enum))) (idxOf fsm.states s)).getD "" = s := by
    intro s hs
    rw [pyGet?_nameMapOf, if_pos ((hSids _).mpr (idxOf_lt _ hnd s hs))]
    show stateName (labelsFrom fsm fsm.states.enum fsm.alphabet.enum
      fsm.output_alphabet.enum) (idxOf fsm.states s) = s
    rw [hstateName _ (idxOf_lt _ hnd s hs), get_idxOf fsm.states hnd s hs]
  have hnameIval : ∀ a ∈ fsm.alphabet,
      pyGet? (nameMapOf (decodeAll (recsOf fsm)).input_ids
        (inputName (labelsFrom fsm fsm.states.enum fsm.alphabet.enum
          fsm.output_alphabet.enum))) (idxOf fsm.alphabet a) = some a := by
    intro a ha
    rw [pyGet?_nameMapOf, if_pos ((hIids _).mpr (idxOf_lt _ hand a ha)),
      hinputName _ (idxOf_lt _ hand a ha), get_idxOf fsm.alphabet hand a ha]
  have hnameO : ∀ o ∈ fsm.output_alphabet,
      (pyGet? (nameMapOf (decodeAll (recsOf fsm)).output_ids
        (outputName (labelsFrom fsm fsm.states.enum fsm.alphabet.enum
          fsm.output_alphabet.enum))) (idxOf fsm.output_alphabet o)).getD ""
        = o := by
    intro o ho
    rw [pyGet?_nameMapOf, if_pos ((hOids _).mpr (idxOf_lt _ hond o ho))]
    show outputName (labelsFrom fsm fsm.states.enum fsm.alphabet.enum
      fsm.output_alphabet.enum) (idxOf fsm.output_alphabet o) = o
    rw [houtputName _ (idxOf_lt _ hond o ho),
      get_idxOf fsm.output_alphabet hond o ho]
  have htype : decodedType (labelsFrom fsm fsm.states.enum fsm.alphabet.enum
      fsm.output_alphabet.enum) (decodeAll (recsOf fsm)) = fsm.fsm_type := by
    show (if fsm.fsm_type ≠ "" then fsm.fsm_type
      else inferType (decodeAll (recsOf fsm))) = fsm.fsm_type
    rw [if_pos hty]
  have hneEps : ∀ a ∈ fsm.alphabet,
      idxOf fsm.alphabet a ≠ EPSILON_INPUT := by
    intro a ha
    have := idxOf_lt _ hand a ha
    show idxOf fsm.alphabet a ≠ 65535
    omega
  refine ⟨recsOf fsm, fsm.states.enum, fsm.alphabet.enum,
    fsm.output_alphabet.enum, hencEq', htype, ?_, ?_, ?_, ?_, ?_, ?_, ?_⟩
  · show (sortedNat (decodeAll (recsOf fsm)).state_ids).map
      (stateName (labelsFrom fsm fsm.states.enum fsm.alphabet.enum
        fsm.output_alphabet.enum)) = fsm.states
    rw [hsortS]
    exact map_range_get fsm.states _ hstateName
  · show (sortedNat (decodeAll (recsOf fsm)).input_ids).map
      (inputName (labelsFrom fsm fsm.states.enum fsm.alphabet.enum
        fsm.output_alphabet.enum)) = fsm.alphabet
    rw [hsortI]
    exact map_range_get fsm.alphabet _ hinputName
  · show (sortedNat (decodeAll (recsOf fsm)).output_ids).map
      (outputName (labelsFrom fsm fsm.states.enum fsm.alphabet.enum
        fsm.output_alphabet.enum)) = fsm.output_alphabet
    rw [hsortO]
    exact map_range_get fsm.output_alphabet _ houtputName
  · show (decodeAll (recsOf fsm)).initial_state.bind
      (fun i => pyGet? (nameMapOf (decodeAll (recsOf fsm)).state_ids
        (stateName (labelsFrom fsm fsm.states.enum fsm.alphabet.enum
          fsm.output_alphabet.enum))) i) = fsm.initial
    rw [enc_initial fsm hnd hini]
    cases hi : fsm.initial with
    | none => rfl
    | some s0 =>
      have hs0 := hini s0 hi
      show pyGet? (nameMapOf (decodeAll (recsOf fsm)).state_ids
        (stateName (labelsFrom fsm fsm.states.enum fsm.alphabet.enum
          fsm.output_alphabet.enum))) (idxOf fsm.states s0) = some s0
      rw [pyGet?_nameMapOf, if_pos ((hSids _).mpr (idxOf_lt _ hnd s0 hs0)),
        hstateName _ (idxOf_lt _ hnd s0 hs0), get_idxOf fsm.states hnd s0 hs0]
  · show ((decodeAll (recsOf fsm)).accepting_states.map
      (fun i => (pyGet? (nameMapOf (decodeAll (recsOf fsm)).state_ids
        (stateName (labelsFrom fsm fsm.states.enum fsm.alphabet.enum
          fsm.output_alphabet.enum))) i).getD "")).Perm fsm.accepting
    have hmemA : ∀ y, y ∈ (decodeAll (recsOf fsm)).accepting_states.map
        (fun i => (pyGet? (nameMapOf (decodeAll (recsOf fsm)).state_ids
          (stateName (labelsFrom fsm fsm.states.enum fsm.alphabet.enum
            fsm.output_alphabet.enum))) i).getD "") ↔ y ∈ fsm.accepting := by
      intro y
      rw [List.mem_map]
      constructor
      · rintro ⟨i, hiA, rfl⟩
        obtain ⟨s, hsS, hsacc, rfl⟩ := (enc_accepting_iff fsm i).mp hiA
        rw [hname s hsS]
        exact hsacc
      · intro hy
        exact ⟨idxOf fsm.states y,
          (enc_accepting_iff fsm _).mpr ⟨y, haccS y hy, hy, rfl⟩,
          hname y (haccS y hy)⟩
    have hnodA2 : ((decodeAll (recsOf fsm)).accepting_states.map
        (fun i => (pyGet? (nameMapOf (decodeAll (recsOf fsm)).state_ids
          (stateName (labelsFrom fsm fsm.states.enum fsm.alphabet.enum
            fsm.output_alphabet.enum))) i).getD "")).Nodup := by
      apply List.Nodup.map_on ?_ hndA
      intro i hiA j hjA hij
      obtain ⟨s, hsS, -, rfl⟩ := (enc_accepting_iff fsm i).mp hiA
      obtain ⟨s', hsS', -, rfl⟩ := (enc_accepting_iff fsm j).mp hjA
      rw [hname s hsS, hname s' hsS'] at hij
      rw [hij]
    refine List.perm_of_nodup_nodup_toFinset_eq hnodA2 haccnd ?_
    ext a
    simp only [List.mem_toFinset]
    exact hmemA a
  · intro s'
    by_cases hmo : fsm.fsm_type = "moore"
    · have hfield : (hex_to_fsm (recsOf fsm) (some (labelsFrom fsm
          fsm.states.enum fsm.alphabet.enum
          fsm.output_alphabet.enum))).state_outputs =
          fsm.states.filterMap (fun s =>
            (pyGet? fsm.state_outputs s).map (fun v => (s, v))) := by
        show (if decodedType (labelsFrom fsm fsm.states.enum fsm.alphabet.enum
            fsm.output_alphabet.enum) (decodeAll (recsOf fsm)) = "moore" then
            (decodeAll (recsOf fsm)).state_outputs.map (fun p =>
              ((pyGet? (nameMapOf (decodeAll (recsOf fsm)).state_ids
                (stateName (labelsFrom fsm fsm.states.enum fsm.alphabet.enum
                  fsm.output_alphabet.enum))) p.1).getD "",
               (pyGet? (nameMapOf (decodeAll (recsOf fsm)).output_ids
                (outputName (labelsFrom fsm fsm.states.enum fsm.alphabet.enum
                  fsm.output_alphabet.enum))) p.2).getD ""))
          else []) = _
        rw [if_pos (htype.trans hmo), enc_state_outputs_eq fsm hnd
          (Or.inl hmo)]
        unfold soPairs
        rw [List.map_filterMap]
        apply filterMap_congr_mem
        intro s hs
        cases hso : pyGet? fsm.state_outputs s with
        | none => rfl
        | some so =>
          have hsoin : (s, so) ∈ fsm.state_outputs := mem_of_pyGet? _ _ _ hso
          have hsoO : so ∈ fsm.output_alphabet := (hSO _ hsoin).2
          dsimp only
          rw [pyGet?_buildIdx_of_mem fsm.output_alphabet hond so hsoO]
          dsimp only
          simp only [Option.map_some']
          rw [hname s hs, hnameO so hsoO]
      rw [hfield, pyGet?_filterMap_restrict fsm.states fsm.state_outputs
        (fun p hp => (hSO p hp).1) s']
    · have hfield : (hex_to_fsm (recsOf fsm) (some (labelsFrom fsm
          fsm.states.enum fsm.alphabet.enum
          fsm.output_alphabet.enum))).state_outputs = [] := by
        show (if decodedType (labelsFrom fsm fsm.states.enum fsm.alphabet.enum
            fsm.output_alphabet.enum) (decodeAll (recsOf fsm)) = "moore" then
            (decodeAll (recsOf fsm)).state_outputs.map (fun p =>
              ((pyGet? (nameMapOf (decodeAll (recsOf fsm)).state_ids
                (stateName (labelsFrom fsm fsm.states.enum fsm.alphabet.enum
                  fsm.output_alphabet.enum))) p.1).getD "",
               (pyGet? (nameMapOf (decodeAll (recsOf fsm)).output_ids
                (outputName (labelsFrom fsm fsm.states.enum fsm.alphabet.enum
                  fsm.output_alphabet.enum))) p.2).getD ""))
          else []) = []
        rw [if_neg (by rw [htype]; exact hmo)]
      rw [hfield, hSOmo hmo]
  · show ((decodeAll (recsOf fsm)).transitions).map
      (nameTrans
        (nameMapOf (decodeAll (recsOf fsm)).state_ids
          (stateName (labelsFrom fsm fsm.states.enum fsm.alphabet.enum
            fsm.output_alphabet.enum)))
        (nameMapOf (decodeAll (recsOf fsm)).input_ids
          (inputName (labelsFrom fsm fsm.states.enum fsm.alphabet.enum
            fsm.output_alphabet.enum)))
        (nameMapOf (decodeAll (recsOf fsm)).output_ids
          (outputName (labelsFrom fsm fsm.states.enum fsm.alphabet.enum
            fsm.output_alphabet.enum)))) = fsm.transitions.map normTrans
    rw [enc_transitions_eq fsm hTne, List.map_map]
    apply List.map_congr_left
    intro t ht
    obtain ⟨h1, h2, h3, h4, h5⟩ := hT t ht
    have einput : (if encInp fsm t = EPSILON_INPUT then none
        else some (encInp fsm t)).bind
        (fun i => pyGet? (nameMapOf (decodeAll (recsOf fsm)).input_ids
          (inputName (labelsFrom fsm fsm.states.enum fsm.alphabet.enum
            fsm.output_alphabet.enum))) i) = normInput t.input := by
      rcases encInp_cases fsm t h4 heps with ⟨he, hni⟩ |
        ⟨a, ha, hta, he, hni⟩
      · rw [he, if_pos rfl, hni]
        rfl
      · rw [he, if_neg (hneEps a ha), hni]
        show pyGet? (nameMapOf (decodeAll (recsOf fsm)).input_ids
          (inputName (labelsFrom fsm fsm.states.enum fsm.alphabet.enum
            fsm.output_alphabet.enum))) (idxOf fsm.alphabet a) = some a
        exact hnameIval a ha
    show nameTrans _ _ _ (encTid fsm t) = normTrans t
    by_cases hm : fsm.fsm_type = "mealy"
    · rw [if_pos hm] at h5
      obtain ⟨hone, o, ho, hto⟩ := h5
      cases hcto : t.to' with
      | many ss =>
        rw [hcto] at hone
        exact absurd hone (by simp [isOneTgt])
      | one x =>
        have hx : x ∈ fsm.states := h3 x (by rw [hcto]; simp [tgts])
        unfold encTid nameTrans normTrans
        rw [if_pos hm, hcto]
        dsimp only [tgts]
        simp only [Trans.mk.injEq]
        refine ⟨hname t.src h1, einput, ?_, ?_⟩
        · show Tgt.one ((pyGet? (nameMapOf (decodeAll (recsOf fsm)).state_ids
            (stateName (labelsFrom fsm fsm.states.enum fsm.alphabet.enum
              fsm.output_alphabet.enum))) (idxOf fsm.states
                (([x] : List String).getD 0 ""))).getD "") =
            normTgt (Tgt.one x)
          rw [show (([x] : List String).getD 0 "") = x from rfl,
            hname x hx]
          rfl
        · show Option.map (fun o => (pyGet? (nameMapOf
            (decodeAll (recsOf fsm)).output_ids
            (outputName (labelsFrom fsm fsm.states.enum fsm.alphabet.enum
              fsm.output_alphabet.enum))) o).getD "")
            (some (idxOf fsm.output_alphabet (t.output.getD ""))) = t.output
          rw [hto]
          show some ((pyGet? (nameMapOf (decodeAll (recsOf fsm)).output_ids
            (outputName (labelsFrom fsm fsm.states.enum fsm.alphabet.enum
              fsm.output_alphabet.enum))) (idxOf fsm.output_alphabet o)).getD
                "") = some o
          rw [hnameO o ho]
    · rw [if_neg hm] at h5
      by_cases hlen : (tgts t.to').length = 1
      · obtain ⟨y, hy⟩ := List.length_eq_one.mp hlen
        have hymem : y ∈ fsm.states := h3 y (by rw [hy]; simp)
        have eto : normTgt t.to' = Tgt.one y := by
          rw [normTgt_eq, if_pos hlen, hy]
          rfl
        unfold encTid nameTrans normTrans
        rw [if_neg hm, if_pos hlen, hy, eto]
        simp only [Trans.mk.injEq]
        refine ⟨hname t.src h1, einput, ?_, ?_⟩
        · show Tgt.one ((pyGet? (nameMapOf (decodeAll (recsOf fsm)).state_ids
            (stateName (labelsFrom fsm fsm.states.enum fsm.alphabet.enum
              fsm.output_alphabet.enum))) (idxOf fsm.states
                (([y] : List String).getD 0 ""))).getD "") = Tgt.one y
          rw [show (([y] : List String).getD 0 "") = y from rfl,
            hname y hymem]
        · show Option.map (fun o => (pyGet? (nameMapOf
            (decodeAll (recsOf fsm)).output_ids
            (outputName (labelsFrom fsm fsm.states.enum fsm.alphabet.enum
              fsm.output_alphabet.enum))) o).getD "") none = t.output
          rw [h5]
          rfl
      · have eto : normTgt t.to' = t.to' := by
          rw [normTgt_eq, if_neg hlen]
        unfold encTid nameTrans normTrans
        rw [if_neg hm, if_neg hlen, eto]
        simp only [Trans.mk.injEq]
        refine ⟨hname t.src h1, einput, ?_, ?_⟩
        · show Tgt.many (((tgts t.to').map (idxOf fsm.states)).map
            (fun z => (pyGet? (nameMapOf (decodeAll (recsOf fsm)).state_ids
              (stateName (labelsFrom fsm fsm.states.enum fsm.alphabet.enum
                fsm.output_alphabet.enum))) z).getD "")) = t.to'
          rw [List.map_map]
          cases hcto : t.to' with
          | one s =>
            rw [hcto] at hlen
            exact absurd rfl hlen
          | many ss =>
            show Tgt.many (ss.map _) = Tgt.many ss
            congr 1
            have : ∀ z ∈ ss, ((fun z => (pyGet? (nameMapOf
                (decodeAll (recsOf fsm)).state_ids
                (stateName (labelsFrom fsm fsm.states.enum fsm.alphabet.enum
                  fsm.output_alphabet.enum))) z).getD "") ∘
                idxOf fsm.states) z = id z := by
              intro z hz
              show (pyGet? (nameMapOf (decodeAll (recsOf fsm)).state_ids
                (stateName (labelsFrom fsm fsm.states.enum fsm.alphabet.enum
                  fsm.output_alphabet.enum))) (idxOf fsm.states z)).getD ""
                = z
              exact hname z (h3 z (by rw [hcto]; simp [tgts, hz]))
            rw [List.map_congr_left this, List.map_id]
        · show Option.map (fun o => (pyGet? (nameMapOf
            (decodeAll (recsOf fsm)).output_ids
            (outputName (labelsFrom fsm fsm.states.enum fsm.alphabet.enum
              fsm.output_alphabet.enum))) o).getD "") none = t.output
          rw [h5]
          rfl

/-- A valid DFA whose single state is never flagged or referenced. -/
def unrefExample : FSM :=
  { fsm_type := "dfa"
    states := ["A"] }

/-- A small NFA exercising the multi-target encoding, valid and fully
referenced. -/
def rtExample : FSM :=
  { fsm_type := "nfa"
    states := ["A", "B"]
    alphabet := ["x"]
    initial := some "A"
    accepting := ["B"]
    transitions :=
      [{ src := "A", input := some "x", to' := Tgt.many ["A", "B"],
         output := none }] }

/-- Counterexample to claim C1 as stated: a valid model with an unreferenced,
unflagged state encodes to zero records, and decoding them (even with the
encoder's own label maps) loses the state entirely. -/
theorem roundtrip_drops_unreferenced_state :
    json_to_fsm unrefExample = some unrefExample ∧
    unrefExample.states = ["A"] ∧
    fsm_to_hex_recs unrefExample = some ([], [(0, "A")], [], []) ∧
    (hex_to_fsm [] (some (labelsFrom unrefExample [(0, "A")] [] []))).states
      = [] :=
  ⟨rfl, rfl, rfl, rfl⟩

theorem fsm_roundtrip_witness :
    ∃ recs sn inm onm,
      fsm_to_hex_recs rtExample = some (recs, sn, inm, onm) ∧
      (hex_to_fsm recs (some (labelsFrom rtExample sn inm onm))).fsm_type =
        rtExample.fsm_type ∧
      (hex_to_fsm recs (some (labelsFrom rtExample sn inm onm))).states =
        rtExample.states ∧
      (hex_to_fsm recs (some (labelsFrom rtExample sn inm onm))).alphabet =
        rtExample.alphabet ∧
      (hex_to_fsm recs
        (some (labelsFrom rtExample sn inm onm))).output_alphabet =
        rtExample.output_alphabet ∧
      (hex_to_fsm recs (some (labelsFrom rtExample sn inm onm))).initial =
        rtExample.initial ∧
      (hex_to_fsm recs
        (some (labelsFrom rtExample sn inm onm))).accepting.Perm
        rtExample.accepting ∧
      (∀ s, pyGet?
        (hex_to_fsm recs (some (labelsFrom rtExample sn inm onm))).state_outputs
          s = pyGet? rtExample.state_outputs s) ∧
      (hex_to_fsm recs (some (labelsFrom rtExample sn inm onm))).transitions =
        rtExample.transitions.map normTrans :=
  fsm_roundtrip rtExample
    (by
      unfold ValidModel
      refine ⟨by decide, rfl, by decide, by decide, by decide, by decide,
        ?_, by decide, by decide, by decide, by decide, fun _ => rfl,
        by decide⟩
      intro s hs
      have hs' : some "A" = some s := hs
      injection hs' with h
      rw [← h]
      decide)
    (by
      unfold FullyReferenced
      refine ⟨by decide, by decide, by decide⟩)

theorem decoded_model_well_formed_witness :
    "S0" ∈ (hex_to_fsm [⟨TYPE_STATE_DECL, 0, 3, 2, 0⟩,
        ⟨TYPE_DFA_TRANSITION, 0, 1, 0, 0⟩] none).states ∧
    "i1" ∈ (hex_to_fsm [⟨TYPE_STATE_DECL, 0, 3, 2, 0⟩,
        ⟨TYPE_DFA_TRANSITION, 0, 1, 0, 0⟩] none).alphabet :=
  ⟨(decoded_model_well_formed [⟨TYPE_STATE_DECL, 0, 3, 2, 0⟩,
      ⟨TYPE_DFA_TRANSITION, 0, 1, 0, 0⟩] none).1 "S0" (by decide),
   ((decoded_model_well_formed [⟨TYPE_STATE_DECL, 0, 3, 2, 0⟩,
      ⟨TYPE_DFA_TRANSITION, 0, 1, 0, 0⟩] none).2.2.1
      ⟨"S0", some "i1", Tgt.one "S0", none⟩
      (by decide)).2.2.2.1 "i1" rfl⟩

end FsmToolkit
